import Mathlib

/-!
# rspamd: buffered I/O dispatcher and DNS resolver

A shallow embedding of `src/buffer.c` and `src/dns.c` together with the
properties of the specification that were checked against it.

Conventions.
* C `unsigned`/`guint32` values are natural numbers kept below `2^32`; every
  operation that can wrap is followed by `w32`.
* Bytes are natural numbers below 256, byte buffers are lists.
* External inputs (random key words, results of `read`/`write`, initial
  contents of freshly allocated memory) are explicit parameters.
-/

namespace Rspamd

/-! ## Machine arithmetic -/

/-- Reduction of a natural number to a C `unsigned` (32 bit). -/
def w32 (x : Nat) : Nat := x % 4294967296

/-- Subtraction of C `unsigned` values: `a - b` modulo `2^32`. -/
def sub32 (a b : Nat) : Nat := w32 (a + 4294967296 - w32 b)

/-! ## `dns.c`: the permutation generator -/

/-- The constant `DNS_K_TEA_CYCLES`. -/
def DNS_K_TEA_CYCLES : Nat := 32

/-- The constant `DNS_K_TEA_MAGIC`. -/
def DNS_K_TEA_MAGIC : Nat := 0x9E3779B9

/-- The constant `DNS_K_PERMUTOR_ROUNDS`. -/
def DNS_K_PERMUTOR_ROUNDS : Nat := 8

/-- The `struct dns_k_tea`: four 32-bit key words and the cycle count. -/
structure dns_k_tea where
  key0 : Nat
  key1 : Nat
  key2 : Nat
  key3 : Nat
  cycles : Nat
deriving DecidableEq, Repr

/-- The `struct dns_k_permutor`. -/
structure dns_k_permutor where
  stepi : Nat
  length : Nat
  limit : Nat
  shift : Nat
  mask : Nat
  rounds : Nat
  tea : dns_k_tea
deriving DecidableEq, Repr

/-- The function `dns_k_tea_init`: copy the key, `cycles = cycles ? cycles : DNS_K_TEA_CYCLES`. -/
def dns_k_tea_init (k0 k1 k2 k3 : Nat) (cycles : Nat) : dns_k_tea :=
  { key0 := k0, key1 := k1, key2 := k2, key3 := k3,
    cycles := if cycles ≠ 0 then cycles else DNS_K_TEA_CYCLES }

/-- The body of the `for (n = 0; n < tea->cycles; n++)` loop of
`dns_k_tea_encrypt`, run for the given number of remaining iterations on the
locals `y`, `z`, `sum`. -/
def dns_k_tea_encrypt_loop (tea : dns_k_tea) : Nat → Nat → Nat → Nat → Nat × Nat
  | 0, y, z, _ => (y, z)
  | k + 1, y, z, sum =>
    let sum1 := w32 (sum + DNS_K_TEA_MAGIC)
    let y1 := w32 (y + ((w32 (w32 (z <<< 4) + tea.key0) ^^^ w32 (z + sum1))
                ^^^ w32 ((z >>> 5) + tea.key1)))
    let z1 := w32 (z + ((w32 (w32 (y1 <<< 4) + tea.key2) ^^^ w32 (y1 + sum1))
                ^^^ w32 ((y1 >>> 5) + tea.key3)))
    dns_k_tea_encrypt_loop tea k y1 z1 sum1

/-- The function `dns_k_tea_encrypt`: `v[0], v[1] ↦ w[0], w[1]`. -/
def dns_k_tea_encrypt (tea : dns_k_tea) (v0 v1 : Nat) : Nat × Nat :=
  dns_k_tea_encrypt_loop tea tea.cycles v0 v1 0

/-- The loop `for (m = 1; m < n; m <<= 1, i++);` of `dns_k_permutor_powof`.
The shift wraps at 32 bits, so the loop need not end; `none` is returned when
the given number of iterations does not suffice. -/
def dns_k_permutor_powof_loop (n : Nat) : Nat → Nat → Nat → Option Nat
  | 0, _, _ => none
  | fuel + 1, m, i =>
    if m < n then dns_k_permutor_powof_loop n fuel (w32 (m <<< 1)) (i + 1) else some i

/-- The function `dns_k_permutor_powof`.  After 32 doublings `m` is zero and
stays zero, so 34 iterations decide whether the loop ends. -/
def dns_k_permutor_powof (n : Nat) : Option Nat :=
  dns_k_permutor_powof_loop n 34 1 0

/-- The function `dns_k_permutor_init`.  The four key words drawn from
`DNS_RANDOM ()` are parameters.  The result is `none` when
`dns_k_permutor_powof` does not return. -/
def dns_k_permutor_init (k0 k1 k2 k3 : Nat) (low high : Nat) : Option dns_k_permutor :=
  let length := w32 (sub32 high low + 1)
  match dns_k_permutor_powof length with
  | none => none
  | some w =>
    let width := w + w % 2
    let shift := width / 2
    some { stepi := 0
           length := length
           limit := high
           shift := shift
           mask := sub32 (w32 (1 <<< shift)) 1
           rounds := DNS_K_PERMUTOR_ROUNDS
           tea := dns_k_tea_init k0 k1 k2 k3 0 }

/-- The function `dns_k_permutor_F`. -/
def dns_k_permutor_F (p : dns_k_permutor) (k x : Nat) : Nat :=
  p.mask &&& (dns_k_tea_encrypt p.tea k x).1

/-- Read of a two-element array `a[i]`, `i ∈ {0, 1}`. -/
def arr2_get (a : Nat × Nat) (i : Nat) : Nat := if i = 0 then a.1 else a.2

/-- Write of a two-element array `a[i] = v`, `i ∈ {0, 1}`. -/
def arr2_set (a : Nat × Nat) (i : Nat) (v : Nat) : Nat × Nat :=
  if i = 0 then (v, a.2) else (a.1, v)

/-- The `do { ... i++; } while (i < p->rounds - 1)` loop of
`dns_k_permutor_E` on the locals `i`, `l[2]`, `r[2]`; `bound` is the value of
the loop-invariant expression `p->rounds - 1`.  The first argument bounds the
number of iterations; `dns_k_permutor_E` passes `bound + 1`, which is never
used up. -/
def dns_k_permutor_E_loop (p : dns_k_permutor) (bound : Nat) :
    Nat → Nat → Nat × Nat → Nat × Nat → Nat × (Nat × Nat) × (Nat × Nat)
  | 0, i, l, r => (i, l, r)
  | fuel + 1, i, l, r =>
    let l1 := arr2_set l ((i + 1) % 2) (arr2_get r (i % 2))
    let r1 := arr2_set r ((i + 1) % 2)
      (arr2_get l1 (i % 2) ^^^ dns_k_permutor_F p i (arr2_get r (i % 2)))
    if i + 1 < bound then dns_k_permutor_E_loop p bound fuel (i + 1) l1 r1 else (i + 1, l1, r1)

/-- The function `dns_k_permutor_E`. -/
def dns_k_permutor_E (p : dns_k_permutor) (n : Nat) : Nat :=
  let l0 : Nat × Nat := (p.mask &&& (n >>> p.shift), 0)
  let r0 : Nat × Nat := (p.mask &&& (n >>> 0), 0)
  let res := dns_k_permutor_E_loop p (sub32 p.rounds 1) (sub32 p.rounds 1 + 1) 0 l0 r0
  let i := res.1
  let l := res.2.1
  let r := res.2.2
  w32 ((arr2_get l (i % 2) &&& p.mask) <<< p.shift) ||| w32 ((arr2_get r (i % 2) &&& p.mask) <<< 0)

/-- The function `dns_k_permutor_step`: the `do { n = E (p, p->stepi++); }
while (n >= p->length)` loop, then `n + (p->limit + 1 - p->length)`.  The loop
is bounded by `fuel` iterations; `none` means the fuel ran out. -/
def dns_k_permutor_step : Nat → dns_k_permutor → Option (Nat × dns_k_permutor)
  | 0, _ => none
  | fuel + 1, p =>
    let n := dns_k_permutor_E p p.stepi
    let p1 := { p with stepi := w32 (p.stepi + 1) }
    if n ≥ p.length then dns_k_permutor_step fuel p1
    else some (w32 (n + sub32 (w32 (p.limit + 1)) p.length), p1)

/-- The values returned by `k` successive calls of `dns_k_permutor_step`. -/
def permutor_outputs (fuel : Nat) : Nat → dns_k_permutor → Option (List Nat)
  | 0, _ => some []
  | k + 1, p =>
    match dns_k_permutor_step fuel p with
    | none => none
    | some (v, p1) =>
      match permutor_outputs fuel k p1 with
      | none => none
      | some vs => some (v :: vs)

/-! ## Auxiliary definitions for the permutation generator -/

/-- One Feistel round on the current pair of halves. -/
def feistel_round (p : dns_k_permutor) (i : Nat) (x : Nat × Nat) : Nat × Nat :=
  (x.2, x.1 ^^^ dns_k_permutor_F p i x.2)

/-- The rounds `i, i+1, ..., i+n-1` applied in this order. -/
def feistel_iter (p : dns_k_permutor) : Nat → Nat → Nat × Nat → Nat × Nat
  | _, 0, x => x
  | i, n + 1, x => feistel_iter p (i + 1) n (feistel_round p i x)

/-- Number of Feistel rounds that `dns_k_permutor_E` performs. -/
def E_rounds (p : dns_k_permutor) : Nat := max 1 (sub32 p.rounds 1)

/-- The facts about a freshly initialised permutor that the cycle-walking
argument needs. -/
structure PermInit (p : dns_k_permutor) (low high : Nat) : Prop where
  stepi : p.stepi = 0
  length : p.length = high - low + 1
  limit : p.limit = high
  mask : p.mask = 2 ^ p.shift - 1
  shift : p.shift ≤ 16
  fits : p.length ≤ 2 ^ p.shift * 2 ^ p.shift

/-- The candidates that survive cycle-walking among `E s, E (s+1), ..., E (s+m-1)`. -/
def walk_hits (p : dns_k_permutor) (s m : Nat) : List Nat :=
  ((List.range' s m).map (dns_k_permutor_E p)).filter (fun v => decide (v < p.length))

/-! ## `dns.c`: building queries -/

/-- Modelled from the spec: the constant `DNS_D_MAXLABEL` of the absent
`dns.h` (a label has at most 63 octets). -/
def DNS_D_MAXLABEL : Nat := 63

/-- Modelled from the spec: the constant `DNS_C_IN` of the absent `dns.h`
(class IN is 1). -/
def DNS_C_IN : Nat := 1

/-- Modelled from the spec: the constant `DNS_T_A` of the absent `dns.h`
(QTYPE 1). -/
def DNS_T_A : Nat := 1

/-- Modelled from the spec: the constant `DNS_T_PTR` of the absent `dns.h`
(QTYPE 12). -/
def DNS_T_PTR : Nat := 12

/-- Modelled from the spec: the size of `struct dns_header` of the absent
`dns.h` (the header has 12 bytes). -/
def dns_header_size : Nat := 12

/-- Modelled from the spec: the enumeration `rspamd_request_type` of the
absent `dns.h`. -/
inductive rspamd_request_type where
  | DNS_REQUEST_A
  | DNS_REQUEST_PTR
  | DNS_REQUEST_MX
  | DNS_REQUEST_TXT
deriving DecidableEq, Repr

/-- Modelled from the spec: the fields of `struct dns_header` of the absent
`dns.h`, as numbers.  The struct overlays the first 12 bytes of a packet (see
`dns_header_view` for the layout). -/
structure dns_header where
  qid : Nat := 0
  qr : Nat := 0
  opcode : Nat := 0
  aa : Nat := 0
  tc : Nat := 0
  rd : Nat := 0
  ra : Nat := 0
  z : Nat := 0
  rcode : Nat := 0
  qdcount : Nat := 0
  ancount : Nat := 0
  nscount : Nat := 0
  arcount : Nat := 0
deriving DecidableEq, Repr

/-- The fields of `struct rspamd_dns_request` that `dns.c` uses.  For the
construction of a query: `packet` holds the bytes of the allocated packet
(`packet_len` of them; the first 12 are the header), `type` is unset until a
`make_*_req` function stores it.  For
sending: `retransmits` is the retransmit counter, `server` the index of the
selected server in `resolver->servers` (`none` is `NULL`), `sock` the socket
(`-1` when there is none) and `tv_sec`, `tv_usec` the two fields of `tv`. -/
structure rspamd_dns_request where
  packet : List Nat := []
  pos : Nat := 0
  packet_len : Nat := 0
  id : Nat := 0
  type : Option rspamd_request_type := none
  retransmits : Nat := 0
  server : Option Nat := none
  sock : Int := -1
  tv_sec : Nat := 0
  tv_usec : Nat := 0
deriving DecidableEq, Repr

/-- Store of one byte at offset `off` of a memory block; `none` when the
offset lies outside the block. -/
def poke (mem : List Nat) (off : Nat) (v : Nat) : Option (List Nat) :=
  if off < mem.length then some (mem.set off v) else none

/-- Store of consecutive bytes starting at offset `off` (`memcpy` into the block). -/
def poke_bytes (mem : List Nat) : Nat → List Nat → Option (List Nat)
  | _, [] => some mem
  | off, b :: bs =>
    match poke mem off b with
    | none => none
    | some m => poke_bytes m (off + 1) bs

/-- The bytes `mem[off .. off+n)`; `none` when they are not all inside the block. -/
def peek_bytes (mem : List Nat) (off n : Nat) : Option (List Nat) :=
  if off + n ≤ mem.length then some ((mem.drop off).take n) else none

/-- Search of the first `c` in a string, the offset of the first character
examined being `off`. -/
def strchr_from : List Nat → Nat → Nat → Option Nat
  | [], _, _ => none
  | x :: xs, off, c => if x = c then some off else strchr_from xs (off + 1) c

/-- The library function `strchr (s + start, c)` on a NUL-terminated string
given by its characters; the result is an offset into `s`. -/
def strchr (s : List Nat) (start : Nat) (c : Nat) : Option Nat :=
  strchr_from (s.drop start) start c

/-- The `struct dns_name_table`: `off` and `len` are `guint8`, `label` is the
offset of the label in the name. -/
structure dns_name_table where
  off : Nat
  label : Nat
  len : Nat
deriving DecidableEq, Repr

/-- The `while (cur)` loop of `try_compress_label`: the first table entry with
the same length and the same bytes. -/
def try_compress_label_find (name : List Nat) (len label : Nat) :
    List dns_name_table → Option dns_name_table
  | [] => none
  | tbl :: rest =>
    if tbl.len = len ∧ (name.drop label).take len = (name.drop tbl.label).take len then some tbl
    else try_compress_label_find name len label rest

/-- The function `try_compress_label`.  On a match `*target = tbl->off | 0xC0`
is stored and `TRUE` returned.  Otherwise a new entry is prepended to the
callee's own copy of the list pointer `table` (the parameter is passed by
value, so the caller's list is unchanged) and `FALSE` is returned.  The result
is the returned flag and the packet; `none` is a store outside the packet. -/
def try_compress_label (name : List Nat) (packet : List Nat) (target start : Nat)
    (len label : Nat) (table : List dns_name_table) : Option (Bool × List Nat) :=
  match try_compress_label_find name len label table with
  | some tbl =>
    match poke packet target (tbl.off ||| 0xC0) with
    | none => none
    | some pk => some (true, pk)
  | none =>
    let tbl : dns_name_table := { off := (target - start) % 256, label := label, len := len }
    let _table := tbl :: table
    some (false, packet)

/-- The function `allocate_packet`.  The pool memory is not cleared: `junk`
gives the byte found at each offset of the fresh block. -/
def allocate_packet (junk : Nat → Nat) (req : rspamd_dns_request) (namelen : Nat) :
    rspamd_dns_request :=
  let namelen1 := w32 (namelen + 96 + 2 + 4)
  { req with packet := (List.range namelen1).map junk, pos := 0, packet_len := namelen1 }

/-- The two bytes that a store to a 16-bit field leaves in memory, in the byte
order of the host (`be = true`: big-endian host, `be = false`: little-endian
host). -/
def host16_bytes (be : Bool) (v : Nat) : List Nat :=
  if be then [v / 256 % 256, v % 256] else [v % 256, v / 256 % 256]

/-- The value that a load of a 16-bit field gives for the two bytes `b0`, `b1`
found in memory, in the byte order of the host. -/
def host16 (be : Bool) (b0 b1 : Nat) : Nat := if be then b0 * 256 + b1 else b1 * 256 + b0

/-- Modelled from the spec: the layout of `struct dns_header` of the absent
`dns.h`, read through the overlay `(struct dns_header *) mem`.  The header has
12 bytes: the id, two bytes of flags (`qr`, `opcode`, `aa`, `tc`, `rd` from
the top bit of the third byte down, then `ra`, the three unused bits and
`rcode` in the fourth byte) and the four counts.  The 16-bit fields are loaded
in the byte order of the host.  The result is `none` when `mem` has fewer than
12 bytes. -/
def dns_header_view (be : Bool) (mem : List Nat) : Option dns_header :=
  match peek_bytes mem 0 dns_header_size with
  | some [i0, i1, f0, f1, q0, q1, a0, a1, n0, n1, r0, r1] =>
    some { qid := host16 be i0 i1,
           qr := f0 / 128 % 2, opcode := f0 / 8 % 16, aa := f0 / 4 % 2, tc := f0 / 2 % 2,
           rd := f0 % 2,
           ra := f1 / 128 % 2, z := f1 / 16 % 8, rcode := f1 % 16,
           qdcount := host16 be q0 q1, ancount := host16 be a0 a1,
           nscount := host16 be n0 n1, arcount := host16 be r0 r1 }
  | _ => none

/-- The function `make_dns_header` on a host of the given byte order.  `header`
is the overlay of the first bytes of `req->packet`: `memset` clears its 12
bytes, `header->qid = dns_k_permutor_step (...)` stores the value (16 bit) in
the first two bytes, `header->rd = 1` sets the lowest bit of the third byte,
`header->qdcount = 1` stores 1 in the bytes 4 and 5; the two 16-bit stores are
in the byte order of the host (there is no `htons`).  The cursor advances by
the header size and `req->id = header->qid`.  The result is `none` when the
packet has fewer than 12 bytes or when `dns_k_permutor_step` does not return
within `fuel` iterations. -/
def make_dns_header (be : Bool) (fuel : Nat) (p : dns_k_permutor) (req : rspamd_dns_request) :
    Option (rspamd_dns_request × dns_k_permutor) :=
  match poke_bytes req.packet 0 (List.replicate dns_header_size 0) with
  | none => none
  | some pk0 =>
    match dns_k_permutor_step fuel p with
    | none => none
    | some (v, p1) =>
      let qid := v % 65536
      match poke_bytes pk0 0 (host16_bytes be qid) with
      | none => none
      | some pk1 =>
        match poke pk1 2 ((pk1.getD 2 0) ||| 1) with
        | none => none
        | some pk2 =>
          match poke_bytes pk2 4 (host16_bytes be 1) with
          | none => none
          | some pk3 =>
            some ({ req with packet := pk3, pos := req.pos + dns_header_size, id := qid }, p1)

/-- The locals of `format_dns_name` that change in its loop. -/
structure format_state where
  packet : List Nat
  pos : Nat
  start : Nat
  remain : Nat
  label_len : Nat
deriving DecidableEq, Repr

/-- The `for (;;)` loop of `format_dns_name`.  `table` is the local list
pointer of `format_dns_name`; it is initialised to `NULL` and never assigned
again.  `base` is the offset of the packet (zero), `st.start` is the local
`begin`.  The result is `none` when a store leaves the packet, a label is read
past the end of the name, or the loop does not end within `fuel` iterations. -/
def format_dns_name_loop (name : List Nat) (namelen : Nat) (table : List dns_name_table) :
    Nat → format_state → Option format_state
  | 0, _ => none
  | fuel + 1, st =>
    match strchr name st.start 46 with
    | some e =>
      let ll1 := if st.label_len > DNS_D_MAXLABEL then DNS_D_MAXLABEL else st.label_len
      let ll2 := if st.remain < w32 (ll1 + 1) then sub32 st.remain 1 else ll1
      match try_compress_label name st.packet st.pos 0 ((e - st.start) % 256) st.start table with
      | none => none
      | some (false, pk) =>
        let ll3 := e - st.start
        match poke pk st.pos (ll3 % 256) with
        | none => none
        | some pk1 =>
          match peek_bytes name st.start ll3 with
          | none => none
          | some src =>
            match poke_bytes pk1 (st.pos + 1) src with
            | none => none
            | some pk2 =>
              let st1 : format_state :=
                { packet := pk2, pos := st.pos + 1 + ll3, start := e + 1,
                  remain := sub32 st.remain (w32 (ll3 + 1)), label_len := ll3 }
              if st1.remain = 0 then some st1
              else format_dns_name_loop name namelen table fuel st1
      | some (true, pk) =>
        let st1 : format_state := { st with packet := pk, pos := st.pos + 1, label_len := ll2 }
        if st1.remain = 0 then some st1
        else format_dns_name_loop name namelen table fuel st1
    | none =>
      let ll0 := sub32 namelen st.start
      if ll0 = 0 then some { st with label_len := ll0 }
      else
        let ll1 := if ll0 > DNS_D_MAXLABEL then DNS_D_MAXLABEL else ll0
        let ll2 := if st.remain < w32 (ll1 + 1) then sub32 st.remain 1 else ll1
        match poke st.packet st.pos (ll2 % 256) with
        | none => none
        | some pk1 =>
          match peek_bytes name st.start ll2 with
          | none => none
          | some src =>
            match poke_bytes pk1 (st.pos + 1) src with
            | none => none
            | some pk2 =>
              some { packet := pk2, pos := st.pos + 1 + ll2, start := st.start,
                     remain := sub32 st.remain (w32 (ll2 + 1)), label_len := ll2 }

/-- The function `format_dns_name`.  `label_len0` is the value that the
uninitialised local `label_len` happens to hold.  After the loop the
terminating zero is stored by `*(++pos) = 0` and the cursor is advanced by
`pos - (req->packet + req->pos) + 1`. -/
def format_dns_name (label_len0 : Nat) (req : rspamd_dns_request) (name : List Nat)
    (namelen : Nat) : Option rspamd_dns_request :=
  let remain := sub32 (sub32 req.packet_len req.pos) 5
  let table : List dns_name_table := []
  let namelen1 := if namelen = 0 then name.length else namelen
  let st0 : format_state :=
    { packet := req.packet, pos := req.pos, start := 0, remain := remain, label_len := label_len0 }
  match format_dns_name_loop name namelen1 table (name.length + 1) st0 with
  | none => none
  | some st =>
    let pos1 := st.pos + 1
    match poke st.packet pos1 0 with
    | none => none
    | some pk => some { req with packet := pk, pos := req.pos + (pos1 - req.pos) + 1 }

/-- The bytes that a store of `htons (v)` through a `guint16 *` leaves in
memory: high octet first. -/
def htons_bytes (v : Nat) : List Nat := [v / 256 % 256, v % 256]

/-- The common tail of `make_a_req`, `make_ptr_req`, `make_mx_req` and
`make_txt_req`: `p = (guint16 *) req->packet + req->pos` (the cast binds
first, so `p` is `2 * req->pos` bytes into the packet), `*p++ = htons
(DNS_C_IN)`, `*p = htons (qtype)`, `req->pos += 4`, `req->type = type`. -/
def store_class_type (req : rspamd_dns_request) (qtype : Nat) (type : rspamd_request_type) :
    Option rspamd_dns_request :=
  let p := 2 * req.pos
  match poke_bytes req.packet p (htons_bytes DNS_C_IN) with
  | none => none
  | some pk1 =>
    match poke_bytes pk1 (p + 2) (htons_bytes qtype) with
    | none => none
    | some pk2 => some { req with packet := pk2, pos := req.pos + 2 * 2, type := some type }

/-- The steps shared by the four `make_*_req` functions: `allocate_packet`,
`make_dns_header`, `format_dns_name`, then the stores of class and type. -/
def make_req (be : Bool) (fuel : Nat) (p : dns_k_permutor) (junk : Nat → Nat) (label_len0 : Nat)
    (req : rspamd_dns_request) (name : List Nat) (alloclen namelen : Nat) (qtype : Nat)
    (type : rspamd_request_type) : Option (rspamd_dns_request × dns_k_permutor) :=
  match make_dns_header be fuel p (allocate_packet junk req alloclen) with
  | none => none
  | some (req1, p1) =>
    match format_dns_name label_len0 req1 name namelen with
    | none => none
    | some req2 =>
      match store_class_type req2 qtype type with
      | none => none
      | some req3 => some (req3, p1)

/-- The function `make_a_req`: the type stored is `DNS_T_A`. -/
def make_a_req (be : Bool) (fuel : Nat) (p : dns_k_permutor) (junk : Nat → Nat) (label_len0 : Nat)
    (req : rspamd_dns_request) (name : List Nat) :
    Option (rspamd_dns_request × dns_k_permutor) :=
  make_req be fuel p junk label_len0 req name name.length 0 DNS_T_A rspamd_request_type.DNS_REQUEST_A

/-- The function `make_txt_req`: the type stored is `DNS_T_A`. -/
def make_txt_req (be : Bool) (fuel : Nat) (p : dns_k_permutor) (junk : Nat → Nat) (label_len0 : Nat)
    (req : rspamd_dns_request) (name : List Nat) :
    Option (rspamd_dns_request × dns_k_permutor) :=
  make_req be fuel p junk label_len0 req name name.length 0 DNS_T_A rspamd_request_type.DNS_REQUEST_TXT

/-- The function `make_mx_req`: the type stored is `DNS_T_A`. -/
def make_mx_req (be : Bool) (fuel : Nat) (p : dns_k_permutor) (junk : Nat → Nat) (label_len0 : Nat)
    (req : rspamd_dns_request) (name : List Nat) :
    Option (rspamd_dns_request × dns_k_permutor) :=
  make_req be fuel p junk label_len0 req name name.length 0 DNS_T_A rspamd_request_type.DNS_REQUEST_MX

/-- The decimal digits of a number as characters (the `%d` conversion of a
value in `0..255`). -/
def decimal (n : Nat) : List Nat := (Nat.toDigits 10 n).map Char.toNat

/-- The text that `rspamd_snprintf (ipbuf, sizeof (ipbuf),
"%d.%d.%d.%d.in-addr.arpa", a & 0xff, (a >> 8) & 0xff, (a >> 16) & 0xff,
(a >> 24) & 0xff)` leaves in `ipbuf`; its length is the value `r`. -/
def ptr_name (a : Nat) : List Nat :=
  decimal (a &&& 0xff) ++ [46] ++ decimal ((a >>> 8) &&& 0xff) ++ [46] ++
  decimal ((a >>> 16) &&& 0xff) ++ [46] ++ decimal ((a >>> 24) &&& 0xff) ++
  ".in-addr.arpa".toList.map Char.toNat

/-- The function `make_ptr_req`; `a` is the 32-bit value of `addr.s_addr` as
the host reads it. -/
def make_ptr_req (be : Bool) (fuel : Nat) (p : dns_k_permutor) (junk : Nat → Nat) (label_len0 : Nat)
    (req : rspamd_dns_request) (a : Nat) : Option (rspamd_dns_request × dns_k_permutor) :=
  let ipbuf := ptr_name a
  let r := ipbuf.length
  make_req be fuel p junk label_len0 req ipbuf r r DNS_T_PTR rspamd_request_type.DNS_REQUEST_PTR

/-- The packet-building part of `make_dns_request`: the `switch (type)` that
calls one of the four `make_*_req` functions.  `name` is the variadic argument
of the name-based requests, `a` that of a PTR request. -/
def make_dns_request_packet (be : Bool) (fuel : Nat) (p : dns_k_permutor) (junk : Nat → Nat)
    (label_len0 : Nat) (type : rspamd_request_type) (name : List Nat) (a : Nat) :
    Option (rspamd_dns_request × dns_k_permutor) :=
  let req : rspamd_dns_request := {}
  match type with
  | rspamd_request_type.DNS_REQUEST_PTR => make_ptr_req be fuel p junk label_len0 req a
  | rspamd_request_type.DNS_REQUEST_MX => make_mx_req be fuel p junk label_len0 req name
  | rspamd_request_type.DNS_REQUEST_A => make_a_req be fuel p junk label_len0 req name
  | rspamd_request_type.DNS_REQUEST_TXT => make_txt_req be fuel p junk label_len0 req name

/-! ## `dns.c`: parsing replies -/

/-- The constant `UDP_PACKET_SIZE`. -/
def UDP_PACKET_SIZE : Nat := 512

/-- Load of one byte `mem[off]`; `none` when the offset lies outside the block. -/
def peek (mem : List Nat) (off : Nat) : Option Nat := mem.get? off

/-- Load `*((guint16 *) p)` of two bytes in the byte order of the host
(`be = true`: big-endian host, `be = false`: little-endian host). -/
def peek16 (be : Bool) (mem : List Nat) (off : Nat) : Option Nat :=
  match peek mem off, peek mem (off + 1) with
  | some b0, some b1 => some (if be then b0 * 256 + b1 else b1 * 256 + b0)
  | _, _ => none

/-- The function `decompress_label (begin, &len)`: `offset = len ^ 0xC0` as a
`guint8`, the new `len` is `begin[offset]`, the result is `begin + offset + 1`.
`base` is the offset of `begin` in `mem`.  The result is the pair of the
returned position and the new length. -/
def decompress_label (mem : List Nat) (base : Nat) (len : Nat) : Option (Nat × Nat) :=
  let offset := (len ^^^ 0xC0) % 256
  match peek mem (base + offset) with
  | none => none
  | some len1 => some (base + offset + 1, len1)

/-- The `for (;;)` loop of `dns_request_reply_cmp`.  `inb` is the memory at
`in`, `p` an offset into it; `packet` is `req->packet`, `c` an offset into it.
The result is `none` when a byte outside one of the two blocks is read (or
`fuel` runs out), `some none` when the function returns `NULL`, and
`some (some (p, c))` when the loop is left by `break`. -/
def dns_request_reply_cmp_loop (packet inb : List Nat) (len : Int) :
    Nat → Nat → Nat → Option (Option (Nat × Nat))
  | 0, _, _ => none
  | fuel + 1, p, c =>
    match peek inb p, peek packet c with
    | some len1, some len2 =>
      if (p : Int) > len then some none
      else
        let r1 : Option (Nat × Nat × Nat) :=
          if len1 &&& 0xC0 ≠ 0 then
            match decompress_label inb 0 len1 with
            | none => none
            | some (l1, n1) => some (l1, n1, p + 1)
          else some (p + 1, len1, p + 1 + len1)
        let r2 : Option (Nat × Nat × Nat) :=
          if len2 &&& 0xC0 ≠ 0 then
            match decompress_label packet 0 len2 with
            | none => none
            | some (l2, n2) => some (l2, n2, c + 1)
          else some (c + 1, len2, c + 1 + len2)
        match r1, r2 with
        | some (l1, n1, p1), some (l2, n2, c1) =>
          if n1 ≠ n2 then some none
          else if n1 = 0 then some (some (p1, c1))
          else
            match peek_bytes inb l1 n1, peek_bytes packet l2 n1 with
            | some b1, some b2 =>
              if b1 ≠ b2 then some none
              else dns_request_reply_cmp_loop packet inb len fuel p1 c1
            | _, _ => none
        | _, _ => none
    | _, _ => none

/-- The function `dns_request_reply_cmp (req, in, len)`.  `inb` is the memory
at `in`; the result `some (some q)` is the returned pointer `in + q`,
`some none` is `NULL`, `none` is a read outside the memory blocks. -/
def dns_request_reply_cmp (req : rspamd_dns_request) (inb : List Nat) (len : Int) :
    Option (Option Nat) :=
  match dns_request_reply_cmp_loop req.packet inb len (inb.length + 1) 0 dns_header_size with
  | none => none
  | some none => some none
  | some (some (p, c)) =>
    match peek_bytes inb p (2 * 2), peek_bytes req.packet c (2 * 2) with
    | some b1, some b2 => if b1 = b2 then some (some (p + 2 * 2)) else some none
    | _, _ => none

/-- The `union rspamd_reply_element` as far as `dns_parse_rr` fills it: the
four bytes stored into `a.addr[0].s_addr`, or nothing stored. -/
structure rspamd_reply_element where
  a_addr : Option (List Nat) := none
deriving DecidableEq, Repr

/-- What one call of `dns_parse_rr` leaves behind.  `ret` is the returned
flag, `none` when the end of the function is reached without a `return`
statement; `pos` and `remain` are the new values of `*pos` and `*remain`;
`elt` is the element; `type_at` is the offset from which `type` was loaded
(when it was loaded). -/
structure parse_rr_result where
  ret : Option Bool
  pos : Nat
  remain : Int
  elt : rspamd_reply_element
  type_at : Option Nat := none
  type : Option Nat := none
deriving DecidableEq, Repr

/-- The `while (p - *pos < *remain)` loop of `dns_parse_rr` that skips the
owner name; the result is the new `p`, `none` when a byte outside `mem` is
read or `fuel` runs out. -/
def dns_parse_rr_skip (mem : List Nat) (pos0 : Nat) (remain : Int) : Nat → Nat → Option Nat
  | 0, _ => none
  | fuel + 1, p =>
    if ((p : Int) - (pos0 : Int) < remain) then
      match peek mem p with
      | none => none
      | some b =>
        if b &&& 0xC0 ≠ 0 then dns_parse_rr_skip mem pos0 remain fuel (p + 1)
        else if b = 0 then some (p + 1)
        else dns_parse_rr_skip mem pos0 remain fuel (p + (b + 1))
    else some p

/-- The number of values of a `size_t` (`2^64`, an LP64 platform); arithmetic in
`size_t` is taken modulo this number. -/
def SIZE_T_MOD : Nat := 18446744073709551616

/-- The function `dns_parse_rr (elt, pos, rep, remain)`; `DNS_T_A` is the only
case of its `switch (type)`.  `mem` is the memory that
holds the datagram, `pos0` and `remain0` the values of `*pos` and `*remain` on
entry, `be` the byte order of the host.  The comparison `p - *pos >= *remain -
sizeof (guint16) * 5` is made in `size_t`.  The result is `none` when a byte
outside `mem` is read. -/
def dns_parse_rr (be : Bool) (mem : List Nat) (elt : rspamd_reply_element) (pos0 : Nat)
    (remain0 : Int) : Option parse_rr_result :=
  match dns_parse_rr_skip mem pos0 remain0 (mem.length + 1) pos0 with
  | none => none
  | some p =>
    if (p - pos0) % SIZE_T_MOD ≥ ((remain0 - (2 * 5 : Int)) % (SIZE_T_MOD : Int)).toNat then
      some { ret := some false, pos := pos0, remain := remain0, elt := elt }
    else
      match peek16 be mem p with
      | none => none
      | some type =>
        let p1 := p + (2 * 2 + 4)
        match peek16 be mem p1 with
        | none => none
        | some datalen =>
          let p2 := p1 + 2
          let remain1 := remain0 - ((p2 : Int) - (pos0 : Int))
          if type = DNS_T_A then
            if datalen &&& 0x3 ≠ 0 ∧ remain1 ≥ (datalen : Int) then
              match peek_bytes mem p2 4 with
              | none => none
              | some addr =>
                some { ret := none, pos := p2 + 4, remain := remain1 - (datalen : Int),
                       elt := { elt with a_addr := some addr }, type_at := some p, type := some type }
            else
              some { ret := some false, pos := pos0, remain := remain1, elt := elt,
                     type_at := some p, type := some type }
          else
            some { ret := none, pos := p2, remain := remain1 - (datalen : Int), elt := elt,
                   type_at := some p, type := some type }

/-- The `struct rspamd_dns_reply`: the id of the request it answers, the
request type and the element list. -/
structure rspamd_dns_reply where
  request : Nat
  type : Option rspamd_request_type
  elements : List rspamd_reply_element
deriving DecidableEq, Repr

/-- The loop `for (i = 0; i < header->ancount; i ++)` of `dns_parse_reply`,
run for `n` more records.  Every element is allocated, handed to
`dns_parse_rr` and then dropped: nothing is stored into `rep->elements`.
`undef` is the value the caller sees when `dns_parse_rr` ends without a
`return` statement.  The result is the list of the results of the calls made,
`none` when a byte outside `mem` is read. -/
def dns_parse_reply_loop (be undef : Bool) (mem : List Nat) :
    Nat → Nat → Int → Option (List parse_rr_result)
  | 0, _, _ => some []
  | n + 1, pos, r =>
    let elt : rspamd_reply_element := {}
    match dns_parse_rr be mem elt pos r with
    | none => none
    | some res =>
      let ok := match res.ret with
        | some b => b
        | none => undef
      if !ok then some [res]
      else
        match dns_parse_reply_loop be undef mem n res.pos res.remain with
        | none => none
        | some rest => some (res :: rest)

/-- The fields of `struct rspamd_dns_server` that sending uses: the socket of
the server, `-1` when there is none. -/
structure rspamd_dns_server where
  sock : Int := -1
deriving DecidableEq, Repr

/-- The part of `struct rspamd_dns_resolver` and of the event loop that reply
handling and sending touch: the table `requests` of in-flight requests keyed
by id, the ids of the requests whose timer is armed, and the log of the
invocations of user callbacks; the array `servers`, `request_timeout`
(milliseconds) and `max_retransmits`; the ids of the requests whose `io_event`
is registered for `EV_WRITE`, and the datagrams handed to `send` so far, each
with the socket it went to (oldest first). -/
structure rspamd_dns_resolver where
  requests : List (Nat × rspamd_dns_request) := []
  timers : List Nat := []
  callbacks : List rspamd_dns_reply := []
  servers : List rspamd_dns_server := []
  request_timeout : Nat := 0
  max_retransmits : Nat := 0
  io_events : List Nat := []
  sent : List (Int × List Nat) := []
deriving DecidableEq, Repr

/-- The call `g_hash_table_lookup (resolver->requests, id)`. -/
def requests_lookup (resolver : rspamd_dns_resolver) (id : Nat) : Option rspamd_dns_request :=
  (resolver.requests.find? (fun e => e.1 = id)).map (fun e => e.2)

/-- The function `dns_parse_reply (in, r, resolver)`.  `mem` is the buffer
`in`, `header` the `struct dns_header` view of its first 12 bytes, `r` the
number of bytes received.  The result is `none` when a byte outside the
memory blocks is read, `some none` when the function returns `NULL`, and
otherwise the reply together with the results of the calls of `dns_parse_rr`. -/
def dns_parse_reply (be undef : Bool) (mem : List Nat) (header : dns_header) (r : Int)
    (resolver : rspamd_dns_resolver) :
    Option (Option (rspamd_dns_reply × List parse_rr_result)) :=
  if header.qr = 0 then some none
  else
    match requests_lookup resolver header.qid with
    | none => some none
    | some req =>
      match dns_request_reply_cmp req (mem.drop dns_header_size) (r - (dns_header_size : Int)) with
      | none => none
      | some none => some none
      | some (some q) =>
        let pos := dns_header_size + q
        let rep : rspamd_dns_reply := { request := req.id, type := req.type, elements := [] }
        let r1 := r - (pos : Int)
        match dns_parse_reply_loop be undef mem header.ancount pos r1 with
        | none => none
        | some results => some (some (rep, results))

/-- The function `dns_read_cb`: `r = read (fd, in, sizeof (in))` delivers the
datagram `dgram` (at most 512 bytes are taken) into the buffer `in`, whose
other bytes are `stale`; `header` is the header view of the buffer.  When
`r > 96` the reply is parsed; the body of `if (rep != NULL)` is empty, so the
resolver is left as it was in every case. -/
def dns_read_cb (be undef : Bool) (stale : Nat → Nat) (resolver : rspamd_dns_resolver)
    (header : dns_header) (dgram : List Nat) : rspamd_dns_resolver :=
  let got := dgram.take UDP_PACKET_SIZE
  let r := got.length
  let mem := got ++ ((List.range (UDP_PACKET_SIZE - r)).map (fun i => stale (r + i)))
  if r > 96 then
    match dns_parse_reply be undef mem header (r : Int) resolver with
    | some (some _rep) => resolver
    | _ => resolver
  else resolver

/-! ## Inputs used in the worked examples -/

/-- The name `example.com` as characters. -/
def example_com : List Nat := "example.com".toList.map Char.toNat

/-- The permutor of the resolver, `dns_k_permutor_init (permutor, 0,
G_MAXUINT16)`, for the all-zero key. -/
def resolver_permutor : dns_k_permutor :=
  { stepi := 0, length := 65536, limit := 65535, shift := 8, mask := 255,
    rounds := DNS_K_PERMUTOR_ROUNDS, tea := dns_k_tea_init 0 0 0 0 0 }

/-- A request whose packet was allocated for an 11-character name: 113 bytes,
the cursor after the 12 header bytes.  `format_dns_name` does not look at the
header bytes; they are left as the fresh memory. -/
def request_after_header (junk : Nat → Nat) : rspamd_dns_request :=
  { packet := (List.range 113).map junk, pos := 12, packet_len := 113 }

/-- A name of two 34-character labels (69 characters). -/
def long_name : List Nat := List.replicate 34 97 ++ [46] ++ List.replicate 34 97

/-- An answer record with the owner name `com` written as a literal label:
TYPE A, CLASS IN, TTL 3600, RDLENGTH 4, RDATA 93.184.216.34. -/
def a_record_literal : List Nat :=
  [3, 99, 111, 109, 0, 0, 1, 0, 1, 0, 0, 14, 16, 0, 4, 93, 184, 216, 34]

/-- An answer record whose owner name is the compression pointer `C0 0C`:
TYPE A, CLASS IN, TTL 3600, RDLENGTH 4, RDATA 93.184.216.34. -/
def a_record_pointer : List Nat :=
  [0xC0, 0x0C, 0, 1, 0, 1, 0, 0, 14, 16, 0, 4, 93, 184, 216, 34]

/-- Five received bytes (a root owner name and four more bytes) followed by
what the receive buffer held before, here the byte `s` repeated. -/
def short_record (s : Nat) : List Nat := [0, 0, 12, 0, 1] ++ List.replicate 507 s

/-- A well-formed question section: the name `aaa...a.com` (a 63-byte label
and `com`), then four bytes of type and class. -/
def question_bytes : List Nat :=
  [63] ++ List.replicate 63 97 ++ [3, 99, 111, 109, 0] ++ [0, 1, 0, 1]

/-- A request in flight under the id `0xABCD` whose packet holds a 12-byte
header followed by `question_bytes`. -/
def inflight_request : rspamd_dns_request :=
  { packet := List.replicate 12 0 ++ question_bytes, pos := 85, packet_len := 85,
    id := 0xABCD, type := some rspamd_request_type.DNS_REQUEST_A }

/-- A resolver with `inflight_request` in its table and the timer of that
request armed. -/
def inflight_resolver : rspamd_dns_resolver :=
  { requests := [(0xABCD, inflight_request)], timers := [0xABCD], callbacks := [] }

/-- A reply of 104 bytes to `inflight_request`: header bytes, the same
question, one A record for 93.184.216.34. -/
def matching_reply : List Nat := List.replicate 12 0 ++ question_bytes ++ a_record_literal

/-- The header view of `matching_reply` with the given id: a response with one
question and one answer. -/
def reply_header (id : Nat) : dns_header := { qid := id, qr := 1, qdcount := 1, ancount := 1 }

/-! ## Well-formed question sections -/

/-- The wire form of a name: every label preceded by its length octet, then
the zero octet. -/
def encode_labels : List (List Nat) → List Nat
  | [] => [0]
  | l :: ls => l.length :: l ++ encode_labels ls

/-- An uncompressed question section: the encoded name followed by the bytes
of type and class. -/
def question_section (labels : List (List Nat)) (tc : List Nat) : List Nat :=
  encode_labels labels ++ tc

/-- A label that can be written uncompressed: between 1 and 63 octets. -/
def wf_label (l : List Nat) : Prop := 0 < l.length ∧ l.length < 64

/-! ## `buffer.c`: the dispatcher -/

/-- The enumeration `io_policy` of the absent `buffer.h`, as `buffer.c` uses it. -/
inductive io_policy where
  | BUFFER_LINE
  | BUFFER_CHARACTER
  | BUFFER_ANY
deriving DecidableEq, Repr

/-- The `f_str_t` of the absent `fstring.h`, as `buffer.c` uses it: `mem` holds
the bytes of the block that `begin` points to, `len` and `size` are the fields
of the same name. -/
structure f_str_t where
  mem : List Nat
  len : Nat
  size : Nat
deriving DecidableEq, Repr

/-- The `rspamd_buffer_t`: the string `data` and the cursor `pos`, kept as its
distance from `data->begin`. -/
structure rspamd_buffer_t where
  data : f_str_t
  pos : Nat
deriving DecidableEq, Repr

/-- Modelled from the spec: the allocator `fstralloc` of the absent
`fstring.c`: a byte region of the requested size that holds no bytes yet
(`len = 0`).  The fresh bytes are taken to be zero. -/
def fstralloc (size : Nat) : f_str_t := { mem := List.replicate size 0, len := 0, size := size }

/-- The macro `BUFREMAIN (x)`: `size - (pos - begin)`, a difference of
`size_t` values: with the cursor beyond `begin + size` it wraps around. -/
def BUFREMAIN (x : rspamd_buffer_t) : Nat :=
  if x.pos ≤ x.data.size then x.data.size - x.pos else SIZE_T_MOD - (x.pos - x.data.size)

/-- The bytes `mem[off .. off+n)`. -/
def mem_slice (mem : List Nat) (off n : Nat) : List Nat := (mem.drop off).take n

/-- A copy of the bytes `src` into a block at offset `off` (`memcpy`,
`memmove`, `read`). -/
def mem_blit (mem : List Nat) (off : Nat) (src : List Nat) : List Nat :=
  mem.take off ++ src ++ mem.drop (off + src.length)

/-- The event the dispatcher has registered with the event loop: none
(`event_del`), `EV_READ | EV_PERSIST`, or `EV_WRITE`. -/
inductive ev_interest where
  | ev_none
  | ev_read
  | ev_write
deriving DecidableEq, Repr

/-- The error handed to the error callback: the code of the `GError`. -/
inductive dispatcher_error where
  | E2BIG
  | EOF
  | ETIMEDOUT
  | errno (e : Nat)
deriving DecidableEq, Repr

/-- An invocation of a user callback, or the removal of the dispatcher. -/
inductive dispatcher_event where
  | read_cb (frame : List Nat)
  | write_cb
  | err_cb (e : dispatcher_error)
  | removed
deriving DecidableEq, Repr

/-- The `rspamd_io_dispatcher_t`.  Beside the fields of the C structure that
the modelled functions use, `ev` is the event registered for `d->ev`, `sent`
collects the bytes the socket has accepted and `log` the callbacks invoked so
far (oldest first).  For sendfile, `offset` and `file_size` are the fields of
the same name, `map` holds the bytes of the mapping `d->map` and `file` the
bytes of the file that `d->sendfile_fd` refers to. -/
structure rspamd_io_dispatcher_t where
  in_buf : Option rspamd_buffer_t := none
  out_buffers : List rspamd_buffer_t := []
  policy : io_policy := io_policy.BUFFER_LINE
  nchars : Nat := 0
  strip_eol : Bool := true
  wanna_die : Bool := false
  in_sendfile : Bool := false
  ev : ev_interest := ev_interest.ev_write
  sent : List Nat := []
  log : List dispatcher_event := []
  offset : Nat := 0
  file_size : Nat := 0
  map : List Nat := []
  file : List Nat := []
deriving DecidableEq, Repr

/-- The three user callbacks of a dispatcher (`NULL` is `none`).  A callback
may call the dispatcher's functions, so it maps the dispatcher to a new one;
the read and write callbacks also return their `gboolean`. -/
structure dispatcher_callbacks where
  read_callback : Option (List Nat → rspamd_io_dispatcher_t → Bool × rspamd_io_dispatcher_t)
  write_callback : Option (rspamd_io_dispatcher_t → Bool × rspamd_io_dispatcher_t)
  err_callback : Option (dispatcher_error → rspamd_io_dispatcher_t → rspamd_io_dispatcher_t)

/-- The result of one `read` or `write` system call: `r > 0` bytes moved (at
most the count asked for), `r = 0`, `r = -1` with `EAGAIN`, or `r = -1` with
another `errno`. -/
inductive io_result where
  | data (bytes : List Nat)
  | zero
  | again
  | error (e : Nat)
deriving DecidableEq, Repr

/-- The function `rspamd_remove_dispatcher`: the event is deleted and the
dispatcher freed. -/
def rspamd_remove_dispatcher (d : rspamd_io_dispatcher_t) : rspamd_io_dispatcher_t :=
  { d with ev := ev_interest.ev_none, out_buffers := [],
           log := d.log ++ [dispatcher_event.removed] }

/-- The offset from `begin` of the pointer `begin + t` where `t` is the `gint`
that was assigned the offset `x`: `x` itself when it is below `2^31`; otherwise
the assignment keeps the low 32 bits as a signed value, and for a negative `t`
the pointer lies before `begin` (its offset is given modulo `2^64`). -/
def gint_offset (x : Nat) : Nat :=
  if x % 4294967296 < 2147483648 then x % 4294967296
  else SIZE_T_MOD - (4294967296 - x % 4294967296)

/-- The function `rspamd_set_dispatcher_policy`; `bufsiz` is the constant
`BUFSIZ` of the C library. -/
def rspamd_set_dispatcher_policy (bufsiz : Nat) (d : rspamd_io_dispatcher_t)
    (policy : io_policy) (nchars : Nat) : rspamd_io_dispatcher_t :=
  if d.policy ≠ policy then
    let d1 := { d with policy := policy, nchars := if nchars ≠ 0 then nchars else bufsiz }
    if policy = io_policy.BUFFER_CHARACTER ∧ nchars ≠ 0 then
      match d1.in_buf with
      | some b =>
        if b.data.size < nchars then
          let tmp := fstralloc ((d1.nchars + 1) % SIZE_T_MOD)
          let tmp1 := { tmp with mem := mem_blit tmp.mem 0 (mem_slice b.data.mem 0 b.data.len) }
          let t := gint_offset b.pos
          let tmp2 := { tmp1 with len := b.data.len }
          { d1 with in_buf := some { data := tmp2, pos := t } }
        else d1
      | none => d1
    else if policy = io_policy.BUFFER_LINE ∨ policy = io_policy.BUFFER_ANY then
      let d2 :=
        match d1.in_buf with
        | some b =>
          if d1.nchars < bufsiz then
            let tmp := fstralloc bufsiz
            let tmp1 := { tmp with mem := mem_blit tmp.mem 0 (mem_slice b.data.mem 0 b.data.len) }
            let t := gint_offset b.pos
            let tmp2 := { tmp1 with len := b.data.len }
            { d1 with in_buf := some { data := tmp2, pos := t } }
          else d1
        | none => d1
      { d2 with strip_eol := true }
    else d1
  else d

/-- The call `d->read_callback (&res, d->user_data)`, recorded in the log. -/
def call_read_callback
    (f : List Nat → rspamd_io_dispatcher_t → Bool × rspamd_io_dispatcher_t)
    (frame : List Nat) (d : rspamd_io_dispatcher_t) : Bool × rspamd_io_dispatcher_t :=
  f frame { d with log := d.log ++ [dispatcher_event.read_cb frame] }

/-- The call `d->err_callback (err, d->user_data)`, recorded in the log. -/
def call_err_callback (f : dispatcher_error → rspamd_io_dispatcher_t → rspamd_io_dispatcher_t)
    (e : dispatcher_error) (d : rspamd_io_dispatcher_t) : rspamd_io_dispatcher_t :=
  f e { d with log := d.log ++ [dispatcher_event.err_cb e] }

/-- The call `d->write_callback (d->user_data)`, recorded in the log. -/
def call_write_callback (f : rspamd_io_dispatcher_t → Bool × rspamd_io_dispatcher_t)
    (d : rspamd_io_dispatcher_t) : Bool × rspamd_io_dispatcher_t :=
  f { d with log := d.log ++ [dispatcher_event.write_cb] }

/-- How the `while (r < len)` loop of the `BUFFER_LINE` case of `read_buffers`
ends: it ran to the end of the buffered bytes (`b` is the offset of the begin
of the unfinished line), the read callback returned `FALSE`, or the callback
changed the policy while the newline at offset `r` was handled. -/
inductive line_scan where
  | finished (d : rspamd_io_dispatcher_t) (b : Nat)
  | stopped (d : rspamd_io_dispatcher_t)
  | changed (d : rspamd_io_dispatcher_t) (r : Nat)

/-- The `while (r < len)` loop of the `BUFFER_LINE` case of `read_buffers`.
`mem` is the block that `c` and `b` point into, the first argument is the
number `len - r` of iterations left, `r` is the position in the buffer (`c` is
`begin + r`) and `b` the offset of the begin of the line.  `res.len` is a
`size_t`, so `res.len--` wraps at zero. -/
def read_buffers_line_loop (cbs : dispatcher_callbacks) (mem : List Nat)
    (saved_policy : io_policy) : Nat → Nat → Nat → rspamd_io_dispatcher_t → line_scan
  | 0, _, b, d => line_scan.finished d b
  | n + 1, r, b, d =>
    if mem.getD r 0 = 10 then
      let res_len0 := r - b
      let res_len :=
        if d.strip_eol then
          (if r ≠ 0 ∧ mem.getD (r - 1) 0 = 13 then
             (if res_len0 = 0 then SIZE_T_MOD - 1 else res_len0 - 1)
           else res_len0)
        else res_len0 + 1
      match cbs.read_callback with
      | some f =>
        let res := call_read_callback f (mem_slice mem b res_len) d
        if !res.1 then line_scan.stopped res.2
        else if res.2.policy ≠ saved_policy then line_scan.changed res.2 r
        else read_buffers_line_loop cbs mem saved_policy n (r + 1) (r + 1) res.2
      | none => read_buffers_line_loop cbs mem saved_policy n (r + 1) (r + 1) d
    else read_buffers_line_loop cbs mem saved_policy n (r + 1) b d

/-- An assignment to the fields of `d->in_buf`: the input buffer replaced by
`f` of it; `none` when `d->in_buf` is `NULL`. -/
def update_in_buf (d : rspamd_io_dispatcher_t) (f : rspamd_buffer_t → rspamd_buffer_t) :
    Option rspamd_io_dispatcher_t :=
  match d.in_buf with
  | some b => some { d with in_buf := some (f b) }
  | none => none

/-- The statements `memmove (d->in_buf->data->begin, src, n);
d->in_buf->data->len = n; d->in_buf->pos = d->in_buf->data->begin + n`. -/
def drain_in_buf (d : rspamd_io_dispatcher_t) (src : List Nat) : Option rspamd_io_dispatcher_t :=
  update_in_buf d (fun b =>
    { data := { b.data with mem := mem_blit b.data.mem 0 src, len := src.length },
      pos := src.length })

/-- The statements `d->in_buf->pos = d->in_buf->data->begin;
d->in_buf->data->len = 0`. -/
def reset_in_buf (d : rspamd_io_dispatcher_t) : Option rspamd_io_dispatcher_t :=
  update_in_buf d (fun b => { data := { b.data with len := 0 }, pos := 0 })

/-- The function `read_buffers (fd, d, skip_read)`.  `rd` is what the `read`
system call returns if it is made, `bufsiz` the constant `BUFSIZ`.  The first
argument bounds the depth of the recursive calls made after a change of
policy; the result is `none` when it is used up (or `d->in_buf` is `NULL`
where it is dereferenced). -/
def read_buffers (bufsiz : Nat) (cbs : dispatcher_callbacks) :
    Nat → rspamd_io_dispatcher_t → Bool → io_result → Option rspamd_io_dispatcher_t
  | 0, _, _, _ => none
  | fuel + 1, d0, skip_read, rd =>
    if d0.wanna_die then some (rspamd_remove_dispatcher d0)
    else
      let buf0 : rspamd_buffer_t :=
        match d0.in_buf with
        | some b => b
        | none =>
          if d0.policy = io_policy.BUFFER_LINE ∨ d0.policy = io_policy.BUFFER_ANY then
            { data := fstralloc bufsiz, pos := 0 }
          else { data := fstralloc ((d0.nchars + 1) % SIZE_T_MOD), pos := 0 }
      let d1 := { d0 with in_buf := some buf0 }
      -- the part of the function after the read; `d` holds the buffer `buf`
      let scan : rspamd_io_dispatcher_t → rspamd_buffer_t → Option rspamd_io_dispatcher_t :=
        fun d buf =>
          let saved_policy := d.policy
          let mem := buf.data.mem
          let end_ := buf.pos
          let len := buf.data.len
          match d.policy with
          | io_policy.BUFFER_LINE =>
            match read_buffers_line_loop cbs mem saved_policy len 0 0 d with
            | line_scan.stopped d2 => some d2
            | line_scan.changed d2 r =>
              if end_ = r then reset_in_buf d2
              else
                match d2.in_buf with
                | none => none
                | some b2 =>
                  let len2 := b2.data.len - r - 1
                  match drain_in_buf d2 (mem_slice b2.data.mem (r + 1) len2) with
                  | none => none
                  | some d3 => read_buffers bufsiz cbs fuel d3 true rd
            | line_scan.finished d2 b => drain_in_buf d2 (mem_slice mem b (len - b))
          | io_policy.BUFFER_CHARACTER =>
            let r := d.nchars
            if len ≥ r then
              match cbs.read_callback with
              | some f =>
                let res := call_read_callback f (mem_slice mem 0 r) d
                if !res.1 then some res.2
                else
                  let len1 := if len > r then len - r else len
                  let drained :=
                    if len > r then drain_in_buf res.2 (mem_slice mem r (len - r))
                    else reset_in_buf res.2
                  match drained with
                  | none => none
                  | some d3 =>
                    if d3.policy ≠ saved_policy ∧ len1 ≠ r then
                      read_buffers bufsiz cbs fuel d3 true rd
                    else some d3
              | none => some d
            else some d
          | io_policy.BUFFER_ANY =>
            match cbs.read_callback with
            | some f =>
              let res := call_read_callback f (mem_slice mem 0 len) d
              if !res.1 then some res.2
              else if res.2.policy ≠ saved_policy then read_buffers bufsiz cbs fuel res.2 true rd
              else reset_in_buf res.2
            | none => reset_in_buf d
      if BUFREMAIN buf0 = 0 then
        match cbs.err_callback with
        | some f => some (call_err_callback f dispatcher_error.E2BIG d1)
        | none => scan d1 buf0
      else if !skip_read then
        match rd with
        | io_result.error e =>
          match cbs.err_callback with
          | some f => some (call_err_callback f (dispatcher_error.errno e) d1)
          | none => scan d1 buf0
        | io_result.zero =>
          match cbs.err_callback with
          | some f => some (call_err_callback f dispatcher_error.EOF d1)
          | none => scan d1 buf0
        | io_result.again => some d1
        | io_result.data bytes =>
          let got := bytes.take (BUFREMAIN buf0)
          if got = [] then
            match cbs.err_callback with
            | some f => some (call_err_callback f dispatcher_error.EOF d1)
            | none => scan d1 buf0
          else
            let buf1 : rspamd_buffer_t :=
              { data := { buf0.data with mem := mem_blit buf0.data.mem buf0.pos got,
                                         len := buf0.data.len + got.length },
                pos := buf0.pos + got.length }
            scan { d1 with in_buf := some buf1 } buf1
      else scan d1 buf0

/-! ## The line framing of the specification -/

/-- The frame the specification assigns to a line whose bytes before the
newline are `seg`: with `strip_eol` the segment without one trailing carriage
return, otherwise the segment with its newline. -/
def line_frame (strip : Bool) (seg : List Nat) : List Nat :=
  if strip then (if seg.getLast? = some 13 then seg.dropLast else seg) else seg ++ [10]

/-- The frames of a byte stream and the bytes after its last newline; `acc`
holds the bytes of the line begun before this part of the stream. -/
def split_lines (strip : Bool) : List Nat → List Nat → List (List Nat) × List Nat
  | [], acc => ([], acc)
  | x :: xs, acc =>
    if x = 10 then (line_frame strip acc :: (split_lines strip xs []).1, (split_lines strip xs []).2)
    else split_lines strip xs (acc ++ [x])

/-- The input buffer holds exactly the bytes `B`: they are the first `len`
bytes of its block and `pos = begin + len`. -/
def buffer_holds (buf : rspamd_buffer_t) (B : List Nat) : Prop :=
  buf.pos = B.length ∧ buf.data.len = B.length ∧ buf.data.mem.take B.length = B

/-- Successive readable events in which `read` returns the given chunks, each
handled by one call of `read_buffers`. -/
def feed_chunks (bufsiz : Nat) (cbs : dispatcher_callbacks) :
    List (List Nat) → rspamd_io_dispatcher_t → Option rspamd_io_dispatcher_t
  | [], d => some d
  | c :: cs, d =>
    match read_buffers bufsiz cbs 1 d false (io_result.data c) with
    | none => none
    | some d1 => feed_chunks bufsiz cbs cs d1

/-- Every chunk is non-empty and fits into the free part of a buffer of `size`
bytes that already holds the unfinished line; `acc` is the unfinished line
before the first chunk. -/
def chunks_fit (strip : Bool) (size : Nat) : List (List Nat) → List Nat → Prop
  | [], _ => True
  | c :: cs, acc =>
    c ≠ [] ∧ acc.length + c.length ≤ size ∧ chunks_fit strip size cs (split_lines strip c acc).2

/-- Callbacks of a user that accepts every frame and leaves the dispatcher
alone; no error callback is set. -/
def accepting_callbacks : dispatcher_callbacks :=
  { read_callback := some (fun _ d => (true, d)), write_callback := none, err_callback := none }

/-- The characters of a string as bytes. -/
def bytes_of (s : String) : List Nat := s.toList.map Char.toNat

/-- The input buffer after `read` has stored the bytes `c` at `pos`:
`pos += r`, `len += r`. -/
def buffer_after_read (buf : rspamd_buffer_t) (c : List Nat) : rspamd_buffer_t :=
  { data := { buf.data with mem := mem_blit buf.data.mem buf.pos c,
                            len := buf.data.len + c.length },
    pos := buf.pos + c.length }

/-- The input buffer after the bytes `src` were moved to its head:
`len = |src|`, `pos = begin + len`. -/
def buffer_drained (buf : rspamd_buffer_t) (src : List Nat) : rspamd_buffer_t :=
  { data := { buf.data with mem := mem_blit buf.data.mem 0 src, len := src.length },
    pos := src.length }

/-- Callbacks of a user whose read callback accepts every frame and calls
`rspamd_set_dispatcher_policy (d, policy, nchars)`; `BUFSIZ` is 16. -/
def switching_callbacks (policy : io_policy) (nchars : Nat) : dispatcher_callbacks :=
  { read_callback := some (fun _ d => (true, rspamd_set_dispatcher_policy 16 d policy nchars)),
    write_callback := none, err_callback := none }

/-- A dispatcher with the given policy whose 16-byte input buffer holds the
given bytes. -/
def dispatcher_holding (policy : io_policy) (nchars : Nat) (bytes : List Nat) :
    rspamd_io_dispatcher_t :=
  { policy := policy, nchars := nchars,
    in_buf := some { data := { mem := bytes ++ List.replicate (16 - bytes.length) 0,
                               len := bytes.length, size := 16 },
                     pos := bytes.length } }

/-- The dispatcher of the worked example of a policy switch: LINE policy, an
empty 16-byte input buffer. -/
def line_dispatcher : rspamd_io_dispatcher_t := dispatcher_holding io_policy.BUFFER_LINE 0 []

/-- The input buffer of `line_dispatcher`. -/
def line_dispatcher_buf : rspamd_buffer_t :=
  { data := { mem := List.replicate 16 0, len := 0, size := 16 }, pos := 0 }

/-- The state in which the read callback leaves `line_dispatcher` after the
frame `GET` of the input `GET\n0123xyz`, when it switches to CHARACTER(4). -/
def line_dispatcher_switched : rspamd_io_dispatcher_t :=
  rspamd_set_dispatcher_policy 16
    { line_dispatcher with
        in_buf := (some (buffer_after_read line_dispatcher_buf (bytes_of "GET\n0123xyz"))),
        log := [dispatcher_event.read_cb (bytes_of "GET")] }
    io_policy.BUFFER_CHARACTER 4

/-! ## `buffer.c`: the write path -/

/-- The result of one `write` system call on the socket: `r = min (k, count)`
bytes accepted (`wrote 0` is the result `r = 0`), `r = -1` with `EAGAIN`, or
`r = -1` with another `errno`. -/
inductive write_result where
  | wrote (k : Nat)
  | again
  | error (e : Nat)
deriving DecidableEq, Repr

/-- How the `while (cur)` loop of `write_buffers` ends: by a `return` inside
the loop, or with `cur == NULL`.  The remaining results of the socket are
handed back. -/
inductive flush_result where
  | returned (ret : Bool) (d : rspamd_io_dispatcher_t) (script : List write_result)
  | drained (d : rspamd_io_dispatcher_t) (script : List write_result)

/-- The `while (cur)` loop of `write_buffers`.  `done` holds the buffers before
`cur` (last one first), `cur` the rest of the list; `script` gives the results
of the `write` calls in order (a call made after the last one gets `EAGAIN`).
The first argument bounds the number of iterations; `write_buffers` passes a
bound that is never used up. -/
def write_buffers_loop (cbs : dispatcher_callbacks) :
    Nat → List rspamd_buffer_t → List rspamd_buffer_t → List write_result →
    rspamd_io_dispatcher_t → flush_result
  | 0, done, cur, script, d =>
    flush_result.returned true { d with out_buffers := done.reverse ++ cur } script
  | _ + 1, done, [], script, d => flush_result.drained { d with out_buffers := done.reverse } script
  | fuel + 1, done, buf :: rest, script, d =>
    if BUFREMAIN buf = 0 then write_buffers_loop cbs fuel (buf :: done) rest script d
    else
      let res := script.headD write_result.again
      let script1 := script.tail
      match res with
      | write_result.error e =>
        match cbs.err_callback with
        | some f =>
          flush_result.returned false
            (call_err_callback f (dispatcher_error.errno e)
              { d with out_buffers := done.reverse ++ buf :: rest }) script1
        | none => write_buffers_loop cbs fuel (buf :: done) rest script1 d
      | write_result.wrote k =>
        let r := min k (BUFREMAIN buf)
        if r > 0 then
          let buf1 : rspamd_buffer_t := { buf with pos := buf.pos + r }
          let d1 := { d with sent := d.sent ++ mem_slice buf.data.mem buf.pos r }
          if BUFREMAIN buf1 ≠ 0 then write_buffers_loop cbs fuel done (buf1 :: rest) script1 d1
          else write_buffers_loop cbs fuel (buf1 :: done) rest script1 d1
        else
          match cbs.err_callback with
          | some f =>
            flush_result.returned false
              (call_err_callback f dispatcher_error.EOF
                { d with out_buffers := done.reverse ++ buf :: rest }) script1
          | none => write_buffers_loop cbs fuel (buf :: done) rest script1 d
      | write_result.again =>
        flush_result.returned true
          { d with out_buffers := done.reverse ++ buf :: rest, ev := ev_interest.ev_write } script1

/-- The function `write_buffers (fd, d, is_delayed)`: the list is reversed
(whenever it is not empty), then the loop runs; when the loop ends with
`cur == NULL` the list is freed, the write callback is invoked if `is_delayed`
and the read event is registered.  The result is the returned flag, the
dispatcher and the unused results of the socket. -/
def write_buffers (cbs : dispatcher_callbacks) (d : rspamd_io_dispatcher_t) (is_delayed : Bool)
    (script : List write_result) : Bool × rspamd_io_dispatcher_t × List write_result :=
  let l := if d.out_buffers ≠ [] then d.out_buffers.reverse else d.out_buffers
  match write_buffers_loop cbs (script.length + l.length + 1) [] l script d with
  | flush_result.returned ret d1 script1 => (ret, d1, script1)
  | flush_result.drained d1 script1 =>
    let d2 := { d1 with out_buffers := [] }
    match (if is_delayed then cbs.write_callback else none) with
    | some f =>
      let res := call_write_callback f d2
      if !res.1 then (false, res.2, script1)
      else (true, { res.2 with ev := ev_interest.ev_read }, script1)
    | none => (true, { d2 with ev := ev_interest.ev_read }, script1)

/-- The library function `strlen` on a string given by the bytes at its
address. -/
def strlen (s : List Nat) : Nat := (s.takeWhile (fun b => b ≠ 0)).length

/-- The function `rspamd_dispatcher_write (d, data, len, delayed, allocated)`:
a buffer with the `len` bytes of `data` (copied or taken over) is prepended to
`d->out_buffers`; unless `delayed`, `write_buffers (d->fd, d, FALSE)` runs. -/
def rspamd_dispatcher_write (cbs : dispatcher_callbacks) (d : rspamd_io_dispatcher_t)
    (data : List Nat) (len : Nat) (delayed allocated : Bool) (script : List write_result) :
    Bool × rspamd_io_dispatcher_t × List write_result :=
  let len1 := if len = 0 then strlen data else len
  let str : f_str_t :=
    if !allocated then { fstralloc len1 with mem := mem_blit (fstralloc len1).mem 0 (data.take len1) }
    else { mem := data, len := 0, size := len1 }
  let newbuf : rspamd_buffer_t := { data := { str with len := len1 }, pos := 0 }
  let d1 := { d with out_buffers := newbuf :: d.out_buffers }
  if !delayed then write_buffers cbs d1 false script
  else (true, d1, script)

/-- Successive `EV_WRITE` events of a dispatcher that is not in sendfile mode,
as `dispatcher_cb` handles them: with an empty queue the read event is
registered, otherwise `write_buffers (fd, d, TRUE)` runs.  Each event comes
with the results of the `write` calls made while it is handled. -/
def writable_events (cbs : dispatcher_callbacks) :
    List (List write_result) → rspamd_io_dispatcher_t → rspamd_io_dispatcher_t
  | [], d => d
  | script :: rest, d =>
    if d.out_buffers = [] then writable_events cbs rest { d with ev := ev_interest.ev_read }
    else writable_events cbs rest (write_buffers cbs d true script).2.1

/-- The three delayed writes `A`, `BC`, `DEF` on a fresh dispatcher. -/
def three_writes (cbs : dispatcher_callbacks) : rspamd_io_dispatcher_t :=
  let d1 := (rspamd_dispatcher_write cbs {} (bytes_of "A") 1 true false []).2.1
  let d2 := (rspamd_dispatcher_write cbs d1 (bytes_of "BC") 2 true false []).2.1
  (rspamd_dispatcher_write cbs d2 (bytes_of "DEF") 3 true false []).2.1

/-- A socket that accepts 2 bytes per readiness, seen by the three writable
events that drain the three writes.  First event: room for 2 bytes when `A` is
written (1 taken), room for 1 when `BC` is written, then `EAGAIN`.  Second
event: room for 2 bytes, then `EAGAIN`.  Third event: room for 2 bytes at both
calls (1 byte is written each time). -/
def two_bytes_per_readiness : List (List write_result) :=
  [[write_result.wrote 2, write_result.wrote 1, write_result.again],
   [write_result.wrote 2, write_result.again],
   [write_result.wrote 2, write_result.wrote 2]]

/-! ## Names with a long label -/

/-- A request whose packet was allocated by `allocate_packet` for a name of
`namelen` characters (`namelen + 102` bytes), with the cursor after the 12
header bytes; the bytes of the header are not looked at and are left as the
fresh memory. -/
def request_for_name (junk : Nat → Nat) (namelen : Nat) : rspamd_dns_request :=
  { packet := (List.range (namelen + 102)).map junk, pos := 12, packet_len := namelen + 102 }

/-- The name `aaa...a.com` whose first label has 64 characters. -/
def long_first_label : List Nat := List.replicate 64 97 ++ bytes_of ".com"

/-- The name `com.aaa...a` whose last label has 64 characters. -/
def long_last_label : List Nat := bytes_of "com." ++ List.replicate 64 97

/-! ## `dns.c`: sending and retransmission -/

/-- The call `event_del (&req->timer_event)`: the timer of the request is not
pending afterwards.  Timers are told apart by the id of their request. -/
def evtimer_del (resolver : rspamd_dns_resolver) (id : Nat) : rspamd_dns_resolver :=
  { resolver with timers := resolver.timers.filter (fun t => t ≠ id) }

/-- The call `evtimer_add (&req->timer_event, &req->tv)`: the timer of the
request is pending afterwards, with the timeout `req->tv`. -/
def evtimer_add (resolver : rspamd_dns_resolver) (id : Nat) : rspamd_dns_resolver :=
  { resolver with
      timers := (if id ∈ resolver.timers then resolver.timers else id :: resolver.timers) }

/-- The calls `event_set (&req->io_event, req->sock, EV_WRITE,
dns_retransmit_handler, req); event_add (&req->io_event, &req->tv)`. -/
def io_event_add (resolver : rspamd_dns_resolver) (id : Nat) : rspamd_dns_resolver :=
  { resolver with
      io_events := (if id ∈ resolver.io_events then resolver.io_events
                    else id :: resolver.io_events) }

/-- The call `g_hash_table_insert (resolver->requests, id, req)`: the value
stored under `id` is `req` afterwards, other keys keep their value. -/
def requests_insert (resolver : rspamd_dns_resolver) (id : Nat) (req : rspamd_dns_request) :
    rspamd_dns_resolver :=
  { resolver with requests := (id, req) :: resolver.requests.filter (fun e => e.1 ≠ id) }

/-- Modelled from the spec: the result of `get_upstream_round_robin` of the
absent `upstream.c`, a pointer to one element of `resolver->servers` or
`NULL`.  Which server the function chooses is not modelled: `pick` is the
index it returns, and an index outside the array stands for `NULL`. -/
def get_upstream_round_robin (resolver : rspamd_dns_resolver) (pick : Option Nat) :
    Option (Nat × rspamd_dns_server) :=
  match pick with
  | none => none
  | some i => (resolver.servers.get? i).map (fun s => (i, s))

/-- The statements `if (req->server->sock == -1) req->server->sock =
make_udp_socket (...); req->sock = req->server->sock` for the server at index
`i`; `mksock` is what `make_udp_socket` returns if it is called. -/
def select_socket (mksock : Int) (resolver : rspamd_dns_resolver) (req : rspamd_dns_request)
    (i : Nat) (srv : rspamd_dns_server) : rspamd_dns_resolver × rspamd_dns_request :=
  let srv1 : rspamd_dns_server := if srv.sock = -1 then { srv with sock := mksock } else srv
  ({ resolver with servers := resolver.servers.set i srv1 }, { req with sock := srv1.sock })

/-- The function `send_dns_request`.  `res` is the result of `send
(req->sock, req->packet, req->pos, 0)`: `wrote k` is a return value of
`min (k, req->pos)` bytes.  The result is the value returned (`1`, `0` or
`-1`); the bookkeeping of `upstream_fail` and `register_async_event` is not
modelled. -/
def send_dns_request (resolver : rspamd_dns_resolver) (req : rspamd_dns_request)
    (res : write_result) : Int × rspamd_dns_resolver :=
  match res with
  | write_result.error _ => (-1, resolver)
  | write_result.again => (0, io_event_add resolver req.id)
  | write_result.wrote k =>
    let r := min k req.pos
    let resolver1 := { resolver with sent := resolver.sent ++ [(req.sock, req.packet.take r)] }
    if r < req.pos then (0, io_event_add resolver1 req.id)
    else (1, resolver1)

/-- The function `dns_timer_cb`, called with the request as its argument when
the timer of the request expires.  `retransmits` is taken as a 32-bit unsigned
counter; `pick` and `mksock` are the results of `get_upstream_round_robin` and
of `make_udp_socket`.  The function changes the request and the registration
of its timer, and it may store a new socket in the server. -/
def dns_timer_cb (pick : Option Nat) (mksock : Int) (resolver : rspamd_dns_resolver)
    (req : rspamd_dns_request) : rspamd_dns_resolver × rspamd_dns_request :=
  let req1 := { req with retransmits := w32 (req.retransmits + 1) }
  if req1.retransmits ≥ resolver.max_retransmits then (evtimer_del resolver req1.id, req1)
  else
    match get_upstream_round_robin resolver pick with
    | none => (evtimer_del resolver req1.id, { req1 with server := none })
    | some (i, srv) =>
      let st := select_socket mksock resolver { req1 with server := some i } i srv
      if st.2.sock = -1 then (evtimer_del st.1 req1.id, st.2)
      else (evtimer_add st.1 req1.id, st.2)

/-- The function `make_dns_request`: the packet is built, a server and its
socket are chosen, the timeout is stored in `req->tv` and the packet is sent;
when `send_dns_request` returns `1` the timer is armed and the request stored
in `resolver->requests`.  `snd` is the result of the `send` call.  The result
is `none` when the packet cannot be built (see `make_dns_request_packet`),
otherwise the value returned, the resolver and the permutor. -/
def make_dns_request (be : Bool) (fuel : Nat) (p : dns_k_permutor) (junk : Nat → Nat) (label_len0 : Nat)
    (pick : Option Nat) (mksock : Int) (snd : write_result) (resolver : rspamd_dns_resolver)
    (type : rspamd_request_type) (name : List Nat) (a : Nat) :
    Option (Bool × rspamd_dns_resolver × dns_k_permutor) :=
  match make_dns_request_packet be fuel p junk label_len0 type name a with
  | none => none
  | some (req0, p1) =>
    let req1 := { req0 with retransmits := 0 }
    match get_upstream_round_robin resolver pick with
    | none => some (false, resolver, p1)
    | some (i, srv) =>
      let st := select_socket mksock resolver { req1 with server := some i } i srv
      if st.2.sock = -1 then some (false, st.1, p1)
      else
        let tv_sec := resolver.request_timeout / 1000
        let req2 := { st.2 with tv_sec := tv_sec,
                                tv_usec := (resolver.request_timeout - tv_sec * 1000) * 1000 }
        let sr := send_dns_request st.1 req2 snd
        if sr.1 = 1 then some (true, requests_insert (evtimer_add sr.2 req2.id) req2.id req2, p1)
        else if sr.1 = -1 then some (false, sr.2, p1)
        else some (true, sr.2, p1)

/-- The event loop on the timer of one request that never gets a reply: while
the timer is pending it expires (the registration is dropped) and
`dns_timer_cb` runs.  `picks n` and `mksocks n` are the results of server
selection and of `make_udp_socket` at the expiry number `n`.  The first
argument bounds the number of expiries looked at; the result is the number of
expiries and the final state. -/
def timer_expiries (picks : Nat → Option Nat) (mksocks : Nat → Int) :
    Nat → Nat → rspamd_dns_resolver → rspamd_dns_request →
    Nat × rspamd_dns_resolver × rspamd_dns_request
  | 0, _, resolver, req => (0, resolver, req)
  | fuel + 1, n, resolver, req =>
    if req.id ∈ resolver.timers then
      let st := dns_timer_cb (picks n) (mksocks n) (evtimer_del resolver req.id) req
      let rest := timer_expiries picks mksocks fuel (n + 1) st.1 st.2
      (rest.1 + 1, rest.2)
    else (0, resolver, req)

/-- A resolver with two servers (sockets 5 and 6), a timeout of 1500 ms and
`max_retransmits = 3`, in which `inflight_request` is in flight with its timer
armed. -/
def retry_resolver : rspamd_dns_resolver :=
  { inflight_resolver with
      servers := [{ sock := 5 }, { sock := 6 }], request_timeout := 1500, max_retransmits := 3 }

/-- The A query for `example.com` as `make_dns_request` builds it on a
little-endian host from the resolver's permutor with the all-zero key (fresh
memory holds `0xAA`), and the permutor after the id was drawn. -/
def example_query : rspamd_dns_request × dns_k_permutor :=
  (make_dns_request_packet false 4 resolver_permutor (fun _ => 0xAA) 0
    rspamd_request_type.DNS_REQUEST_A example_com 0).getD ({}, resolver_permutor)

/-! ## `buffer.c`: sendfile and the event callback -/

/-- The difference of two `size_t` values. -/
def size_sub (a b : Nat) : Nat := (a + SIZE_T_MOD - b % SIZE_T_MOD) % SIZE_T_MOD

/-- The last branch of `sendfile_callback`, taken when the transfer is found
complete: the write callback is invoked if it is set (`FALSE` from it ends the
function), then the read event is registered and `in_sendfile` cleared. -/
def sendfile_complete (cbs : dispatcher_callbacks) (d : rspamd_io_dispatcher_t) :
    Bool × rspamd_io_dispatcher_t :=
  match cbs.write_callback with
  | some f =>
    let res := call_write_callback f d
    if !res.1 then (false, res.2)
    else (true, { res.2 with ev := ev_interest.ev_read, in_sendfile := false })
  | none => (true, { d with ev := ev_interest.ev_read, in_sendfile := false })

/-- The function `sendfile_callback` in two of its compiled forms: with
`have_sendfile` the Linux branch, `r = sendfile (d->fd, d->sendfile_fd,
&d->offset, d->file_size)`, otherwise the branch without `HAVE_SENDFILE`,
`r = write (d->fd, d->map, d->file_size - d->offset)`.  `res` is the result of
the system call: `wrote k` stands for `r = min (k, count)` bytes accepted by
the socket; `sendfile` takes them from the file at `d->offset`, no more than
the file has there, and advances `d->offset` by `r`; `write` takes them from
the begin of the mapping.  The FreeBSD and Darwin branch is not modelled. -/
def sendfile_callback (have_sendfile : Bool) (cbs : dispatcher_callbacks)
    (d : rspamd_io_dispatcher_t) (res : write_result) : Bool × rspamd_io_dispatcher_t :=
  match res with
  | write_result.error e =>
    match cbs.err_callback with
    | some f => (false, call_err_callback f (dispatcher_error.errno e) d)
    | none => (true, d)
  | write_result.again => (true, { d with ev := ev_interest.ev_write })
  | write_result.wrote k =>
    if have_sendfile then
      let r := min k (min d.file_size (d.file.length - d.offset))
      let d1 := { d with offset := d.offset + r, sent := d.sent ++ mem_slice d.file d.offset r }
      if r + d1.offset < d1.file_size then (true, { d1 with ev := ev_interest.ev_write })
      else sendfile_complete cbs d1
    else
      let r := min k (size_sub d.file_size d.offset)
      let d1 := { d with sent := d.sent ++ mem_slice d.map 0 r }
      if r + d1.offset < d1.file_size then
        (true, { d1 with offset := d1.offset + r, ev := ev_interest.ev_write })
      else sendfile_complete cbs d1

/-- The function `rspamd_dispatcher_sendfile (d, fd, len)`; `file` holds the
bytes of the file behind `fd`, `lseek_ok` and `mmap_ok` tell whether `lseek`
and `mmap` succeed, `res` is the result of the system call made by
`sendfile_callback`. -/
def rspamd_dispatcher_sendfile (have_sendfile : Bool) (cbs : dispatcher_callbacks)
    (d : rspamd_io_dispatcher_t) (file : List Nat) (len : Nat) (lseek_ok mmap_ok : Bool)
    (res : write_result) : Bool × rspamd_io_dispatcher_t :=
  if !lseek_ok then (false, d)
  else
    let d1 := { d with offset := 0, in_sendfile := true, file := file, file_size := len }
    if have_sendfile then sendfile_callback have_sendfile cbs d1 res
    else if !mmap_ok then (false, d1)
    else sendfile_callback have_sendfile cbs { d1 with map := file.take len } res

/-- The event that the event loop reports to `dispatcher_cb`, together with
the results of the system calls made while it is handled: those of the `write`
(or `sendfile`) calls for `EV_WRITE`, that of `read` for `EV_READ`. -/
inductive reactor_event where
  | EV_TIMEOUT
  | EV_WRITE (script : List write_result)
  | EV_READ (rd : io_result)
deriving DecidableEq, Repr

/-- The function `dispatcher_cb (fd, what, arg)`.  `fuel` is the bound handed
to `read_buffers`; the values returned by `sendfile_callback` and
`write_buffers` are dropped, as in the source. -/
def dispatcher_cb (have_sendfile : Bool) (bufsiz : Nat) (cbs : dispatcher_callbacks) (fuel : Nat)
    (d : rspamd_io_dispatcher_t) (what : reactor_event) : Option rspamd_io_dispatcher_t :=
  match what with
  | reactor_event.EV_TIMEOUT =>
    match cbs.err_callback with
    | some f => some (call_err_callback f dispatcher_error.ETIMEDOUT d)
    | none => some d
  | reactor_event.EV_WRITE script =>
    if d.in_sendfile then
      some (sendfile_callback have_sendfile cbs d (script.headD write_result.again)).2
    else if d.out_buffers = [] then some { d with ev := ev_interest.ev_read }
    else some (write_buffers cbs d true script).2.1
  | reactor_event.EV_READ rd => read_buffers bufsiz cbs fuel d false rd

/-- The function `rspamd_create_dispatcher`: `NULL` for `fd == -1`, otherwise
a cleared dispatcher with the given policy, `nchars = 0`, `strip_eol = TRUE`,
not in sendfile mode, registered for `EV_WRITE`.  The callbacks are kept in a
`dispatcher_callbacks`. -/
def rspamd_create_dispatcher (fd : Int) (policy : io_policy) : Option rspamd_io_dispatcher_t :=
  if fd = -1 then none
  else
    some { in_buf := none, out_buffers := [], policy := policy, nchars := 0, strip_eol := true,
           wanna_die := false, in_sendfile := false, ev := ev_interest.ev_write, sent := [],
           log := [], offset := 0, file_size := 0, map := [], file := [] }

/-- The invariant (I3) of the specification: when the output queue is not
empty and the dispatcher is not in sendfile mode the registered interest is
write, otherwise it is read. -/
def interest_I3 (d : rspamd_io_dispatcher_t) : Prop :=
  if d.out_buffers ≠ [] ∧ d.in_sendfile = false then d.ev = ev_interest.ev_write
  else d.ev = ev_interest.ev_read

/-- Callbacks whose write callback returns the given flag and leaves the
dispatcher alone; the error callback does nothing, no read callback is set. -/
def write_callbacks (ret : Bool) : dispatcher_callbacks :=
  { read_callback := none, write_callback := some (fun d => (ret, d)),
    err_callback := some (fun _ d => d) }

/-- A fresh dispatcher on which the byte `A` was queued by a delayed write. -/
def one_queued : rspamd_io_dispatcher_t :=
  (rspamd_dispatcher_write (write_callbacks true) {} (bytes_of "A") 1 true false []).2.1

/-- The dispatcher `one_queued` after the loop of `write_buffers` has written
the byte: the cursor of the buffer is at its end and the byte was sent. -/
def one_written : rspamd_io_dispatcher_t :=
  { one_queued with
      out_buffers := [{ data := { mem := bytes_of "A", len := 1, size := 1 }, pos := 1 }],
      sent := bytes_of "A" }

/-- The file `ABCDEF`. -/
def six_bytes : List Nat := bytes_of "ABCDEF"


/-! ## `dns.c`: the inverse permutation -/

/-- The `do { i--; ... } while (i > 0)` loop of `dns_k_permutor_D` on the
locals `i`, `l[2]`, `r[2]`; `i` is `unsigned`, so `i--` wraps at zero.  The
first argument bounds the number of iterations; `none` means it ran out. -/
def dns_k_permutor_D_loop (p : dns_k_permutor) :
    Nat → Nat → Nat × Nat → Nat × Nat → Option (Nat × (Nat × Nat) × (Nat × Nat))
  | 0, _, _, _ => none
  | fuel + 1, i, l, r =>
    let i1 := sub32 i 1
    let r1 := arr2_set r (i1 % 2) (arr2_get l (w32 (i1 + 1) % 2))
    let l1 := arr2_set l (i1 % 2)
      (arr2_get r1 (w32 (i1 + 1) % 2) ^^^ dns_k_permutor_F p i1 (arr2_get l (w32 (i1 + 1) % 2)))
    if i1 > 0 then dns_k_permutor_D_loop p fuel i1 l1 r1 else some (i1, l1, r1)

/-- The function `dns_k_permutor_D`.  Of the arrays `l` and `r` only the
element `i % 2` is assigned before the loop; the other element, which the loop
writes before it reads it, is taken as zero.  The loop is bounded by `fuel`
iterations; `none` means the fuel ran out. -/
def dns_k_permutor_D (fuel : Nat) (p : dns_k_permutor) (n : Nat) : Option Nat :=
  let i0 := sub32 p.rounds 1
  let l0 := arr2_set (0, 0) (i0 % 2) (p.mask &&& (n >>> p.shift))
  let r0 := arr2_set (0, 0) (i0 % 2) (p.mask &&& (n >>> 0))
  match dns_k_permutor_D_loop p fuel i0 l0 r0 with
  | none => none
  | some res =>
    some (w32 ((arr2_get res.2.1 (res.1 % 2) &&& p.mask) <<< p.shift) |||
      w32 ((arr2_get res.2.2 (res.1 % 2) &&& p.mask) <<< 0))

/-- One Feistel round undone: the pair of halves before round `i`, given the
pair after it. -/
def feistel_unround (p : dns_k_permutor) (i : Nat) (x : Nat × Nat) : Nat × Nat :=
  (x.2 ^^^ dns_k_permutor_F p i x.1, x.1)

/-- The rounds `i+n-1, ..., i+1, i` undone in this order. -/
def feistel_uniter (p : dns_k_permutor) : Nat → Nat → Nat × Nat → Nat × Nat
  | _, 0, x => x
  | i, n + 1, x => feistel_uniter p i n (feistel_unround p (i + n) x)

/-! ## `dns.c`: what `dns_read_cb` parses -/

/-- The value assigned to the local `rep` of `dns_read_cb`: `none` when
`dns_parse_reply` is not called (`r <= 96`), otherwise the result of the call.
The arguments are those of `dns_read_cb`. -/
def dns_read_cb_rep (be undef : Bool) (stale : Nat → Nat) (resolver : rspamd_dns_resolver)
    (header : dns_header) (dgram : List Nat) :
    Option (Option (Option (rspamd_dns_reply × List parse_rr_result))) :=
  let got := dgram.take UDP_PACKET_SIZE
  let r := got.length
  let mem := got ++ ((List.range (UDP_PACKET_SIZE - r)).map (fun i => stale (r + i)))
  if r > 96 then some (dns_parse_reply be undef mem header (r : Int) resolver) else none

/-- The question for the name `a.io`, type A, class IN (10 bytes). -/
def short_question : List Nat := [1, 97, 2, 105, 111, 0, 0, 1, 0, 1]

/-- A request in flight under the id `0xABCD` for `a.io`. -/
def short_request : rspamd_dns_request :=
  { packet := List.replicate 12 0 ++ short_question, pos := 22, packet_len := 22,
    id := 0xABCD, type := some rspamd_request_type.DNS_REQUEST_A }

/-- A resolver with `short_request` in its table and the timer of that request
armed. -/
def short_resolver : rspamd_dns_resolver :=
  { requests := [(0xABCD, short_request)], timers := [0xABCD], callbacks := [] }

/-- A reply of 41 bytes to `short_request`: header bytes, the same question,
one A record. -/
def short_reply : List Nat := List.replicate 12 0 ++ short_question ++ a_record_literal

/-- The name `a.a.com` as characters. -/
def a_a_com : List Nat := bytes_of "a.a.com"

/-! ## A full input buffer -/

/-- Callbacks with a read callback that accepts every frame and an error
callback; both leave the dispatcher alone.  No write callback is set. -/
def read_err_callbacks : dispatcher_callbacks :=
  { read_callback := some (fun _ d => (true, d)), write_callback := none,
    err_callback := some (fun _ d => d) }

/-- A dispatcher in LINE policy whose 16-byte input buffer is filled by 16
characters without a newline. -/
def full_dispatcher : rspamd_io_dispatcher_t :=
  dispatcher_holding io_policy.BUFFER_LINE 0 (bytes_of "0123456789abcdef")

/-! ## The cursor of the input buffer -/

/-- The invariant (I2) of the specification in the form of its compaction
contract: the cursor of the input buffer, if there is one, stands at
`begin + len`. -/
def pos_at_len (d : rspamd_io_dispatcher_t) : Prop :=
  ∀ b, d.in_buf = some b → b.pos = b.data.len

/-- A dispatcher in CHARACTER(20) policy whose 21-byte input buffer holds 20
bytes. -/
def character20_dispatcher : rspamd_io_dispatcher_t :=
  { policy := io_policy.BUFFER_CHARACTER, nchars := 20,
    in_buf := some { data := { mem := bytes_of "0123456789abcdefghij" ++ [0], len := 20,
                               size := 21 },
                     pos := 20 } }

/-- A dispatcher in LINE policy that kept the input buffer of an earlier
CHARACTER(2^31) policy (`2^31 + 1` bytes) and holds `2^31` bytes without a
newline in it. -/
def large_line_dispatcher : rspamd_io_dispatcher_t :=
  { policy := io_policy.BUFFER_LINE, nchars := 8192,
    in_buf := some { data := { mem := List.replicate 2147483649 0, len := 2147483648,
                               size := 2147483649 },
                     pos := 2147483648 } }

/-! ## Auxiliary definitions for the read path -/

/-- The part of `read_buffers` that follows the read, on the dispatcher `d`
holding the buffer `buf`; `rec` stands for the recursive call
`read_buffers (fd, d, TRUE)`. -/
def read_buffers_scan (cbs : dispatcher_callbacks)
    (rec : rspamd_io_dispatcher_t → Option rspamd_io_dispatcher_t)
    (d : rspamd_io_dispatcher_t) (buf : rspamd_buffer_t) : Option rspamd_io_dispatcher_t :=
  let saved_policy := d.policy
  let mem := buf.data.mem
  let end_ := buf.pos
  let len := buf.data.len
  match d.policy with
  | io_policy.BUFFER_LINE =>
    match read_buffers_line_loop cbs mem saved_policy len 0 0 d with
    | line_scan.stopped d2 => some d2
    | line_scan.changed d2 r =>
      if end_ = r then reset_in_buf d2
      else
        match d2.in_buf with
        | none => none
        | some b2 =>
          let len2 := b2.data.len - r - 1
          match drain_in_buf d2 (mem_slice b2.data.mem (r + 1) len2) with
          | none => none
          | some d3 => rec d3
    | line_scan.finished d2 b => drain_in_buf d2 (mem_slice mem b (len - b))
  | io_policy.BUFFER_CHARACTER =>
    let r := d.nchars
    if len ≥ r then
      match cbs.read_callback with
      | some f =>
        let res := call_read_callback f (mem_slice mem 0 r) d
        if !res.1 then some res.2
        else
          let len1 := if len > r then len - r else len
          let drained :=
            if len > r then drain_in_buf res.2 (mem_slice mem r (len - r))
            else reset_in_buf res.2
          match drained with
          | none => none
          | some d3 =>
            if d3.policy ≠ saved_policy ∧ len1 ≠ r then
              rec d3
            else some d3
      | none => some d
    else some d
  | io_policy.BUFFER_ANY =>
    match cbs.read_callback with
    | some f =>
      let res := call_read_callback f (mem_slice mem 0 len) d
      if !res.1 then some res.2
      else if res.2.policy ≠ saved_policy then rec res.2
      else reset_in_buf res.2
    | none => reset_in_buf d

/-- A dispatcher in CHARACTER(10000) policy whose input buffer of 10001 bytes
holds 9000 bytes. -/
def character10000_dispatcher : rspamd_io_dispatcher_t :=
  { policy := io_policy.BUFFER_CHARACTER, nchars := 10000,
    in_buf := some { data := { mem := List.replicate 10001 97, len := 9000, size := 10001 },
                     pos := 9000 } }

/-! # Theorems -/

/-! ## Permutation generator -/

theorem arr2_get_set_same (a : Nat × Nat) (i v : Nat) :
    arr2_get (arr2_set a i v) i = v := by
  unfold arr2_get arr2_set
  by_cases h : i = 0 <;> simp [h]

theorem arr2_get_set_succ (a : Nat × Nat) (i v : Nat) :
    arr2_get (arr2_set a ((i + 1) % 2) v) (i % 2) = arr2_get a (i % 2) := by
  unfold arr2_get arr2_set
  rcases Nat.mod_two_eq_zero_or_one i with h | h
  · have h1 : (i + 1) % 2 = 1 := by omega
    simp [h, h1]
  · have h1 : (i + 1) % 2 = 0 := by omega
    simp [h, h1]

theorem E_loop_spec (p : dns_k_permutor) (bound : Nat) : ∀ (fuel i : Nat) (l r : Nat × Nat),
    max 1 (bound - i) ≤ fuel →
    (dns_k_permutor_E_loop p bound fuel i l r).1 = i + max 1 (bound - i) ∧
    (arr2_get (dns_k_permutor_E_loop p bound fuel i l r).2.1 ((i + max 1 (bound - i)) % 2),
     arr2_get (dns_k_permutor_E_loop p bound fuel i l r).2.2 ((i + max 1 (bound - i)) % 2)) =
      feistel_iter p i (max 1 (bound - i)) (arr2_get l (i % 2), arr2_get r (i % 2)) := by
  intro fuel
  induction fuel with
  | zero => intro i l r h; omega
  | succ fuel ih =>
    intro i l r hf
    unfold dns_k_permutor_E_loop
    by_cases hc : i + 1 < bound
    · simp only [hc, if_true]
      have hmax : max 1 (bound - i) = max 1 (bound - (i + 1)) + 1 := by omega
      have := ih (i + 1) (arr2_set l ((i + 1) % 2) (arr2_get r (i % 2)))
        (arr2_set r ((i + 1) % 2) (arr2_get (arr2_set l ((i + 1) % 2) (arr2_get r (i % 2))) (i % 2)
          ^^^ dns_k_permutor_F p i (arr2_get r (i % 2)))) (by omega)
      rw [hmax]
      have e1 : i + (max 1 (bound - (i + 1)) + 1) = i + 1 + max 1 (bound - (i + 1)) := by omega
      rw [e1]
      refine ⟨this.1, ?_⟩
      rw [this.2]
      simp only [feistel_iter, feistel_round, arr2_get_set_same, arr2_get_set_succ]
    · simp only [hc, if_false]
      have hmax : max 1 (bound - i) = 1 := by omega
      rw [hmax]
      refine ⟨rfl, ?_⟩
      simp only [feistel_iter, feistel_round, arr2_get_set_same, arr2_get_set_succ]

theorem BUFREMAIN_of_le (x : rspamd_buffer_t) (h : x.pos ≤ x.data.size) :
    BUFREMAIN x = x.data.size - x.pos := by
  unfold BUFREMAIN
  rw [if_pos h]

theorem w32_of_lt {x : Nat} (h : x < 4294967296) : w32 x = x := Nat.mod_eq_of_lt h

theorem sub32_of_le {a b : Nat} (hb : b ≤ a) (ha : a < 4294967296) : sub32 a b = a - b := by
  unfold sub32 w32
  have hb' : b % 4294967296 = b := Nat.mod_eq_of_lt (by omega)
  rw [hb']
  omega

theorem F_lt (p : dns_k_permutor) (hm : p.mask = 2 ^ p.shift - 1) (k x : Nat) :
    dns_k_permutor_F p k x < 2 ^ p.shift := by
  unfold dns_k_permutor_F
  rw [Nat.land_comm, hm, Nat.and_pow_two_sub_one_eq_mod]
  exact Nat.mod_lt _ (Nat.two_pow_pos _)

theorem feistel_round_lt (p : dns_k_permutor) (hm : p.mask = 2 ^ p.shift - 1) (i : Nat)
    (x : Nat × Nat) (h1 : x.1 < 2 ^ p.shift) (h2 : x.2 < 2 ^ p.shift) :
    (feistel_round p i x).1 < 2 ^ p.shift ∧ (feistel_round p i x).2 < 2 ^ p.shift :=
  ⟨h2, Nat.xor_lt_two_pow h1 (F_lt p hm i x.2)⟩

theorem feistel_iter_lt (p : dns_k_permutor) (hm : p.mask = 2 ^ p.shift - 1) (n : Nat) :
    ∀ (i : Nat) (x : Nat × Nat), x.1 < 2 ^ p.shift → x.2 < 2 ^ p.shift →
    (feistel_iter p i n x).1 < 2 ^ p.shift ∧ (feistel_iter p i n x).2 < 2 ^ p.shift := by
  induction n with
  | zero => intro i x h1 h2; exact ⟨h1, h2⟩
  | succ n ih =>
    intro i x h1 h2
    have h := feistel_round_lt p hm i x h1 h2
    exact ih (i + 1) _ h.1 h.2

theorem feistel_round_inj (p : dns_k_permutor) (i : Nat) (x y : Nat × Nat)
    (h : feistel_round p i x = feistel_round p i y) : x = y := by
  unfold feistel_round at h
  have h2 : x.2 = y.2 := congrArg Prod.fst h
  have h1 := congrArg Prod.snd h
  simp only [h2] at h1
  have h1' : x.1 = y.1 := Nat.xor_left_injective h1
  exact Prod.ext h1' h2

theorem feistel_iter_inj (p : dns_k_permutor) (n : Nat) :
    ∀ (i : Nat) (x y : Nat × Nat), feistel_iter p i n x = feistel_iter p i n y → x = y := by
  induction n with
  | zero => intro i x y h; exact h
  | succ n ih =>
    intro i x y h
    exact feistel_round_inj p i x y (ih (i + 1) _ _ h)

theorem E_eq (p : dns_k_permutor) (hm : p.mask = 2 ^ p.shift - 1) (hs : p.shift ≤ 16) (n : Nat) :
    dns_k_permutor_E p n =
      (feistel_iter p 0 (E_rounds p) (n / 2 ^ p.shift % 2 ^ p.shift, n % 2 ^ p.shift)).1 * 2 ^ p.shift
      + (feistel_iter p 0 (E_rounds p) (n / 2 ^ p.shift % 2 ^ p.shift, n % 2 ^ p.shift)).2 := by
  have hspec := E_loop_spec p (sub32 p.rounds 1) (sub32 p.rounds 1 + 1) 0
    (p.mask &&& (n >>> p.shift), 0) (p.mask &&& (n >>> 0), 0) (by omega)
  rw [Nat.sub_zero] at hspec
  obtain ⟨hi, hlr⟩ := hspec
  have hl0 : p.mask &&& (n >>> p.shift) = n / 2 ^ p.shift % 2 ^ p.shift := by
    rw [Nat.land_comm, hm, Nat.and_pow_two_sub_one_eq_mod, Nat.shiftRight_eq_div_pow]
  have hr0 : p.mask &&& (n >>> 0) = n % 2 ^ p.shift := by
    rw [Nat.land_comm, hm, Nat.and_pow_two_sub_one_eq_mod, Nat.shiftRight_zero]
  simp only [Nat.zero_add] at hlr hi
  have hg0 : ∀ a : Nat × Nat, arr2_get a (0 % 2) = a.1 := fun a => rfl
  simp only [hg0] at hlr
  rw [hl0, hr0] at hlr hi
  have hb := feistel_iter_lt p hm (E_rounds p) 0 (n / 2 ^ p.shift % 2 ^ p.shift, n % 2 ^ p.shift)
    (Nat.mod_lt _ (Nat.two_pow_pos _)) (Nat.mod_lt _ (Nat.two_pow_pos _))
  unfold dns_k_permutor_E
  simp only [hl0, hr0]
  generalize dns_k_permutor_E_loop p (sub32 p.rounds 1) (sub32 p.rounds 1 + 1) 0
    (n / 2 ^ p.shift % 2 ^ p.shift, 0) (n % 2 ^ p.shift, 0) = res at hi hlr
  rw [hi]
  clear hi
  unfold E_rounds at hb ⊢
  generalize feistel_iter p 0 (max 1 (sub32 p.rounds 1))
    (n / 2 ^ p.shift % 2 ^ p.shift, n % 2 ^ p.shift) = y at hlr hb
  rw [← hlr]
  rw [← hlr] at hb
  obtain ⟨hb1, hb2⟩ := hb
  simp only at hb1 hb2 ⊢
  generalize arr2_get res.2.1 (max 1 (sub32 p.rounds 1) % 2) = a at hb1 ⊢
  generalize arr2_get res.2.2 (max 1 (sub32 p.rounds 1) % 2) = b at hb2 ⊢
  rw [hm, Nat.and_pow_two_sub_one_eq_mod, Nat.and_pow_two_sub_one_eq_mod,
    Nat.mod_eq_of_lt hb1, Nat.mod_eq_of_lt hb2, Nat.shiftLeft_zero, Nat.shiftLeft_eq]
  have hp : (2:Nat) ^ p.shift ≤ 2 ^ 16 := Nat.pow_le_pow_right (by norm_num) hs
  have h216 : (2:Nat) ^ 16 = 65536 := by norm_num
  have ha : a * 2 ^ p.shift < 4294967296 := by
    calc a * 2 ^ p.shift < 2 ^ p.shift * 2 ^ p.shift := Nat.mul_lt_mul_of_pos_right hb1 (Nat.two_pow_pos _)
      _ ≤ 65536 * 65536 := Nat.mul_le_mul (by omega) (by omega)
      _ = 4294967296 := by norm_num
  rw [w32_of_lt ha, w32_of_lt (by omega : b < 4294967296), Nat.mul_comm a,
    ← Nat.mul_add_lt_is_or hb2 a]

theorem E_lt (p : dns_k_permutor) (hm : p.mask = 2 ^ p.shift - 1) (hs : p.shift ≤ 16) (n : Nat) :
    dns_k_permutor_E p n < 2 ^ p.shift * 2 ^ p.shift := by
  rw [E_eq p hm hs n]
  have hb := feistel_iter_lt p hm (E_rounds p) 0 (n / 2 ^ p.shift % 2 ^ p.shift, n % 2 ^ p.shift)
    (Nat.mod_lt _ (Nat.two_pow_pos _)) (Nat.mod_lt _ (Nat.two_pow_pos _))
  generalize feistel_iter p 0 (E_rounds p) (n / 2 ^ p.shift % 2 ^ p.shift, n % 2 ^ p.shift) = y at hb
  obtain ⟨h1, h2⟩ := hb
  generalize (2:Nat) ^ p.shift = B at h1 h2 ⊢
  calc y.1 * B + y.2 < y.1 * B + B := by omega
    _ = (y.1 + 1) * B := by ring
    _ ≤ B * B := Nat.mul_le_mul_right B (by omega)

theorem E_inj (p : dns_k_permutor) (hm : p.mask = 2 ^ p.shift - 1) (hs : p.shift ≤ 16)
    (n m : Nat) (hn : n < 2 ^ p.shift * 2 ^ p.shift) (hn' : m < 2 ^ p.shift * 2 ^ p.shift)
    (h : dns_k_permutor_E p n = dns_k_permutor_E p m) : n = m := by
  rw [E_eq p hm hs n, E_eq p hm hs m] at h
  have hb := feistel_iter_lt p hm (E_rounds p) 0 (n / 2 ^ p.shift % 2 ^ p.shift, n % 2 ^ p.shift)
    (Nat.mod_lt _ (Nat.two_pow_pos _)) (Nat.mod_lt _ (Nat.two_pow_pos _))
  have hb' := feistel_iter_lt p hm (E_rounds p) 0 (m / 2 ^ p.shift % 2 ^ p.shift, m % 2 ^ p.shift)
    (Nat.mod_lt _ (Nat.two_pow_pos _)) (Nat.mod_lt _ (Nat.two_pow_pos _))
  have hB : 0 < 2 ^ p.shift := Nat.two_pow_pos _
  have hxy : (n / 2 ^ p.shift % 2 ^ p.shift, n % 2 ^ p.shift) =
      (m / 2 ^ p.shift % 2 ^ p.shift, m % 2 ^ p.shift) := by
    apply feistel_iter_inj p (E_rounds p) 0
    generalize feistel_iter p 0 (E_rounds p) (n / 2 ^ p.shift % 2 ^ p.shift, n % 2 ^ p.shift) = y at hb h
    generalize feistel_iter p 0 (E_rounds p) (m / 2 ^ p.shift % 2 ^ p.shift, m % 2 ^ p.shift) = z at hb' h
    generalize (2:Nat) ^ p.shift = B at hb hb' h hB
    have e2 : y.2 = z.2 := by
      have h' : y.2 + y.1 * B = z.2 + z.1 * B := by omega
      have := congrArg (· % B) h'
      simp only [Nat.add_mul_mod_self_right, Nat.mod_eq_of_lt hb.2, Nat.mod_eq_of_lt hb'.2] at this
      exact this
    have e1 : y.1 = z.1 := by
      rw [e2] at h
      have := Nat.add_right_cancel h
      exact Nat.eq_of_mul_eq_mul_right hB this
    exact Prod.ext e1 e2
  have h1 := congrArg Prod.fst hxy
  have h2 := congrArg Prod.snd hxy
  simp only at h1 h2
  generalize (2:Nat) ^ p.shift = B at hn hn' h1 h2 hB
  have dn : n / B < B := Nat.div_lt_of_lt_mul hn
  have dm : m / B < B := Nat.div_lt_of_lt_mul hn'
  rw [Nat.mod_eq_of_lt dn, Nat.mod_eq_of_lt dm] at h1
  rw [← Nat.div_add_mod n B, ← Nat.div_add_mod m B, h1, h2]

theorem powof_loop_spec (n : Nat) (hn : n ≤ 2147483648) : ∀ (fuel i : Nat), i ≤ 31 → 32 < fuel + i →
    ∃ w, w ≤ 31 ∧ dns_k_permutor_powof_loop n fuel (2 ^ i) i = some w ∧ n ≤ 2 ^ w := by
  intro fuel
  induction fuel with
  | zero => intro i hi hf; omega
  | succ fuel ih =>
    intro i hi hf
    unfold dns_k_permutor_powof_loop
    by_cases hlt : 2 ^ i < n
    · simp only [hlt, if_true]
      have hi' : i < 31 := by
        by_contra hc
        have : i = 31 := by omega
        subst this
        norm_num at hlt
        omega
      have hpow : (2:Nat) ^ (i + 1) ≤ 2 ^ 31 := Nat.pow_le_pow_right (by norm_num) (by omega)
      have e : w32 (2 ^ i <<< 1) = 2 ^ (i + 1) := by
        rw [Nat.shiftLeft_eq, ← Nat.pow_succ]
        apply w32_of_lt
        have : (2:Nat) ^ 31 = 2147483648 := by norm_num
        omega
      rw [e]
      exact ih (i + 1) (by omega) (by omega)
    · simp only [hlt, if_false]
      exact ⟨i, hi, rfl, by omega⟩

theorem init_spec (k0 k1 k2 k3 low high : Nat) (hlh : low ≤ high) (hh : high < 4294967296)
    (hL : high - low + 1 ≤ 2147483648) :
    ∃ p, dns_k_permutor_init k0 k1 k2 k3 low high = some p ∧ PermInit p low high := by
  have hlen : w32 (sub32 high low + 1) = high - low + 1 := by
    rw [sub32_of_le hlh hh]
    exact w32_of_lt (by omega)
  obtain ⟨w, hw, hp, hn⟩ := powof_loop_spec (high - low + 1) hL 34 0 (by omega) (by omega)
  unfold dns_k_permutor_init
  simp only [hlen]
  unfold dns_k_permutor_powof
  rw [Nat.pow_zero] at hp
  rw [hp]
  refine ⟨_, rfl, ?_⟩
  have hsh : (w + w % 2) / 2 ≤ 16 := by omega
  have hpow : (2:Nat) ^ ((w + w % 2) / 2) ≤ 2 ^ 16 := Nat.pow_le_pow_right (by norm_num) hsh
  have h216 : (2:Nat) ^ 16 = 65536 := by norm_num
  have hpos : 0 < (2:Nat) ^ ((w + w % 2) / 2) := Nat.two_pow_pos _
  refine ⟨rfl, rfl, rfl, ?_, hsh, ?_⟩
  · show sub32 (w32 (1 <<< ((w + w % 2) / 2))) 1 = 2 ^ ((w + w % 2) / 2) - 1
    rw [Nat.shiftLeft_eq, Nat.one_mul, w32_of_lt (by omega), sub32_of_le (by omega) (by omega)]
  · show high - low + 1 ≤ 2 ^ ((w + w % 2) / 2) * 2 ^ ((w + w % 2) / 2)
    rw [← Nat.pow_add]
    have : w ≤ (w + w % 2) / 2 + (w + w % 2) / 2 := by omega
    exact le_trans hn (Nat.pow_le_pow_right (by norm_num) this)

theorem feistel_iter_stepi (p : dns_k_permutor) (s n : Nat) :
    ∀ (i : Nat) (x : Nat × Nat),
      feistel_iter { p with stepi := s } i n x = feistel_iter p i n x := by
  induction n with
  | zero => intro i x; rfl
  | succ n ih => intro i x; exact ih (i + 1) _

theorem E_stepi (p : dns_k_permutor) (hm : p.mask = 2 ^ p.shift - 1) (hs : p.shift ≤ 16)
    (s n : Nat) : dns_k_permutor_E { p with stepi := s } n = dns_k_permutor_E p n := by
  rw [E_eq p hm hs n, E_eq { p with stepi := s } hm hs n]
  show (feistel_iter { p with stepi := s } 0 (E_rounds p) _).1 * _ + (feistel_iter { p with stepi := s } 0 (E_rounds p) _).2 = _
  rw [feistel_iter_stepi]

theorem walk_hits_succ (p : dns_k_permutor) (s m : Nat) :
    walk_hits p s (m + 1) =
      if dns_k_permutor_E p s < p.length then dns_k_permutor_E p s :: walk_hits p (s + 1) m
      else walk_hits p (s + 1) m := by
  unfold walk_hits
  rw [List.range'_succ, List.map_cons, List.filter_cons]
  simp only [decide_eq_true_eq]

theorem step_spec (p : dns_k_permutor) (hm : p.mask = 2 ^ p.shift - 1) (hs : p.shift ≤ 16)
    (m : Nat) : ∀ (s fuel v : Nat) (tl : List Nat), s + m ≤ 4294967296 → m ≤ fuel →
      walk_hits p s m = v :: tl →
      ∃ s', s < s' ∧ s' ≤ s + m ∧
        dns_k_permutor_step fuel { p with stepi := w32 s } =
          some (w32 (v + sub32 (w32 (p.limit + 1)) p.length), { p with stepi := w32 s' }) ∧
        tl = walk_hits p s' (s + m - s') := by
  induction m with
  | zero => intro s fuel v tl _ _ h; simp [walk_hits] at h
  | succ m ih =>
    intro s fuel v tl hsm hf h
    obtain ⟨f, rfl⟩ : ∃ f, fuel = f + 1 := ⟨fuel - 1, by omega⟩
    have hws : w32 s = s := w32_of_lt (by omega)
    rw [walk_hits_succ] at h
    unfold dns_k_permutor_step
    simp only [hws, E_stepi p hm hs]
    by_cases hc : dns_k_permutor_E p s < p.length
    · rw [if_pos hc] at h
      have hc' : ¬ (dns_k_permutor_E p s ≥ p.length) := by omega
      rw [if_neg hc']
      injection h with hv ht
      refine ⟨s + 1, by omega, by omega, ?_, ?_⟩
      · rw [hv]
      · rw [← ht]; congr 1; omega
    · rw [if_neg hc] at h
      have hc' : dns_k_permutor_E p s ≥ p.length := by omega
      rw [if_pos hc']
      obtain ⟨s', h1, h2, h3, h4⟩ := ih (s + 1) f v tl (by omega) (by omega) h
      refine ⟨s', by omega, by omega, h3, ?_⟩
      rw [h4]; congr 1; omega

theorem outputs_spec (p : dns_k_permutor) (hm : p.mask = 2 ^ p.shift - 1) (hs : p.shift ≤ 16)
    (fuel k : Nat) : ∀ (s m : Nat), s + m ≤ 4294967296 → m ≤ fuel →
      k ≤ (walk_hits p s m).length →
      permutor_outputs fuel k { p with stepi := w32 s } =
        some (((walk_hits p s m).take k).map
          (fun v => w32 (v + sub32 (w32 (p.limit + 1)) p.length))) := by
  induction k with
  | zero => intro s m _ _ _; simp [permutor_outputs]
  | succ k ih =>
    intro s m hsm hf hk
    match hw : walk_hits p s m with
    | [] => rw [hw] at hk; simp at hk
    | v :: tl =>
      obtain ⟨s', h1, h2, h3, h4⟩ := step_spec p hm hs m s fuel v tl hsm hf hw
      rw [hw] at hk
      simp only [List.length_cons, Nat.add_le_add_iff_right] at hk
      unfold permutor_outputs
      rw [h3]
      simp only
      rw [h4] at hk
      have := ih s' (s + m - s') (by omega) (by omega) hk
      simp only [] at this
      rw [this, ← h4]
      simp

theorem E_surj (p : dns_k_permutor) (hm : p.mask = 2 ^ p.shift - 1) (hs : p.shift ≤ 16)
    (v : Nat) (hv : v < 2 ^ p.shift * 2 ^ p.shift) :
    ∃ j, j < 2 ^ p.shift * 2 ^ p.shift ∧ dns_k_permutor_E p j = v := by
  have hsub : (Finset.range (2 ^ p.shift * 2 ^ p.shift)).image (dns_k_permutor_E p) ⊆
      Finset.range (2 ^ p.shift * 2 ^ p.shift) := by
    intro x hx
    rw [Finset.mem_image] at hx
    obtain ⟨j, _, rfl⟩ := hx
    exact Finset.mem_range.mpr (E_lt p hm hs j)
  have hcard : ((Finset.range (2 ^ p.shift * 2 ^ p.shift)).image (dns_k_permutor_E p)).card =
      (Finset.range (2 ^ p.shift * 2 ^ p.shift)).card := by
    apply Finset.card_image_of_injOn
    intro a ha b hb hab
    exact E_inj p hm hs a b (Finset.mem_range.mp (Finset.mem_coe.mp ha))
      (Finset.mem_range.mp (Finset.mem_coe.mp hb)) hab
  have heq := Finset.eq_of_subset_of_card_le hsub (le_of_eq hcard.symm)
  have hv' : v ∈ (Finset.range (2 ^ p.shift * 2 ^ p.shift)).image (dns_k_permutor_E p) := by
    rw [heq]; exact Finset.mem_range.mpr hv
  rw [Finset.mem_image] at hv'
  obtain ⟨j, hj, hjv⟩ := hv'
  exact ⟨j, Finset.mem_range.mp hj, hjv⟩

theorem walk_hits_nodup (p : dns_k_permutor) (hm : p.mask = 2 ^ p.shift - 1) (hs : p.shift ≤ 16) :
    (walk_hits p 0 (2 ^ p.shift * 2 ^ p.shift)).Nodup := by
  unfold walk_hits
  apply List.Nodup.filter
  apply List.Nodup.map_on
  · intro x hx y hy hxy
    rw [List.mem_range'_1] at hx hy
    exact E_inj p hm hs x y (by omega) (by omega) hxy
  · exact List.nodup_range' 0 _

theorem walk_hits_mem (p : dns_k_permutor) (hm : p.mask = 2 ^ p.shift - 1) (hs : p.shift ≤ 16)
    (hfit : p.length ≤ 2 ^ p.shift * 2 ^ p.shift) (v : Nat) :
    v ∈ walk_hits p 0 (2 ^ p.shift * 2 ^ p.shift) ↔ v < p.length := by
  unfold walk_hits
  rw [List.mem_filter, List.mem_map]
  simp only [decide_eq_true_eq]
  constructor
  · intro h; exact h.2
  · intro h
    obtain ⟨j, hj, hjv⟩ := E_surj p hm hs v (by omega)
    exact ⟨⟨j, by rw [List.mem_range'_1]; omega, hjv⟩, h⟩

theorem walk_hits_length (p : dns_k_permutor) (hm : p.mask = 2 ^ p.shift - 1) (hs : p.shift ≤ 16)
    (hfit : p.length ≤ 2 ^ p.shift * 2 ^ p.shift) :
    (walk_hits p 0 (2 ^ p.shift * 2 ^ p.shift)).length = p.length := by
  have hperm : (walk_hits p 0 (2 ^ p.shift * 2 ^ p.shift)).Perm (List.range p.length) := by
    rw [List.perm_ext_iff_of_nodup (walk_hits_nodup p hm hs) (List.nodup_range _)]
    intro a
    rw [walk_hits_mem p hm hs hfit, List.mem_range]
  rw [hperm.length_eq, List.length_range]

theorem offset_eq (low high : Nat) (hlh : low ≤ high) (hh : high < 4294967296) :
    sub32 (w32 (high + 1)) (high - low + 1) = low := by
  unfold sub32 w32
  omega

/-- C2: for every key and every range `low ≤ high < 2^32` with
`L = high - low + 1 ≤ 2^31`, `dns_k_permutor_init` returns a permutor and the
first `L` values returned by `dns_k_permutor_step` (given at least `2^32`
loop iterations per call, so every call returns) are pairwise distinct and
are exactly the integers `low..high`. -/
theorem permutor_first_cycle (k0 k1 k2 k3 low high fuel : Nat) (hlh : low ≤ high)
    (hh : high < 4294967296) (hL : high - low + 1 ≤ 2147483648) (hf : 4294967296 ≤ fuel) :
    ∃ p outs, dns_k_permutor_init k0 k1 k2 k3 low high = some p ∧
      permutor_outputs fuel (high - low + 1) p = some outs ∧
      outs.length = high - low + 1 ∧ outs.Nodup ∧
      ∀ v, v ∈ outs ↔ low ≤ v ∧ v ≤ high := by
  obtain ⟨p, hp, hi⟩ := init_spec k0 k1 k2 k3 low high hlh hh hL
  have hW : 2 ^ p.shift * 2 ^ p.shift ≤ 4294967296 := by
    have h1 : (2:Nat) ^ p.shift ≤ 2 ^ 16 := Nat.pow_le_pow_right (by norm_num) hi.shift
    have h2 : (2:Nat) ^ 16 = 65536 := by norm_num
    calc 2 ^ p.shift * 2 ^ p.shift ≤ 65536 * 65536 := Nat.mul_le_mul (by omega) (by omega)
      _ = 4294967296 := by norm_num
  have hlen := walk_hits_length p hi.mask hi.shift hi.fits
  have hout := outputs_spec p hi.mask hi.shift fuel (high - low + 1) 0 (2 ^ p.shift * 2 ^ p.shift)
    (by omega) (by omega) (by rw [hlen, hi.length])
  have hp0 : { p with stepi := w32 0 } = p := by
    have := hi.stepi
    cases p
    simp only [w32] at this ⊢
    simp [this]
  rw [hp0, hi.limit, hi.length, offset_eq low high hlh hh] at hout
  rw [List.take_of_length_le (by rw [hlen, hi.length])] at hout
  have hval : ∀ v ∈ walk_hits p 0 (2 ^ p.shift * 2 ^ p.shift), w32 (v + low) = v + low := by
    intro v hv
    rw [walk_hits_mem p hi.mask hi.shift hi.fits, hi.length] at hv
    exact w32_of_lt (by omega)
  rw [List.map_congr_left hval] at hout
  refine ⟨p, _, hp, hout, ?_, ?_, ?_⟩
  · rw [List.length_map, hlen, hi.length]
  · exact List.Nodup.map (fun a b hab => by simpa using hab) (walk_hits_nodup p hi.mask hi.shift)
  · intro v
    rw [List.mem_map]
    constructor
    · rintro ⟨a, ha, rfl⟩
      rw [walk_hits_mem p hi.mask hi.shift hi.fits, hi.length] at ha
      omega
    · intro hv
      refine ⟨v - low, ?_, by omega⟩
      rw [walk_hits_mem p hi.mask hi.shift hi.fits, hi.length]
      omega

/-- C2, instance: the range `(0, 255)` with the all-zero key. -/
theorem permutor_first_cycle_witness :
    ∃ p outs, dns_k_permutor_init 0 0 0 0 0 255 = some p ∧
      permutor_outputs 4294967296 (255 - 0 + 1) p = some outs ∧
      outs.length = 255 - 0 + 1 ∧ outs.Nodup ∧
      ∀ v, v ∈ outs ↔ 0 ≤ v ∧ v ≤ 255 :=
  permutor_first_cycle 0 0 0 0 0 255 4294967296 (by decide) (by decide) (by decide) (by decide)

theorem E_periodic (p : dns_k_permutor) (hm : p.mask = 2 ^ p.shift - 1) (hs : p.shift ≤ 16)
    (n : Nat) : dns_k_permutor_E p (n % (2 ^ p.shift * 2 ^ p.shift)) = dns_k_permutor_E p n := by
  rw [E_eq p hm hs n, E_eq p hm hs (n % (2 ^ p.shift * 2 ^ p.shift))]
  rw [Nat.mod_mul_right_div_self, Nat.mod_mod, Nat.mod_mul_left_mod]

theorem step_none_of_length_zero : ∀ (fuel : Nat) (p : dns_k_permutor), p.length = 0 →
    dns_k_permutor_step fuel p = none := by
  intro fuel
  induction fuel with
  | zero => intro p _; rfl
  | succ fuel ih =>
    intro p hp
    unfold dns_k_permutor_step
    have hc : dns_k_permutor_E p p.stepi ≥ p.length := by omega
    rw [if_pos hc]
    exact ih _ hp

theorem step_hit (k : Nat) : ∀ (fuel : Nat) (q : dns_k_permutor), k < fuel →
    q.mask = 2 ^ q.shift - 1 → q.shift ≤ 16 → q.stepi < 4294967296 →
    dns_k_permutor_E q (w32 (q.stepi + k)) < q.length →
    ∃ n p1, dns_k_permutor_step fuel q =
        some (w32 (n + sub32 (w32 (q.limit + 1)) q.length), p1) ∧ n < q.length := by
  induction k with
  | zero =>
    intro fuel q hf hm hs hst hE
    obtain ⟨f, rfl⟩ : ∃ f, fuel = f + 1 := ⟨fuel - 1, by omega⟩
    rw [Nat.add_zero, w32_of_lt hst] at hE
    unfold dns_k_permutor_step
    have hc : ¬ (dns_k_permutor_E q q.stepi ≥ q.length) := by omega
    simp only [hc, if_false]
    exact ⟨_, _, rfl, hE⟩
  | succ k ih =>
    intro fuel q hf hm hs hst hE
    obtain ⟨f, rfl⟩ : ∃ f, fuel = f + 1 := ⟨fuel - 1, by omega⟩
    unfold dns_k_permutor_step
    by_cases hc : dns_k_permutor_E q q.stepi ≥ q.length
    · simp only [hc, if_true]
      have hidx : w32 (w32 (q.stepi + 1) + k) = w32 (q.stepi + (k + 1)) := by
        unfold w32; omega
      have hE' : dns_k_permutor_E { q with stepi := w32 (q.stepi + 1) }
          (w32 (w32 (q.stepi + 1) + k)) < q.length := by
        rw [E_stepi q hm hs, hidx]; exact hE
      have hlt : w32 (q.stepi + 1) < 4294967296 := Nat.mod_lt _ (by norm_num)
      exact ih f { q with stepi := w32 (q.stepi + 1) } (by omega) hm hs hlt hE'
    · simp only [hc, if_false]
      exact ⟨_, _, rfl, by omega⟩

theorem exists_hit (p : dns_k_permutor) (hm : p.mask = 2 ^ p.shift - 1) (hs : p.shift ≤ 16)
    (hpos : 0 < p.length) (s : Nat) :
    ∃ k, k < 2 ^ p.shift * 2 ^ p.shift ∧ dns_k_permutor_E p (w32 (s + k)) < p.length := by
  have hWpos : 0 < 2 ^ p.shift * 2 ^ p.shift := Nat.mul_pos (Nat.two_pow_pos _) (Nat.two_pow_pos _)
  obtain ⟨j, hj, hEj⟩ := E_surj p hm hs 0 hWpos
  have hdvd : 2 ^ p.shift * 2 ^ p.shift ∣ 4294967296 := by
    rw [← Nat.pow_add]
    have : (4294967296 : Nat) = 2 ^ 32 := by norm_num
    rw [this]
    exact Nat.pow_dvd_pow 2 (by omega)
  have hper := E_periodic p hm hs
  generalize 2 ^ p.shift * 2 ^ p.shift = W at hj hWpos hdvd hper ⊢
  have key : ∀ t, t % W = j → dns_k_permutor_E p (w32 t) < p.length := by
    intro t ht
    have h1 : w32 t % W = j := by
      unfold w32
      rw [Nat.mod_mod_of_dvd _ hdvd, ht]
    rw [← hper (w32 t), h1, hEj]
    exact hpos
  have hdm := Nat.div_add_mod s W
  have hmod : s % W < W := Nat.mod_lt _ hWpos
  generalize hQ : W * (s / W) = Q at hdm
  by_cases hja : s % W ≤ j
  · refine ⟨j - s % W, by omega, key _ ?_⟩
    have e : s + (j - s % W) = W * (s / W) + j := by omega
    rw [e, Nat.mul_add_mod, Nat.mod_eq_of_lt hj]
  · refine ⟨W + j - s % W, by omega, key _ ?_⟩
    have e : s + (W + j - s % W) = W * (s / W + 1) + j := by
      rw [Nat.mul_add, Nat.mul_one]; omega
    rw [e, Nat.mul_add_mod, Nat.mod_eq_of_lt hj]

theorem peek_append (pre : List Nat) (x : Nat) (rest : List Nat) :
    peek (pre ++ x :: rest) pre.length = some x := by
  unfold peek
  rw [List.get?_eq_getElem?, List.getElem?_append_right (Nat.le_refl _), Nat.sub_self,
    List.getElem?_cons_zero]

theorem peek_bytes_append (pre l rest : List Nat) :
    peek_bytes (pre ++ (l ++ rest)) pre.length l.length = some l := by
  unfold peek_bytes
  have h : pre.length + l.length ≤ (pre ++ (l ++ rest)).length := by
    simp only [List.length_append]; omega
  rw [if_pos h, List.drop_left, List.take_left]

theorem land_192_of_lt_64 (n : Nat) (h : n < 64) : n &&& 0xC0 = 0 := by
  interval_cases n <;> rfl

theorem encode_labels_length_pos (ls : List (List Nat)) : 0 < (encode_labels ls).length := by
  cases ls <;> simp [encode_labels]

theorem question_section_inj : ∀ (ls1 ls2 : List (List Nat)) (tc1 tc2 : List Nat),
    (∀ l ∈ ls1, wf_label l) → (∀ l ∈ ls2, wf_label l) →
    question_section ls1 tc1 = question_section ls2 tc2 → ls1 = ls2 ∧ tc1 = tc2 := by
  intro ls1
  induction ls1 with
  | nil =>
    intro ls2 tc1 tc2 _ h2 h
    cases ls2 with
    | nil => simpa [question_section, encode_labels] using h
    | cons l r =>
      simp only [question_section, encode_labels, List.cons_append, List.nil_append,
        List.cons.injEq] at h
      have := (h2 l (List.mem_cons_self _ _)).1
      omega
  | cons l1 r1 ih =>
    intro ls2 tc1 tc2 h1 h2 h
    cases ls2 with
    | nil =>
      simp only [question_section, encode_labels, List.cons_append, List.nil_append,
        List.cons.injEq] at h
      have := (h1 l1 (List.mem_cons_self _ _)).1
      omega
    | cons l2 r2 =>
      simp only [question_section, encode_labels, List.cons_append, List.append_assoc,
        List.cons.injEq] at h
      obtain ⟨hlen, happ⟩ := h
      obtain ⟨hl, hrest⟩ := List.append_inj happ hlen
      have := ih r2 tc1 tc2 (fun l hl => h1 l (List.mem_cons_of_mem _ hl))
        (fun l hl => h2 l (List.mem_cons_of_mem _ hl)) (by simpa [question_section] using hrest)
      exact ⟨by rw [hl, this.1], this.2⟩

theorem cmp_loop_spec : ∀ (ls2 ls1 : List (List Nat)) (pre1 pre2 tail1 tail2 : List Nat)
    (fuel : Nat) (len : Int),
    (∀ l ∈ ls1, wf_label l) → (∀ l ∈ ls2, wf_label l) →
    (encode_labels ls2).length ≤ fuel →
    ((pre2.length + (encode_labels ls2).length : Nat) : Int) ≤ len →
    dns_request_reply_cmp_loop (pre1 ++ (encode_labels ls1 ++ tail1))
        (pre2 ++ (encode_labels ls2 ++ tail2)) len fuel pre2.length pre1.length =
      some (if ls1 = ls2 then
              some (pre2.length + (encode_labels ls2).length,
                    pre1.length + (encode_labels ls1).length)
            else none) := by
  intro ls2
  induction ls2 with
  | nil =>
    intro ls1 pre1 pre2 tail1 tail2 fuel len h1 _ hf hlen
    obtain ⟨f, rfl⟩ : ∃ f, fuel = f + 1 := ⟨fuel - 1, by
      have := encode_labels_length_pos ([] : List (List Nat)); omega⟩
    have hp : ¬ ((pre2.length : Int) > len) := by
      simp only [encode_labels, List.length_singleton] at hlen
      omega
    cases ls1 with
    | nil =>
      unfold dns_request_reply_cmp_loop
      simp only [encode_labels, List.singleton_append, peek_append, hp, if_false]
      simp
    | cons l1 r1 =>
      have hl1 := h1 l1 (List.mem_cons_self _ _)
      unfold dns_request_reply_cmp_loop
      simp only [encode_labels, List.singleton_append, List.cons_append, peek_append, hp,
        if_false]
      have h64 := land_192_of_lt_64 l1.length hl1.2
      have hne : ¬ (0 = l1.length) := by have := hl1.1; omega
      simp [h64, hne]
  | cons l2 r2 ih =>
    intro ls1 pre1 pre2 tail1 tail2 fuel len h1 h2 hf hlen
    have hl2 := h2 l2 (List.mem_cons_self _ _)
    have hlenc : (encode_labels (l2 :: r2)).length = 1 + l2.length + (encode_labels r2).length := by
      simp only [encode_labels, List.length_cons, List.length_append]; omega
    obtain ⟨f, rfl⟩ : ∃ f, fuel = f + 1 := ⟨fuel - 1, by omega⟩
    have hp : ¬ ((pre2.length : Int) > len) := by omega
    have h64 := land_192_of_lt_64 l2.length hl2.2
    cases ls1 with
    | nil =>
      unfold dns_request_reply_cmp_loop
      simp only [encode_labels, List.singleton_append, List.cons_append, peek_append, hp,
        if_false]
      have hne : ¬ (l2.length = 0) := by have := hl2.1; omega
      simp [h64, hne]
    | cons l1 r1 =>
      have hl1 := h1 l1 (List.mem_cons_self _ _)
      have h64' := land_192_of_lt_64 l1.length hl1.2
      unfold dns_request_reply_cmp_loop
      simp only [encode_labels, List.cons_append, peek_append, hp, if_false, h64, h64',
        ne_eq, not_true_eq_false]
      by_cases hll : l2.length = l1.length
      · have hne : ¬ (l2.length = 0) := by have := hl2.1; omega
        simp only [hll, not_true_eq_false, if_false]
        rw [← hll]
        simp only [hne, if_false]
        have e2 : pre2 ++ l2.length :: (l2 ++ encode_labels r2 ++ tail2) =
            (pre2 ++ [l2.length]) ++ (l2 ++ (encode_labels r2 ++ tail2)) := by simp
        have e1 : pre1 ++ l2.length :: (l1 ++ encode_labels r1 ++ tail1) =
            (pre1 ++ [l2.length]) ++ (l1 ++ (encode_labels r1 ++ tail1)) := by simp
        have hb2 : peek_bytes (pre2 ++ l2.length :: (l2 ++ encode_labels r2 ++ tail2))
            (pre2.length + 1) l2.length = some l2 := by
          rw [e2]
          have := peek_bytes_append (pre2 ++ [l2.length]) l2 (encode_labels r2 ++ tail2)
          simpa using this
        have hb1 : peek_bytes (pre1 ++ l2.length :: (l1 ++ encode_labels r1 ++ tail1))
            (pre1.length + 1) l2.length = some l1 := by
          rw [e1]
          have := peek_bytes_append (pre1 ++ [l2.length]) l1 (encode_labels r1 ++ tail1)
          rw [← hll] at this
          simpa using this
        rw [hb2, hb1]
        simp only
        by_cases hbe : l2 = l1
        · subst hbe
          simp only [ne_eq, not_true_eq_false, if_false]
          have e2' : pre2 ++ l2.length :: (l2 ++ encode_labels r2 ++ tail2) =
              (pre2 ++ l2.length :: l2) ++ (encode_labels r2 ++ tail2) := by simp
          have e1' : pre1 ++ l2.length :: (l2 ++ encode_labels r1 ++ tail1) =
              (pre1 ++ l2.length :: l2) ++ (encode_labels r1 ++ tail1) := by simp
          have hq : pre2.length + 1 + l2.length = (pre2 ++ l2.length :: l2).length := by
            simp; omega
          have hc : pre1.length + 1 + l2.length = (pre1 ++ l2.length :: l2).length := by
            simp; omega
          rw [e2', e1', hq, hc]
          rw [ih r1 (pre1 ++ l2.length :: l2) (pre2 ++ l2.length :: l2) tail1 tail2 f len
            (fun l hl => h1 l (List.mem_cons_of_mem _ hl))
            (fun l hl => h2 l (List.mem_cons_of_mem _ hl)) (by omega)
            (by simp only [List.length_append, List.length_cons]; omega)]
          by_cases hr : r1 = r2
          · subst hr
            simp only [if_true, List.length_append, List.length_cons]
            congr 3 <;> omega
          · have : ¬ (l2 :: r1 = l2 :: r2) := by simpa using hr
            simp [hr]
        · have : ¬ (l1 :: r1 = l2 :: r2) := by
            intro h; injection h with h _; exact hbe h.symm
          simp [hbe, this]
      · have : ¬ (l1 :: r1 = l2 :: r2) := by
          intro h; injection h with h _; exact hll (by rw [h])
        simp [hll, this]

theorem split_lines_append (strip : Bool) : ∀ (xs ys acc : List Nat),
    split_lines strip (xs ++ ys) acc =
      ((split_lines strip xs acc).1 ++ (split_lines strip ys (split_lines strip xs acc).2).1,
       (split_lines strip ys (split_lines strip xs acc).2).2) := by
  intro xs
  induction xs with
  | nil => intro ys acc; simp [split_lines]
  | cons x xs ih =>
    intro ys acc
    simp only [List.cons_append, split_lines]
    by_cases hx : x = 10
    · simp only [hx, if_true]
      have := ih ys []
      simp only [List.append_eq] at this ⊢
      rw [this]
      simp
    · simp only [hx, if_false]
      have := ih ys (acc ++ [x])
      simp only [List.append_eq] at this ⊢
      exact this

theorem getD_of_take (mem B : List Nat) (h : mem.take B.length = B) (r : Nat) (hr : r < B.length) :
    mem.getD r 0 = B.getD r 0 := by
  have hlen : B.length ≤ mem.length := by
    have := congrArg List.length h
    rw [List.length_take] at this
    omega
  rw [List.getD_eq_getElem?_getD, List.getD_eq_getElem?_getD]
  conv_rhs => rw [← h]
  rw [List.getElem?_take_of_lt hr]

theorem mem_slice_of_take (mem B : List Nat) (h : mem.take B.length = B) (b n : Nat)
    (hb : b + n ≤ B.length) : mem_slice mem b n = mem_slice B b n := by
  unfold mem_slice
  conv_rhs => rw [← h]
  rw [List.drop_take, List.take_take]
  congr 1
  omega

theorem getElem?_eq_some_getD (B : List Nat) (r : Nat) (hr : r < B.length) :
    B[r]? = some (B.getD r 0) := by
  rw [List.getD_eq_getElem?_getD, List.getElem?_eq_getElem hr]
  rfl

theorem drop_eq_getD_cons (B : List Nat) (r : Nat) (hr : r < B.length) :
    B.drop r = B.getD r 0 :: B.drop (r + 1) := by
  rw [List.drop_eq_getElem_cons hr]
  congr 1
  rw [List.getD_eq_getElem?_getD, List.getElem?_eq_getElem hr]
  rfl

theorem mem_slice_succ (B : List Nat) (b r : Nat) (hb : b ≤ r) (hr : r < B.length) :
    mem_slice B b (r + 1 - b) = mem_slice B b (r - b) ++ [B.getD r 0] := by
  unfold mem_slice
  have e : r + 1 - b = (r - b) + 1 := by omega
  rw [e, List.take_succ, List.getElem?_drop]
  have e2 : b + (r - b) = r := by omega
  rw [e2, getElem?_eq_some_getD B r hr]
  rfl

theorem mem_slice_zero (B : List Nat) (b : Nat) : mem_slice B b 0 = [] := by
  unfold mem_slice; simp

theorem line_frame_code (mem B : List Nat) (hB : mem.take B.length = B) (strip : Bool)
    (b r : Nat) (hb : b ≤ r) (hr : r < B.length)
    (hinv : b = 0 ∨ mem.getD (b - 1) 0 = 10) (hx : mem.getD r 0 = 10) :
    mem_slice mem b
      (if strip = true then
        (if r ≠ 0 ∧ mem.getD (r - 1) 0 = 13 then
          (if r - b = 0 then SIZE_T_MOD - 1 else r - b - 1)
         else r - b)
       else r - b + 1) = line_frame strip (mem_slice B b (r - b)) := by
  unfold line_frame
  cases strip with
  | false =>
    simp only [Bool.false_eq_true, if_false]
    rw [mem_slice_of_take mem B hB b (r - b + 1) (by omega)]
    have := mem_slice_succ B b r hb hr
    have e : r + 1 - b = r - b + 1 := by omega
    rw [e] at this
    rw [this, ← getD_of_take mem B hB r hr, hx]
  | true =>
    simp only [if_true]
    by_cases hbr : b = r
    · subst hbr
      have hacc : mem_slice B b (b - b) = [] := by rw [Nat.sub_self]; exact mem_slice_zero B b
      have hcond : ¬ (b ≠ 0 ∧ mem.getD (b - 1) 0 = 13) := by
        rintro ⟨h0, h13⟩
        rcases hinv with h | h
        · exact h0 h
        · rw [h] at h13; omega
      rw [if_neg hcond, hacc]
      simp only [List.getLast?_nil, if_false]
      rw [Nat.sub_self]
      unfold mem_slice; simp
    · have hlt : b < r := by omega
      have hr1 : r - 1 < B.length := by omega
      have hsl := mem_slice_succ B b (r - 1) (by omega) hr1
      have e1 : r - 1 + 1 - b = r - b := by omega
      have e2 : r - 1 - b = r - b - 1 := by omega
      rw [e1, e2] at hsl
      have hget := getD_of_take mem B hB (r - 1) hr1
      by_cases h13 : mem.getD (r - 1) 0 = 13
      · have hcond : r ≠ 0 ∧ mem.getD (r - 1) 0 = 13 := ⟨by omega, h13⟩
        have hne : ¬ (r - b = 0) := by omega
        rw [if_pos hcond, if_neg hne, hsl, ← hget, h13]
        simp only [List.getLast?_concat, if_true, List.dropLast_concat]
        exact mem_slice_of_take mem B hB b (r - b - 1) (by omega)
      · have hcond : ¬ (r ≠ 0 ∧ mem.getD (r - 1) 0 = 13) := fun h => h13 h.2
        rw [if_neg hcond]
        have hlast : (mem_slice B b (r - b)).getLast? ≠ some 13 := by
          rw [hsl, ← hget]
          simp only [List.getLast?_concat, ne_eq, Option.some.injEq]
          exact h13
        rw [if_neg hlast]
        exact mem_slice_of_take mem B hB b (r - b) (by omega)

theorem line_loop_keep (cbs : dispatcher_callbacks)
    (f : List Nat → rspamd_io_dispatcher_t → Bool × rspamd_io_dispatcher_t)
    (hcb : cbs.read_callback = some f) (hf : ∀ fr d, f fr d = (true, d))
    (mem B : List Nat) (hB : mem.take B.length = B) (saved : io_policy) :
    ∀ (n r b : Nat) (d : rspamd_io_dispatcher_t), r + n = B.length → b ≤ r →
      (b = 0 ∨ mem.getD (b - 1) 0 = 10) → d.policy = saved →
      ∃ b', b' ≤ B.length ∧
        read_buffers_line_loop cbs mem saved n r b d =
          line_scan.finished
            { d with log := (d.log ++ List.map dispatcher_event.read_cb
                (split_lines d.strip_eol (B.drop r) (mem_slice B b (r - b))).1) } b' ∧
        mem_slice B b' (B.length - b') =
          (split_lines d.strip_eol (B.drop r) (mem_slice B b (r - b))).2 := by
  intro n
  induction n with
  | zero =>
    intro r b d hrn hbr _ _
    refine ⟨b, by omega, ?_, ?_⟩
    · have hr : r = B.length := by omega
      subst hr
      simp only [read_buffers_line_loop, List.drop_length, split_lines, List.map_nil,
        List.append_nil]
    · have hr : r = B.length := by omega
      subst hr
      simp only [List.drop_length, split_lines]
  | succ n ih =>
    intro r b d hrn hbr hinv hpol
    subst hpol
    have hr : r < B.length := by omega
    have hget := getD_of_take mem B hB r hr
    rw [drop_eq_getD_cons B r hr]
    unfold read_buffers_line_loop
    simp only [split_lines]
    by_cases hx : mem.getD r 0 = 10
    · have hx' : B.getD r 0 = 10 := by rw [← hget]; exact hx
      simp only [hx, hx', if_true, hcb]
      have hframe := line_frame_code mem B hB d.strip_eol b r hbr hr hinv hx
      rw [hframe]
      simp only [call_read_callback, hf, Bool.not_true, Bool.false_eq_true, if_false,
        ne_eq, not_true_eq_false]
      obtain ⟨b', hb', hloop, hres⟩ := ih (r + 1) (r + 1)
        { d with log := (d.log ++ [dispatcher_event.read_cb
            (line_frame d.strip_eol (mem_slice B b (r - b)))]) }
        (by omega) (Nat.le_refl _) (Or.inr (by simpa using hx)) rfl
      refine ⟨b', hb', ?_, ?_⟩
      · rw [hloop]
        simp only [Nat.sub_self, mem_slice_zero, List.map_cons, List.append_assoc,
          List.singleton_append]
      · rw [hres]
        simp only [Nat.sub_self, mem_slice_zero]
    · have hx' : ¬ (B.getD r 0 = 10) := by rw [← hget]; exact hx
      simp only [hx, hx', if_false]
      obtain ⟨b', hb', hloop, hres⟩ := ih (r + 1) b d (by omega) (by omega) hinv rfl
      rw [mem_slice_succ B b r hbr hr] at hloop hres
      exact ⟨b', hb', hloop, hres⟩

theorem take_mem_blit (mem R c : List Nat) (hR : mem.take R.length = R) :
    (mem_blit mem R.length c).take (R ++ c).length = R ++ c := by
  unfold mem_blit
  rw [hR, List.append_assoc, ← List.append_assoc R c, List.take_left]

theorem take_mem_blit_zero (mem src : List Nat) :
    (mem_blit mem 0 src).take src.length = src := by
  unfold mem_blit
  simp

theorem read_buffers_line_keep (bufsiz : Nat) (cbs : dispatcher_callbacks)
    (f : List Nat → rspamd_io_dispatcher_t → Bool × rspamd_io_dispatcher_t)
    (hcb : cbs.read_callback = some f) (hf : ∀ fr d, f fr d = (true, d))
    (fuel : Nat) (d : rspamd_io_dispatcher_t) (buf : rspamd_buffer_t) (R c : List Nat)
    (hpol : d.policy = io_policy.BUFFER_LINE) (hdie : d.wanna_die = false)
    (hbuf : d.in_buf = some buf) (hR : buffer_holds buf R)
    (hc : c ≠ []) (hfit : R.length + c.length ≤ buf.data.size) :
    ∃ buf1, buffer_holds buf1 (split_lines d.strip_eol (R ++ c) []).2 ∧
      buf1.data.size = buf.data.size ∧
      read_buffers bufsiz cbs (fuel + 1) d false (io_result.data c) =
        some { d with in_buf := some buf1,
                      log := (d.log ++ List.map dispatcher_event.read_cb
                        (split_lines d.strip_eol (R ++ c) []).1) } := by
  obtain ⟨hpos, hlen, hmem⟩ := hR
  have hclen : 0 < c.length := List.length_pos.mpr hc
  have hrem : BUFREMAIN buf ≠ 0 := by rw [BUFREMAIN_of_le buf (by omega)]; omega
  have hgot : c.take (BUFREMAIN buf) = c := by
    apply List.take_of_length_le
    rw [BUFREMAIN_of_le buf (by omega)]; omega
  have hB : (mem_blit buf.data.mem buf.pos c).take (R ++ c).length = R ++ c := by
    rw [hpos]; exact take_mem_blit buf.data.mem R c hmem
  obtain ⟨b', hb', hloop, hres⟩ := line_loop_keep cbs f hcb hf (mem_blit buf.data.mem buf.pos c)
    (R ++ c) hB io_policy.BUFFER_LINE (R ++ c).length 0 0
    { d with in_buf := (some
        { data := { buf.data with mem := mem_blit buf.data.mem buf.pos c,
                                  len := buf.data.len + c.length },
          pos := buf.pos + c.length }) }
    (by omega) (Nat.le_refl _) (Or.inl rfl) hpol
  simp only [Nat.sub_zero, mem_slice_zero, List.drop_zero] at hloop hres
  have hsl : mem_slice (mem_blit buf.data.mem buf.pos c) b' ((R ++ c).length - b') =
      (split_lines d.strip_eol (R ++ c) []).2 := by
    rw [mem_slice_of_take _ (R ++ c) hB b' _ (by omega)]
    exact hres
  refine ⟨{ data := { buf.data with
              mem := (mem_blit (mem_blit buf.data.mem buf.pos c) 0
                (split_lines d.strip_eol (R ++ c) []).2),
              len := (split_lines d.strip_eol (R ++ c) []).2.length },
            pos := (split_lines d.strip_eol (R ++ c) []).2.length }, ?_, rfl, ?_⟩
  · exact ⟨rfl, rfl, take_mem_blit_zero _ _⟩
  · unfold read_buffers
    simp only [hdie, Bool.false_eq_true, if_false, hbuf, hrem, Bool.not_false, if_true, hgot, hc,
      hpol]
    simp only [hdie, hpol] at hloop
    have hlen' : buf.data.len + c.length = (R ++ c).length := by
      rw [hlen, List.length_append]
    rw [hlen'] at hloop ⊢
    rw [hloop]
    simp only [drain_in_buf, update_in_buf, hsl]

theorem split_lines_no_newline (strip : Bool) : ∀ (R c acc : List Nat), 10 ∉ R →
    split_lines strip (R ++ c) acc = split_lines strip c (acc ++ R) := by
  intro R
  induction R with
  | nil => intro c acc _; simp
  | cons x xs ih =>
    intro c acc h
    have hx : ¬ (x = 10) := by
      intro e; exact h (by rw [e]; exact List.mem_cons_self _ _)
    have hxs : 10 ∉ xs := fun e => h (List.mem_cons_of_mem _ e)
    simp only [List.cons_append, split_lines, hx, if_false]
    have := ih c (acc ++ [x]) hxs
    simp only [List.append_eq, List.append_assoc, List.singleton_append] at this ⊢
    exact this

theorem split_lines_residual_no_newline (strip : Bool) : ∀ (xs acc : List Nat), 10 ∉ acc →
    10 ∉ (split_lines strip xs acc).2 := by
  intro xs
  induction xs with
  | nil => intro acc h; exact h
  | cons x xs ih =>
    intro acc h
    simp only [split_lines]
    by_cases hx : x = 10
    · simp only [hx, if_true]
      exact ih [] (by simp)
    · simp only [hx, if_false]
      apply ih
      simp only [List.mem_append, List.mem_singleton, not_or]
      exact ⟨h, fun e => hx e.symm⟩

theorem read_buffers_alloc_line (bufsiz : Nat) (cbs : dispatcher_callbacks) (fuel : Nat)
    (d : rspamd_io_dispatcher_t) (skip : Bool) (rd : io_result)
    (hpol : d.policy = io_policy.BUFFER_LINE) (hdie : d.wanna_die = false)
    (hnone : d.in_buf = none) :
    read_buffers bufsiz cbs (fuel + 1) d skip rd =
      read_buffers bufsiz cbs (fuel + 1)
        { d with in_buf := (some { data := fstralloc bufsiz, pos := 0 }) } skip rd := by
  unfold read_buffers
  simp only [hnone, hpol, hdie, true_or, if_true, Bool.false_eq_true, if_false]

theorem feed_chunks_line (bufsiz : Nat) (cbs : dispatcher_callbacks)
    (f : List Nat → rspamd_io_dispatcher_t → Bool × rspamd_io_dispatcher_t)
    (hcb : cbs.read_callback = some f) (hf : ∀ fr d, f fr d = (true, d)) (S : Nat) :
    ∀ (chunks : List (List Nat)) (d : rspamd_io_dispatcher_t) (buf : rspamd_buffer_t)
      (R : List Nat), d.policy = io_policy.BUFFER_LINE → d.wanna_die = false →
      d.in_buf = some buf → buffer_holds buf R → 10 ∉ R → buf.data.size = S →
      chunks_fit d.strip_eol S chunks R →
      ∃ d1 buf1, feed_chunks bufsiz cbs chunks d = some d1 ∧
        d1.log = d.log ++ List.map dispatcher_event.read_cb
          (split_lines d.strip_eol chunks.flatten R).1 ∧
        d1.in_buf = some buf1 ∧ buffer_holds buf1 (split_lines d.strip_eol chunks.flatten R).2 := by
  intro chunks
  induction chunks with
  | nil =>
    intro d buf R _ _ hbuf hR _ _ _
    exact ⟨d, buf, rfl, by simp [split_lines], hbuf, by simpa [split_lines] using hR⟩
  | cons c cs ih =>
    intro d buf R hpol hdie hbuf hR hnl hS hfit
    obtain ⟨hc, hlen, hrest⟩ := hfit
    obtain ⟨buf1, hh1, hs1, hcall⟩ := read_buffers_line_keep bufsiz cbs f hcb hf 0 d buf R c
      hpol hdie hbuf hR hc (by omega)
    have hsplit : split_lines d.strip_eol (R ++ c) [] = split_lines d.strip_eol c R := by
      rw [split_lines_no_newline d.strip_eol R c [] hnl]; simp
    rw [hsplit] at hh1 hcall
    obtain ⟨d2, buf2, hfeed, hlog, hb2, hh2⟩ := ih
      { d with in_buf := (some buf1),
               log := (d.log ++ List.map dispatcher_event.read_cb (split_lines d.strip_eol c R).1) }
      buf1 (split_lines d.strip_eol c R).2 hpol hdie rfl hh1
      (split_lines_residual_no_newline d.strip_eol c R hnl) (by omega) hrest
    refine ⟨d2, buf2, ?_, ?_, hb2, ?_⟩
    · unfold feed_chunks
      rw [hcall]
      exact hfeed
    · rw [hlog]
      simp only [List.flatten_cons, split_lines_append, List.map_append, List.append_assoc]
    · simp only [List.flatten_cons, split_lines_append]
      exact hh2

theorem line_loop_skip (cbs : dispatcher_callbacks) (mem : List Nat) (saved : io_policy)
    (k : Nat) : ∀ (n r b : Nat) (d : rspamd_io_dispatcher_t),
      (∀ i, i < k → mem.getD (r + i) 0 ≠ 10) →
      read_buffers_line_loop cbs mem saved (k + n) r b d =
        read_buffers_line_loop cbs mem saved n (r + k) b d := by
  induction k with
  | zero => intro n r b d _; simp
  | succ k ih =>
    intro n r b d h
    have e : k + 1 + n = (k + n) + 1 := by omega
    rw [e]
    conv_lhs => unfold read_buffers_line_loop
    have h0 : ¬ (mem.getD r 0 = 10) := by simpa using h 0 (by omega)
    simp only [h0, if_false]
    have := ih n (r + 1) b d (fun i hi => by
      have := h (i + 1) (by omega)
      have e2 : r + (i + 1) = r + 1 + i := by omega
      rw [e2] at this; exact this)
    have e3 : r + 1 + k = r + (k + 1) := by omega
    rw [e3] at this
    exact this

theorem getD_append_mid (line rest : List Nat) (x : Nat) :
    (line ++ x :: rest).getD line.length 0 = x := by
  rw [List.getD_eq_getElem?_getD, List.getElem?_append_right (Nat.le_refl _), Nat.sub_self,
    List.getElem?_cons_zero, Option.getD_some]

theorem getD_append_left (line rest : List Nat) (i : Nat) (hi : i < line.length) :
    (line ++ rest).getD i 0 = line.getD i 0 := by
  rw [List.getD_eq_getElem?_getD, List.getD_eq_getElem?_getD, List.getElem?_append_left hi]

theorem getD_ne_of_not_mem (line : List Nat) (x : Nat) (h : x ∉ line) (i : Nat)
    (hi : i < line.length) : line.getD i 0 ≠ x := by
  intro e
  apply h
  rw [List.getD_eq_getElem?_getD, List.getElem?_eq_getElem hi] at e
  simp only [Option.getD_some] at e
  rw [← e]
  exact List.getElem_mem _

theorem line_loop_first (cbs : dispatcher_callbacks)
    (f : List Nat → rspamd_io_dispatcher_t → Bool × rspamd_io_dispatcher_t)
    (hcb : cbs.read_callback = some f) (mem line rest : List Nat)
    (hB : mem.take (line ++ 10 :: rest).length = line ++ 10 :: rest) (hline : 10 ∉ line)
    (saved : io_policy) (d : rspamd_io_dispatcher_t) :
    read_buffers_line_loop cbs mem saved (line ++ 10 :: rest).length 0 0 d =
      if !(call_read_callback f (line_frame d.strip_eol line) d).1 then
        line_scan.stopped (call_read_callback f (line_frame d.strip_eol line) d).2
      else if (call_read_callback f (line_frame d.strip_eol line) d).2.policy ≠ saved then
        line_scan.changed (call_read_callback f (line_frame d.strip_eol line) d).2 line.length
      else read_buffers_line_loop cbs mem saved rest.length (line.length + 1) (line.length + 1)
        (call_read_callback f (line_frame d.strip_eol line) d).2 := by
  have hlen : (line ++ 10 :: rest).length = line.length + (rest.length + 1) := by
    simp only [List.length_append, List.length_cons]
  have hskip := line_loop_skip cbs mem saved line.length (rest.length + 1) 0 0 d (by
    intro i hi
    rw [Nat.zero_add, getD_of_take mem _ hB i (by omega), getD_append_left line _ i hi]
    exact getD_ne_of_not_mem line 10 hline i hi)
  rw [hlen, hskip, Nat.zero_add]
  have hx : mem.getD line.length 0 = 10 := by
    rw [getD_of_take mem _ hB line.length (by omega), getD_append_mid]
  have hframe := line_frame_code mem (line ++ 10 :: rest) hB d.strip_eol 0 line.length
    (Nat.zero_le _) (by omega) (Or.inl rfl) hx
  have hsl : mem_slice (line ++ 10 :: rest) 0 (line.length - 0) = line := by
    unfold mem_slice; simp
  rw [hsl] at hframe
  conv_lhs => unfold read_buffers_line_loop
  simp only [hx, if_true, hcb, hframe]

/-! ## Retransmission -/

theorem not_mem_evtimer_del (r : rspamd_dns_resolver) (id : Nat) :
    id ∉ (evtimer_del r id).timers := by
  simp [evtimer_del]

theorem mem_evtimer_add (r : rspamd_dns_resolver) (id : Nat) :
    id ∈ (evtimer_add r id).timers := by
  unfold evtimer_add
  by_cases h : id ∈ r.timers <;> simp [h]

theorem dns_timer_cb_step (pick : Option Nat) (mksock : Int) (resolver : rspamd_dns_resolver)
    (req : rspamd_dns_request) (i : Nat) (hpick : pick = some i)
    (hi : i < resolver.servers.length) (hsock : mksock ≠ -1)
    (hc : req.retransmits + 1 < 4294967296) :
    (dns_timer_cb pick mksock resolver req).2.retransmits = req.retransmits + 1 ∧
    (dns_timer_cb pick mksock resolver req).2.id = req.id ∧
    (dns_timer_cb pick mksock resolver req).1.max_retransmits = resolver.max_retransmits ∧
    (dns_timer_cb pick mksock resolver req).1.servers.length = resolver.servers.length ∧
    (req.id ∈ (dns_timer_cb pick mksock resolver req).1.timers ↔
      req.retransmits + 1 < resolver.max_retransmits) := by
  have hw : w32 (req.retransmits + 1) = req.retransmits + 1 := w32_of_lt hc
  unfold dns_timer_cb
  simp only [hw]
  by_cases hge : req.retransmits + 1 ≥ resolver.max_retransmits
  · simp only [hge, if_true]
    refine ⟨?_, ?_, ?_, ?_, ?_⟩
    all_goals try trivial
    constructor
    · intro h
      exact absurd h (not_mem_evtimer_del _ _)
    · intro h
      omega
  · simp only [hge, if_false]
    have hget : get_upstream_round_robin resolver pick = some (i, resolver.servers.get ⟨i, hi⟩) := by
      unfold get_upstream_round_robin
      rw [hpick]
      simp [List.get?_eq_get hi]
    rw [hget]
    simp only [select_socket]
    have hs : (if (resolver.servers.get ⟨i, hi⟩).sock = -1
        then ({ resolver.servers.get ⟨i, hi⟩ with sock := mksock } : rspamd_dns_server)
        else resolver.servers.get ⟨i, hi⟩).sock ≠ -1 := by
      split
      · exact hsock
      · assumption
    simp only [hs, if_false]
    refine ⟨?_, ?_, ?_, ?_, ?_⟩
    all_goals try trivial
    · simp [evtimer_add]
    · constructor
      · intro _
        omega
      · intro _
        exact mem_evtimer_add _ _
theorem timer_expiries_count (picks : Nat → Option Nat) (mksocks : Nat → Int) (M L : Nat)
    (hM : M < 4294967296)
    (hpick : ∀ n, ∃ i, picks n = some i ∧ i < L) (hsock : ∀ n, mksocks n ≠ -1) :
    ∀ (fuel n : Nat) (resolver : rspamd_dns_resolver) (req : rspamd_dns_request),
      resolver.max_retransmits = M → resolver.servers.length = L →
      req.retransmits < max 1 M → req.id ∈ resolver.timers →
      max 1 M - req.retransmits ≤ fuel →
      (timer_expiries picks mksocks fuel n resolver req).1 = max 1 M - req.retransmits ∧
      req.id ∉ (timer_expiries picks mksocks fuel n resolver req).2.1.timers := by
  intro fuel
  induction fuel with
  | zero =>
    intro n resolver req _ _ hc _ hf
    omega
  | succ fuel ih =>
    intro n resolver req hmax hlen hc harmed hf
    obtain ⟨i, hp, hi⟩ := hpick n
    have hstep := dns_timer_cb_step (picks n) (mksocks n) (evtimer_del resolver req.id) req i hp
      (by simpa [evtimer_del, hlen] using hi) (hsock n) (by omega)
    obtain ⟨hr, hid, hm, hl, harm⟩ := hstep
    have hm' : (dns_timer_cb (picks n) (mksocks n) (evtimer_del resolver req.id) req).1.max_retransmits
        = M := by rw [hm]; simpa [evtimer_del] using hmax
    have hl' : (dns_timer_cb (picks n) (mksocks n) (evtimer_del resolver req.id) req).1.servers.length
        = L := by rw [hl]; simpa [evtimer_del] using hlen
    have hmd : (evtimer_del resolver req.id).max_retransmits = M := by
      simpa [evtimer_del] using hmax
    rw [hmd] at harm
    unfold timer_expiries
    simp only [harmed, if_true]
    by_cases hlt : req.retransmits + 1 < M
    · have hin := harm.2 hlt
      have := ih (n + 1) _ _ hm' hl' (by rw [hr]; omega) (by rw [hid]; exact hin)
        (by rw [hr]; omega)
      rw [hr, hid] at this
      exact ⟨by rw [this.1]; omega, this.2⟩
    · have hout : req.id ∉
          (dns_timer_cb (picks n) (mksocks n) (evtimer_del resolver req.id) req).1.timers :=
        fun h => hlt (harm.1 h)
      have hz : timer_expiries picks mksocks fuel (n + 1)
          (dns_timer_cb (picks n) (mksocks n) (evtimer_del resolver req.id) req).1
          (dns_timer_cb (picks n) (mksocks n) (evtimer_del resolver req.id) req).2 =
          (0, (dns_timer_cb (picks n) (mksocks n) (evtimer_del resolver req.id) req).1,
            (dns_timer_cb (picks n) (mksocks n) (evtimer_del resolver req.id) req).2) := by
        cases fuel with
        | zero => rfl
        | succ k =>
          unfold timer_expiries
          rw [hid]
          simp only [hout, if_false]
      rw [hz]
      exact ⟨by simp only; omega, hout⟩

theorem requests_lookup_insert (r : rspamd_dns_resolver) (id : Nat) (req : rspamd_dns_request) :
    requests_lookup (requests_insert r id req) id = some req := by
  simp [requests_lookup, requests_insert]

theorem get_upstream_round_robin_some (resolver : rspamd_dns_resolver) (i : Nat)
    (hi : i < resolver.servers.length) :
    get_upstream_round_robin resolver (some i) = some (i, resolver.servers.get ⟨i, hi⟩) := by
  unfold get_upstream_round_robin
  simp [List.get?_eq_get hi]

/-! ## Flushing the output queue -/

theorem write_buffers_loop_inv (cbs : dispatcher_callbacks) :
    ∀ (fuel : Nat) (done cur : List rspamd_buffer_t) (script : List write_result)
      (d : rspamd_io_dispatcher_t), script.length + cur.length < fuel →
      match write_buffers_loop cbs fuel done cur script d with
      | flush_result.returned true d1 _ =>
        d1.out_buffers ≠ [] ∧ d1.ev = ev_interest.ev_write ∧ d1.in_sendfile = d.in_sendfile
      | flush_result.returned false _ _ => True
      | flush_result.drained d1 _ =>
        d1.log = d.log ∧ d1.in_sendfile = d.in_sendfile ∧ d1.ev = d.ev := by
  intro fuel
  induction fuel with
  | zero => intro done cur script d h; omega
  | succ fuel ih =>
    intro done cur script d h
    cases cur with
    | nil =>
      unfold write_buffers_loop
      exact ⟨rfl, rfl, rfl⟩
    | cons buf rest =>
      unfold write_buffers_loop
      simp only [List.length_cons] at h
      by_cases hrem : BUFREMAIN buf = 0
      · simp only [hrem, if_true]
        exact ih (buf :: done) rest script d (by omega)
      · simp only [hrem, if_false]
        cases script with
        | nil =>
          simp only [List.headD_nil, List.tail_nil]
          simp
        | cons res script1 =>
          simp only [List.headD_cons, List.tail_cons, List.length_cons] at h ⊢
          cases res with
          | error e =>
            simp only
            cases hcb : cbs.err_callback with
            | some f => simp only
            | none =>
              simp only
              exact ih (buf :: done) rest script1 d (by omega)
          | again =>
            simp
          | wrote k =>
            simp only
            by_cases hr : min k (BUFREMAIN buf) > 0
            · simp only [hr, if_true]
              by_cases hb : BUFREMAIN { buf with pos := buf.pos + min k (BUFREMAIN buf) } ≠ 0
              · rw [if_pos hb]
                have := ih done ({ buf with pos := buf.pos + min k (BUFREMAIN buf) } :: rest) script1
                  { d with sent := d.sent ++ mem_slice buf.data.mem buf.pos (min k (BUFREMAIN buf)) }
                  (by simp only [List.length_cons]; omega)
                exact this
              · rw [if_neg hb]
                have := ih ({ buf with pos := buf.pos + min k (BUFREMAIN buf) } :: done) rest script1
                  { d with sent := d.sent ++ mem_slice buf.data.mem buf.pos (min k (BUFREMAIN buf)) }
                  (by omega)
                exact this
            · simp only [hr, if_false]
              cases hcb : cbs.err_callback with
              | some f => simp only
              | none =>
                simp only
                exact ih (buf :: done) rest script1 d (by omega)

theorem write_buffers_queue (d : rspamd_io_dispatcher_t) :
    (if d.out_buffers ≠ [] then d.out_buffers.reverse else d.out_buffers) =
      d.out_buffers.reverse := by
  by_cases h : d.out_buffers = []
  · simp [h]
  · simp [h]

theorem write_callbacks_apply (ret : Bool) (f : rspamd_io_dispatcher_t → Bool × rspamd_io_dispatcher_t)
    (hf : (write_callbacks ret).write_callback = some f) (x : rspamd_io_dispatcher_t) :
    f x = (ret, x) := by
  simp only [write_callbacks, Option.some.injEq] at hf
  rw [← hf]

theorem write_buffers_interest (cbs : dispatcher_callbacks) (d : rspamd_io_dispatcher_t)
    (is_delayed : Bool) (script : List write_result) (hsf : d.in_sendfile = false)
    (hcb : ∀ f, cbs.write_callback = some f → ∀ x, (f x).2.out_buffers = x.out_buffers)
    (hret : (write_buffers cbs d is_delayed script).1 = true) :
    interest_I3 (write_buffers cbs d is_delayed script).2.1 := by
  have hinv := write_buffers_loop_inv cbs (script.length + d.out_buffers.reverse.length + 1) []
    d.out_buffers.reverse script d (by omega)
  unfold write_buffers at hret ⊢
  simp only [write_buffers_queue] at hret ⊢
  cases hl : write_buffers_loop cbs (script.length + d.out_buffers.reverse.length + 1) []
      d.out_buffers.reverse script d with
  | returned ret d1 script1 =>
    rw [hl] at hinv hret
    simp only at hret ⊢
    subst hret
    simp only at hinv
    unfold interest_I3
    simp [hinv.1, hinv.2.1, hinv.2.2, hsf]
  | drained d1 script1 =>
    rw [hl] at hret
    simp only at hret ⊢
    cases hw : (if is_delayed = true then cbs.write_callback else none) with
    | none =>
      unfold interest_I3
      simp
    | some f =>
      rw [hw] at hret
      simp only at hret ⊢
      have hf : cbs.write_callback = some f := by
        cases is_delayed with
        | false => simp at hw
        | true => simpa using hw
      by_cases hr : (call_write_callback f { d1 with out_buffers := [] }).1 = true
      · simp only [hr, Bool.not_true, Bool.false_eq_true, if_false]
        unfold interest_I3
        have := hcb f hf { d1 with out_buffers := [],
                                   log := d1.log ++ [dispatcher_event.write_cb] }
        simp only [call_write_callback] at this ⊢
        simp [this]
      · simp only [Bool.not_eq_true] at hr
        simp [hr] at hret

/-! ## The timeout of a request -/

theorem make_dns_request_stored (be : Bool) (fuel : Nat) (p p1 : dns_k_permutor) (junk : Nat → Nat)
    (label_len0 : Nat) (mksock : Int) (k : Nat) (resolver : rspamd_dns_resolver)
    (type : rspamd_request_type) (name : List Nat) (a : Nat) (req : rspamd_dns_request) (i : Nat)
    (hpkt : make_dns_request_packet be fuel p junk label_len0 type name a = some (req, p1))
    (hi : i < resolver.servers.length)
    (hsock : (resolver.servers.get ⟨i, hi⟩).sock ≠ -1 ∨ mksock ≠ -1)
    (hk : req.pos ≤ k) :
    ∃ resolver1 req1,
      make_dns_request be fuel p junk label_len0 (some i) mksock (write_result.wrote k) resolver
        type name a = some (true, resolver1, p1) ∧
      requests_lookup resolver1 req.id = some req1 ∧
      req1.tv_sec = resolver.request_timeout / 1000 ∧
      req1.tv_usec = (resolver.request_timeout - resolver.request_timeout / 1000 * 1000) * 1000 := by
  have hs : (if (resolver.servers.get ⟨i, hi⟩).sock = -1
      then ({ resolver.servers.get ⟨i, hi⟩ with sock := mksock } : rspamd_dns_server)
      else resolver.servers.get ⟨i, hi⟩).sock ≠ -1 := by
    split
    · rename_i h
      rcases hsock with h1 | h1
      · exact absurd h h1
      · exact h1
    · assumption
  have hmin : min k req.pos = req.pos := Nat.min_eq_right hk
  unfold make_dns_request
  rw [hpkt]
  simp only [get_upstream_round_robin_some resolver i hi, select_socket, hs, if_false,
    send_dns_request, hmin, Nat.lt_irrefl, if_true]
  refine ⟨_, { req with
      retransmits := 0, server := some i,
      sock := (if (resolver.servers.get ⟨i, hi⟩).sock = -1
        then ({ resolver.servers.get ⟨i, hi⟩ with sock := mksock } : rspamd_dns_server)
        else resolver.servers.get ⟨i, hi⟩).sock,
      tv_sec := resolver.request_timeout / 1000,
      tv_usec := (resolver.request_timeout - resolver.request_timeout / 1000 * 1000) * 1000 },
    rfl, ?_, rfl, rfl⟩
  exact requests_lookup_insert _ _ _

/-! ## The inverse permutation -/

theorem arr2_get_set_other (a : Nat × Nat) (i j v : Nat) (h : i % 2 ≠ j % 2) :
    arr2_get (arr2_set a (i % 2) v) (j % 2) = arr2_get a (j % 2) := by
  unfold arr2_get arr2_set
  have hi : i % 2 = 0 ∨ i % 2 = 1 := by omega
  have hj : j % 2 = 0 ∨ j % 2 = 1 := by omega
  rcases hi with hi | hi <;> rcases hj with hj | hj <;> simp [hi, hj] at h ⊢

theorem arr2_get_set_mod (a : Nat × Nat) (i v : Nat) :
    arr2_get (arr2_set a (i % 2) v) (i % 2) = v := by
  unfold arr2_get arr2_set
  have hi : i % 2 = 0 ∨ i % 2 = 1 := by omega
  rcases hi with hi | hi <;> simp [hi]

theorem feistel_unround_round (p : dns_k_permutor) (i : Nat) (x : Nat × Nat) :
    feistel_unround p i (feistel_round p i x) = x := by
  unfold feistel_unround feistel_round
  simp only [Nat.xor_assoc, Nat.xor_self, Nat.xor_zero]

theorem feistel_round_unround (p : dns_k_permutor) (i : Nat) (x : Nat × Nat) :
    feistel_round p i (feistel_unround p i x) = x := by
  unfold feistel_unround feistel_round
  simp only [Nat.xor_assoc, Nat.xor_self, Nat.xor_zero]

theorem feistel_iter_snoc (p : dns_k_permutor) (n : Nat) : ∀ (i : Nat) (x : Nat × Nat),
    feistel_iter p i (n + 1) x = feistel_round p (i + n) (feistel_iter p i n x) := by
  induction n with
  | zero => intro i x; rfl
  | succ n ih =>
    intro i x
    show feistel_iter p (i + 1) (n + 1) (feistel_round p i x) = _
    rw [ih (i + 1) (feistel_round p i x)]
    have e : i + 1 + n = i + (n + 1) := by omega
    rw [e]
    rfl

theorem feistel_uniter_iter (p : dns_k_permutor) (i n : Nat) : ∀ x : Nat × Nat,
    feistel_uniter p i n (feistel_iter p i n x) = x := by
  induction n with
  | zero => intro x; rfl
  | succ n ih =>
    intro x
    rw [feistel_iter_snoc]
    show feistel_uniter p i n (feistel_unround p (i + n) (feistel_round p (i + n) _)) = x
    rw [feistel_unround_round, ih]

theorem feistel_iter_uniter (p : dns_k_permutor) (i n : Nat) : ∀ x : Nat × Nat,
    feistel_iter p i n (feistel_uniter p i n x) = x := by
  induction n with
  | zero => intro x; rfl
  | succ n ih =>
    intro x
    rw [feistel_iter_snoc]
    show feistel_round p (i + n)
      (feistel_iter p i n (feistel_uniter p i n (feistel_unround p (i + n) x))) = x
    rw [ih, feistel_round_unround]

theorem feistel_unround_lt (p : dns_k_permutor) (hm : p.mask = 2 ^ p.shift - 1) (i : Nat)
    (x : Nat × Nat) (h1 : x.1 < 2 ^ p.shift) (h2 : x.2 < 2 ^ p.shift) :
    (feistel_unround p i x).1 < 2 ^ p.shift ∧ (feistel_unround p i x).2 < 2 ^ p.shift :=
  ⟨Nat.xor_lt_two_pow h2 (F_lt p hm i x.1), h1⟩

theorem feistel_uniter_lt (p : dns_k_permutor) (hm : p.mask = 2 ^ p.shift - 1) (i n : Nat) :
    ∀ x : Nat × Nat, x.1 < 2 ^ p.shift → x.2 < 2 ^ p.shift →
    (feistel_uniter p i n x).1 < 2 ^ p.shift ∧ (feistel_uniter p i n x).2 < 2 ^ p.shift := by
  induction n with
  | zero => intro x h1 h2; exact ⟨h1, h2⟩
  | succ n ih =>
    intro x h1 h2
    have h := feistel_unround_lt p hm (i + n) x h1 h2
    exact ih _ h.1 h.2

theorem D_loop_unfold (p : dns_k_permutor) (fuel i : Nat) (l r : Nat × Nat) :
    dns_k_permutor_D_loop p (fuel + 1) i l r =
      (if sub32 i 1 > 0 then
        dns_k_permutor_D_loop p fuel (sub32 i 1)
          (arr2_set l (sub32 i 1 % 2)
            (arr2_get (arr2_set r (sub32 i 1 % 2) (arr2_get l (w32 (sub32 i 1 + 1) % 2)))
                (w32 (sub32 i 1 + 1) % 2) ^^^
              dns_k_permutor_F p (sub32 i 1) (arr2_get l (w32 (sub32 i 1 + 1) % 2))))
          (arr2_set r (sub32 i 1 % 2) (arr2_get l (w32 (sub32 i 1 + 1) % 2)))
      else some (sub32 i 1,
          arr2_set l (sub32 i 1 % 2)
            (arr2_get (arr2_set r (sub32 i 1 % 2) (arr2_get l (w32 (sub32 i 1 + 1) % 2)))
                (w32 (sub32 i 1 + 1) % 2) ^^^
              dns_k_permutor_F p (sub32 i 1) (arr2_get l (w32 (sub32 i 1 + 1) % 2))),
          arr2_set r (sub32 i 1 % 2) (arr2_get l (w32 (sub32 i 1 + 1) % 2)))) := by
  rfl

theorem D_loop_spec (p : dns_k_permutor) : ∀ (fuel i : Nat) (l r : Nat × Nat),
    1 ≤ i → i < 4294967296 → i ≤ fuel →
    ∃ l1 r1, dns_k_permutor_D_loop p fuel i l r = some (0, l1, r1) ∧
      (arr2_get l1 0, arr2_get r1 0) =
        feistel_uniter p 0 i (arr2_get l (i % 2), arr2_get r (i % 2)) := by
  intro fuel
  induction fuel with
  | zero => intro i l r h1 _ hf; omega
  | succ fuel ih =>
    intro i l r h1 h2 hf
    have hi1 : sub32 i 1 = i - 1 := sub32_of_le h1 h2
    have hw : w32 (i - 1 + 1) = i := by
      have : i - 1 + 1 = i := by omega
      rw [this]; exact w32_of_lt h2
    have hne : (i - 1) % 2 ≠ i % 2 := by omega
    rw [D_loop_unfold]
    simp only [hi1, hw]
    rw [arr2_get_set_other r (i - 1) i _ hne]
    by_cases hpos : i - 1 > 0
    · rw [if_pos hpos]
      obtain ⟨l1, r1, hl, hres⟩ := ih (i - 1)
        (arr2_set l ((i - 1) % 2)
          (arr2_get r (i % 2) ^^^ dns_k_permutor_F p (i - 1) (arr2_get l (i % 2))))
        (arr2_set r ((i - 1) % 2) (arr2_get l (i % 2))) (by omega) (by omega) (by omega)
      refine ⟨l1, r1, hl, ?_⟩
      rw [hres, arr2_get_set_mod, arr2_get_set_mod]
      obtain ⟨j, rfl⟩ : ∃ j, i = j + 1 := ⟨i - 1, by omega⟩
      simp only [Nat.add_sub_cancel]
      show _ = feistel_uniter p 0 j (feistel_unround p (0 + j) _)
      rw [Nat.zero_add]
      rfl
    · rw [if_neg hpos]
      have hi : i = 1 := by omega
      subst hi
      refine ⟨_, _, rfl, ?_⟩
      rfl

theorem pack_eq (p : dns_k_permutor) (hm : p.mask = 2 ^ p.shift - 1) (hs : p.shift ≤ 16)
    (a b : Nat) (hb1 : a < 2 ^ p.shift) (hb2 : b < 2 ^ p.shift) :
    w32 ((a &&& p.mask) <<< p.shift) ||| w32 ((b &&& p.mask) <<< 0) = a * 2 ^ p.shift + b := by
  rw [hm, Nat.and_pow_two_sub_one_eq_mod, Nat.and_pow_two_sub_one_eq_mod,
    Nat.mod_eq_of_lt hb1, Nat.mod_eq_of_lt hb2, Nat.shiftLeft_zero, Nat.shiftLeft_eq]
  have hp : (2:Nat) ^ p.shift ≤ 2 ^ 16 := Nat.pow_le_pow_right (by norm_num) hs
  have h216 : (2:Nat) ^ 16 = 65536 := by norm_num
  have ha : a * 2 ^ p.shift < 4294967296 := by
    calc a * 2 ^ p.shift < 2 ^ p.shift * 2 ^ p.shift :=
          Nat.mul_lt_mul_of_pos_right hb1 (Nat.two_pow_pos _)
      _ ≤ 65536 * 65536 := Nat.mul_le_mul (by omega) (by omega)
      _ = 4294967296 := by norm_num
  rw [w32_of_lt ha, w32_of_lt (by omega : b < 4294967296), Nat.mul_comm a,
    ← Nat.mul_add_lt_is_or hb2 a]

theorem D_eq (p : dns_k_permutor) (hm : p.mask = 2 ^ p.shift - 1) (hs : p.shift ≤ 16)
    (hr : 2 ≤ p.rounds) (hr2 : p.rounds < 4294967296) (fuel : Nat) (hf : p.rounds ≤ fuel + 1)
    (n : Nat) :
    dns_k_permutor_D fuel p n = some
      ((feistel_uniter p 0 (p.rounds - 1) (n / 2 ^ p.shift % 2 ^ p.shift, n % 2 ^ p.shift)).1
          * 2 ^ p.shift
        + (feistel_uniter p 0 (p.rounds - 1)
            (n / 2 ^ p.shift % 2 ^ p.shift, n % 2 ^ p.shift)).2) := by
  have hi0 : sub32 p.rounds 1 = p.rounds - 1 := sub32_of_le (by omega) hr2
  have hl0 : p.mask &&& (n >>> p.shift) = n / 2 ^ p.shift % 2 ^ p.shift := by
    rw [Nat.land_comm, hm, Nat.and_pow_two_sub_one_eq_mod, Nat.shiftRight_eq_div_pow]
  have hr0 : p.mask &&& (n >>> 0) = n % 2 ^ p.shift := by
    rw [Nat.land_comm, hm, Nat.and_pow_two_sub_one_eq_mod, Nat.shiftRight_zero]
  obtain ⟨l1, r1, hloop, hres⟩ := D_loop_spec p fuel (p.rounds - 1)
    (arr2_set (0, 0) ((p.rounds - 1) % 2) (n / 2 ^ p.shift % 2 ^ p.shift))
    (arr2_set (0, 0) ((p.rounds - 1) % 2) (n % 2 ^ p.shift)) (by omega) (by omega) (by omega)
  rw [arr2_get_set_mod, arr2_get_set_mod] at hres
  have hb := feistel_uniter_lt p hm 0 (p.rounds - 1)
    (n / 2 ^ p.shift % 2 ^ p.shift, n % 2 ^ p.shift)
    (Nat.mod_lt _ (Nat.two_pow_pos _)) (Nat.mod_lt _ (Nat.two_pow_pos _))
  unfold dns_k_permutor_D
  simp only [hi0, hl0, hr0, hloop, Nat.zero_mod]
  rw [← hres] at hb ⊢
  simp only at hb ⊢
  rw [pack_eq p hm hs _ _ hb.1 hb.2]

theorem E_rounds_eq (p : dns_k_permutor) (hr : 2 ≤ p.rounds) (hr2 : p.rounds < 4294967296) :
    E_rounds p = p.rounds - 1 := by
  unfold E_rounds
  rw [sub32_of_le (by omega) hr2]
  omega

theorem unpack_pack (B a b : Nat) (ha : a < B) (hb : b < B) :
    ((a * B + b) / B % B, (a * B + b) % B) = (a, b) := by
  have hB : 0 < B := by omega
  have h1 : (a * B + b) / B = a := by
    rw [Nat.add_comm, Nat.add_mul_div_right _ _ hB, Nat.div_eq_of_lt hb, Nat.zero_add]
  have h2 : (a * B + b) % B = b := by
    rw [Nat.add_comm, Nat.add_mul_mod_self_right, Nat.mod_eq_of_lt hb]
  rw [h1, h2, Nat.mod_eq_of_lt ha]

theorem pack_unpack (B n : Nat) (hn : n < B * B) : n / B % B * B + n % B = n := by
  have hB : 0 < B := by
    rcases Nat.eq_zero_or_pos B with h | h
    · subst h; simp at hn
    · exact h
  have h1 : n / B < B := Nat.div_lt_of_lt_mul hn
  rw [Nat.mod_eq_of_lt h1, Nat.mul_comm]
  exact Nat.div_add_mod n B

theorem D_E (p : dns_k_permutor) (hm : p.mask = 2 ^ p.shift - 1) (hs : p.shift ≤ 16)
    (hr : 2 ≤ p.rounds) (hr2 : p.rounds < 4294967296) (fuel : Nat) (hf : p.rounds ≤ fuel + 1)
    (n : Nat) (hn : n < 2 ^ p.shift * 2 ^ p.shift) :
    dns_k_permutor_D fuel p (dns_k_permutor_E p n) = some n := by
  rw [D_eq p hm hs hr hr2 fuel hf, E_eq p hm hs n, E_rounds_eq p hr hr2]
  have hb := feistel_iter_lt p hm (p.rounds - 1) 0
    (n / 2 ^ p.shift % 2 ^ p.shift, n % 2 ^ p.shift)
    (Nat.mod_lt _ (Nat.two_pow_pos _)) (Nat.mod_lt _ (Nat.two_pow_pos _))
  rw [unpack_pack _ _ _ hb.1 hb.2, feistel_uniter_iter]
  simp only
  rw [pack_unpack _ n hn]

theorem E_D (p : dns_k_permutor) (hm : p.mask = 2 ^ p.shift - 1) (hs : p.shift ≤ 16)
    (hr : 2 ≤ p.rounds) (hr2 : p.rounds < 4294967296) (fuel : Nat) (hf : p.rounds ≤ fuel + 1)
    (n : Nat) (hn : n < 2 ^ p.shift * 2 ^ p.shift) :
    ∃ m, dns_k_permutor_D fuel p n = some m ∧ m < 2 ^ p.shift * 2 ^ p.shift ∧
      dns_k_permutor_E p m = n := by
  refine ⟨_, D_eq p hm hs hr hr2 fuel hf n, ?_, ?_⟩
  · have hb := feistel_uniter_lt p hm 0 (p.rounds - 1)
      (n / 2 ^ p.shift % 2 ^ p.shift, n % 2 ^ p.shift)
      (Nat.mod_lt _ (Nat.two_pow_pos _)) (Nat.mod_lt _ (Nat.two_pow_pos _))
    generalize feistel_uniter p 0 (p.rounds - 1)
      (n / 2 ^ p.shift % 2 ^ p.shift, n % 2 ^ p.shift) = y at hb
    obtain ⟨h1, h2⟩ := hb
    generalize (2:Nat) ^ p.shift = B at h1 h2 ⊢
    calc y.1 * B + y.2 < y.1 * B + B := by omega
      _ = (y.1 + 1) * B := by ring
      _ ≤ B * B := Nat.mul_le_mul_right B (by omega)
  · rw [E_eq p hm hs, E_rounds_eq p hr hr2]
    have hb := feistel_uniter_lt p hm 0 (p.rounds - 1)
      (n / 2 ^ p.shift % 2 ^ p.shift, n % 2 ^ p.shift)
      (Nat.mod_lt _ (Nat.two_pow_pos _)) (Nat.mod_lt _ (Nat.two_pow_pos _))
    rw [unpack_pack _ _ _ hb.1 hb.2, feistel_iter_uniter]
    simp only
    rw [pack_unpack _ n hn]

/-! ## The length of the cycle walk -/

theorem E_w32 (p : dns_k_permutor) (hm : p.mask = 2 ^ p.shift - 1) (hs : p.shift ≤ 16)
    (t : Nat) :
    dns_k_permutor_E p (w32 t) = dns_k_permutor_E p (t % (2 ^ p.shift * 2 ^ p.shift)) := by
  have hdvd : 2 ^ p.shift * 2 ^ p.shift ∣ 4294967296 := by
    rw [← Nat.pow_add]
    have : (4294967296 : Nat) = 2 ^ 32 := by norm_num
    rw [this]
    exact Nat.pow_dvd_pow 2 (by omega)
  rw [← E_periodic p hm hs (w32 t)]
  unfold w32
  rw [Nat.mod_mod_of_dvd _ hdvd]

theorem first_hit (p : dns_k_permutor) (hm : p.mask = 2 ^ p.shift - 1) (hs : p.shift ≤ 16)
    (hpos : 0 < p.length) (hfit : p.length ≤ 2 ^ p.shift * 2 ^ p.shift) (s : Nat) :
    ∃ k, k + p.length ≤ 2 ^ p.shift * 2 ^ p.shift ∧
      (∀ j, j < k → dns_k_permutor_E p (w32 (s + j)) ≥ p.length) ∧
      dns_k_permutor_E p (w32 (s + k)) < p.length := by
  classical
  have hex : ∃ k, dns_k_permutor_E p (w32 (s + k)) < p.length := by
    obtain ⟨k, _, hk⟩ := exists_hit p hm hs hpos s
    exact ⟨k, hk⟩
  have hklt : Nat.find hex < 2 ^ p.shift * 2 ^ p.shift := by
    obtain ⟨k, hk1, hk2⟩ := exists_hit p hm hs hpos s
    exact lt_of_le_of_lt (Nat.find_min' hex hk2) hk1
  have hmiss : ∀ j, j < Nat.find hex → dns_k_permutor_E p (w32 (s + j)) ≥ p.length := by
    intro j hj
    have := Nat.find_min hex hj
    omega
  refine ⟨Nat.find hex, ?_, hmiss, Nat.find_spec hex⟩
  generalize Nat.find hex = k at hklt hmiss
  generalize hW : 2 ^ p.shift * 2 ^ p.shift = W at hklt hfit
  have hcard : (Finset.range k).card ≤ (Finset.Ico p.length W).card := by
    apply Finset.card_le_card_of_injOn (fun j => dns_k_permutor_E p (w32 (s + j)))
    · intro j hj
      rw [Finset.mem_range] at hj
      rw [Finset.mem_Ico]
      refine ⟨hmiss j hj, ?_⟩
      rw [← hW]
      exact E_lt p hm hs _
    · intro a ha b hb hab
      simp only [Finset.coe_range, Set.mem_Iio] at ha hb
      simp only [E_w32 p hm hs, hW] at hab
      have hWpos : 0 < W := by omega
      have hres : (s + a) % W = (s + b) % W := by
        apply E_inj p hm hs _ _ _ _ hab
        · rw [hW]; exact Nat.mod_lt _ hWpos
        · rw [hW]; exact Nat.mod_lt _ hWpos
      by_contra hne
      rcases Nat.lt_or_gt_of_ne hne with hlt | hlt
      · have hd : (s + b) = (s + a) + (b - a) := by omega
        have h2 := Nat.ModEq.add_left_cancel' (s + a)
          (show (s + a + 0) ≡ (s + a + (b - a)) [MOD W] by
            rw [Nat.add_zero, ← hd]; exact hres)
        have h3 : (b - a) % W = 0 := by
          have := h2.symm
          unfold Nat.ModEq at this
          rw [this, Nat.zero_mod]
        rw [Nat.mod_eq_of_lt (by omega)] at h3
        omega
      · have hd : (s + a) = (s + b) + (a - b) := by omega
        have h2 := Nat.ModEq.add_left_cancel' (s + b)
          (show (s + b + 0) ≡ (s + b + (a - b)) [MOD W] by
            rw [Nat.add_zero, ← hd]; exact hres.symm)
        have h3 : (a - b) % W = 0 := by
          have := h2.symm
          unfold Nat.ModEq at this
          rw [this, Nat.zero_mod]
        rw [Nat.mod_eq_of_lt (by omega)] at h3
        omega
  rw [Finset.card_range, Nat.card_Ico] at hcard
  omega

theorem step_first_hit (k : Nat) : ∀ (fuel : Nat) (q : dns_k_permutor), k < fuel →
    q.mask = 2 ^ q.shift - 1 → q.shift ≤ 16 → q.stepi < 4294967296 →
    (∀ j, j < k → dns_k_permutor_E q (w32 (q.stepi + j)) ≥ q.length) →
    dns_k_permutor_E q (w32 (q.stepi + k)) < q.length →
    dns_k_permutor_step fuel q =
      some (w32 (dns_k_permutor_E q (w32 (q.stepi + k)) + sub32 (w32 (q.limit + 1)) q.length),
        { q with stepi := w32 (q.stepi + k + 1) }) := by
  induction k with
  | zero =>
    intro fuel q hf hm hs hst _ hE
    obtain ⟨f, rfl⟩ : ∃ f, fuel = f + 1 := ⟨fuel - 1, by omega⟩
    rw [Nat.add_zero, w32_of_lt hst] at hE
    simp only [Nat.add_zero, w32_of_lt hst]
    unfold dns_k_permutor_step
    have hc : ¬ (dns_k_permutor_E q q.stepi ≥ q.length) := by omega
    simp only [hc, if_false]
  | succ k ih =>
    intro fuel q hf hm hs hst hmiss hE
    obtain ⟨f, rfl⟩ : ∃ f, fuel = f + 1 := ⟨fuel - 1, by omega⟩
    have h0 := hmiss 0 (by omega)
    rw [Nat.add_zero, w32_of_lt hst] at h0
    unfold dns_k_permutor_step
    simp only [h0, if_true]
    have hidx : ∀ j, w32 (w32 (q.stepi + 1) + j) = w32 (q.stepi + (j + 1)) := by
      intro j; unfold w32; omega
    have hlt : w32 (q.stepi + 1) < 4294967296 := Nat.mod_lt _ (by norm_num)
    have := ih f { q with stepi := w32 (q.stepi + 1) } (by omega) hm hs hlt
      (by
        intro j hj
        show dns_k_permutor_E { q with stepi := w32 (q.stepi + 1) }
          (w32 (w32 (q.stepi + 1) + j)) ≥ q.length
        rw [E_stepi q hm hs, hidx]
        exact hmiss (j + 1) (by omega))
      (by
        show dns_k_permutor_E { q with stepi := w32 (q.stepi + 1) }
          (w32 (w32 (q.stepi + 1) + k)) < q.length
        rw [E_stepi q hm hs, hidx]
        exact hE)
    rw [this]
    have e1 : dns_k_permutor_E { q with stepi := w32 (q.stepi + 1) }
        (w32 (({ q with stepi := w32 (q.stepi + 1) } : dns_k_permutor).stepi + k)) =
        dns_k_permutor_E q (w32 (q.stepi + (k + 1))) := by
      rw [E_stepi q hm hs]
      show dns_k_permutor_E q (w32 (w32 (q.stepi + 1) + k)) = _
      rw [hidx]
    have e2 : w32 (({ q with stepi := w32 (q.stepi + 1) } : dns_k_permutor).stepi + k + 1) =
        w32 (q.stepi + (k + 1) + 1) := by
      show w32 (w32 (q.stepi + 1) + k + 1) = _
      unfold w32; omega
    rw [e1, e2]

/-! ## The cursor of the input buffer -/

theorem pos_at_len_of_in_buf (d d1 : rspamd_io_dispatcher_t) (h : d1.in_buf = d.in_buf)
    (hd : pos_at_len d) : pos_at_len d1 := by
  intro b hb
  exact hd b (by rw [← h]; exact hb)

theorem drain_in_buf_pos (d d1 : rspamd_io_dispatcher_t) (src : List Nat)
    (h : drain_in_buf d src = some d1) : pos_at_len d1 := by
  unfold drain_in_buf update_in_buf at h
  cases hb : d.in_buf with
  | none => rw [hb] at h; simp at h
  | some b0 =>
    rw [hb] at h
    simp only [Option.some.injEq] at h
    subst h
    intro b hb1
    simp only [Option.some.injEq] at hb1
    subst hb1
    rfl

theorem reset_in_buf_pos (d d1 : rspamd_io_dispatcher_t)
    (h : reset_in_buf d = some d1) : pos_at_len d1 := by
  unfold reset_in_buf update_in_buf at h
  cases hb : d.in_buf with
  | none => rw [hb] at h; simp at h
  | some b0 =>
    rw [hb] at h
    simp only [Option.some.injEq] at h
    subst h
    intro b hb1
    simp only [Option.some.injEq] at hb1
    subst hb1
    rfl

theorem call_read_callback_pos (cbs : dispatcher_callbacks)
    (hr : ∀ f, cbs.read_callback = some f → ∀ fr x, pos_at_len x → pos_at_len (f fr x).2)
    (f : List Nat → rspamd_io_dispatcher_t → Bool × rspamd_io_dispatcher_t)
    (hf : cbs.read_callback = some f) (fr : List Nat) (d : rspamd_io_dispatcher_t)
    (hd : pos_at_len d) : pos_at_len (call_read_callback f fr d).2 := by
  unfold call_read_callback
  exact hr f hf fr _ (pos_at_len_of_in_buf d _ rfl hd)

theorem call_err_callback_pos (cbs : dispatcher_callbacks)
    (he : ∀ f, cbs.err_callback = some f → ∀ e x, pos_at_len x → pos_at_len (f e x))
    (f : dispatcher_error → rspamd_io_dispatcher_t → rspamd_io_dispatcher_t)
    (hf : cbs.err_callback = some f) (e : dispatcher_error) (d : rspamd_io_dispatcher_t)
    (hd : pos_at_len d) : pos_at_len (call_err_callback f e d) := by
  unfold call_err_callback
  exact he f hf e _ (pos_at_len_of_in_buf d _ rfl hd)

theorem line_loop_pos (cbs : dispatcher_callbacks)
    (hr : ∀ f, cbs.read_callback = some f → ∀ fr x, pos_at_len x → pos_at_len (f fr x).2)
    (mem : List Nat) (saved : io_policy) :
    ∀ (n r b : Nat) (d : rspamd_io_dispatcher_t), pos_at_len d →
      match read_buffers_line_loop cbs mem saved n r b d with
      | line_scan.finished d1 _ => pos_at_len d1
      | line_scan.stopped d1 => pos_at_len d1
      | line_scan.changed d1 _ => pos_at_len d1 := by
  intro n
  induction n with
  | zero => intro r b d hd; exact hd
  | succ n ih =>
    intro r b d hd
    unfold read_buffers_line_loop
    by_cases h10 : mem.getD r 0 = 10
    · rw [if_pos h10]
      cases hcb : cbs.read_callback with
      | none => exact ih (r + 1) (r + 1) d hd
      | some f =>
        simp only
        have hres := call_read_callback_pos cbs hr f hcb
        generalize (mem_slice mem b
          (if d.strip_eol = true then
            if r ≠ 0 ∧ mem.getD (r - 1) 0 = 13 then
              if r - b = 0 then SIZE_T_MOD - 1 else r - b - 1
            else r - b
          else r - b + 1)) = fr
        have hres' := hres fr d hd
        generalize call_read_callback f fr d = res at hres'
        by_cases h1 : (!res.1) = true
        · rw [if_pos h1]; exact hres'
        · rw [if_neg h1]
          by_cases h2 : res.2.policy ≠ saved
          · rw [if_pos h2]; exact hres'
          · rw [if_neg h2]; exact ih (r + 1) (r + 1) res.2 hres'
    · rw [if_neg h10]
      exact ih (r + 1) b d hd

theorem read_buffers_unfold (bufsiz : Nat) (cbs : dispatcher_callbacks) (fuel : Nat)
    (d0 : rspamd_io_dispatcher_t) (skip_read : Bool) (rd : io_result) :
    read_buffers bufsiz cbs (fuel + 1) d0 skip_read rd =
    if d0.wanna_die then some (rspamd_remove_dispatcher d0)
    else
      let buf0 : rspamd_buffer_t :=
        match d0.in_buf with
        | some b => b
        | none =>
          if d0.policy = io_policy.BUFFER_LINE ∨ d0.policy = io_policy.BUFFER_ANY then
            { data := fstralloc bufsiz, pos := 0 }
          else { data := fstralloc ((d0.nchars + 1) % SIZE_T_MOD), pos := 0 }
      let d1 := { d0 with in_buf := some buf0 }
      let scan : rspamd_io_dispatcher_t → rspamd_buffer_t → Option rspamd_io_dispatcher_t :=
        read_buffers_scan cbs (fun x => read_buffers bufsiz cbs fuel x true rd)
      if BUFREMAIN buf0 = 0 then
        match cbs.err_callback with
        | some f => some (call_err_callback f dispatcher_error.E2BIG d1)
        | none => scan d1 buf0
      else if !skip_read then
        match rd with
        | io_result.error e =>
          match cbs.err_callback with
          | some f => some (call_err_callback f (dispatcher_error.errno e) d1)
          | none => scan d1 buf0
        | io_result.zero =>
          match cbs.err_callback with
          | some f => some (call_err_callback f dispatcher_error.EOF d1)
          | none => scan d1 buf0
        | io_result.again => some d1
        | io_result.data bytes =>
          let got := bytes.take (BUFREMAIN buf0)
          if got = [] then
            match cbs.err_callback with
            | some f => some (call_err_callback f dispatcher_error.EOF d1)
            | none => scan d1 buf0
          else
            let buf1 : rspamd_buffer_t :=
              { data := { buf0.data with mem := mem_blit buf0.data.mem buf0.pos got,
                                         len := buf0.data.len + got.length },
                pos := buf0.pos + got.length }
            scan { d1 with in_buf := some buf1 } buf1
      else scan d1 buf0 := by
  rfl

theorem read_buffers_scan_pos (cbs : dispatcher_callbacks)
    (hr : ∀ f, cbs.read_callback = some f → ∀ fr x, pos_at_len x → pos_at_len (f fr x).2)
    (rec : rspamd_io_dispatcher_t → Option rspamd_io_dispatcher_t)
    (hrec : ∀ x d1, pos_at_len x → rec x = some d1 → pos_at_len d1)
    (d : rspamd_io_dispatcher_t) (buf : rspamd_buffer_t) (d1 : rspamd_io_dispatcher_t)
    (hd : pos_at_len d) (h : read_buffers_scan cbs rec d buf = some d1) : pos_at_len d1 := by
  unfold read_buffers_scan at h
  simp only at h
  cases hpol : d.policy with
  | BUFFER_LINE =>
    rw [hpol] at h
    simp only at h
    have hl := line_loop_pos cbs hr buf.data.mem io_policy.BUFFER_LINE buf.data.len 0 0 d hd
    cases hloop : read_buffers_line_loop cbs buf.data.mem io_policy.BUFFER_LINE buf.data.len 0 0 d with
    | stopped d2 =>
      rw [hloop] at h hl
      simp only [Option.some.injEq] at h
      subst h
      exact hl
    | changed d2 r =>
      rw [hloop] at h hl
      simp only at h hl
      by_cases he : buf.pos = r
      · rw [if_pos he] at h
        exact reset_in_buf_pos d2 d1 h
      · rw [if_neg he] at h
        cases hb2 : d2.in_buf with
        | none => rw [hb2] at h; simp at h
        | some b2 =>
          rw [hb2] at h
          simp only at h
          cases hdr : drain_in_buf d2 (mem_slice b2.data.mem (r + 1) (b2.data.len - r - 1)) with
          | none => rw [hdr] at h; simp at h
          | some d3 =>
            rw [hdr] at h
            simp only at h
            exact hrec d3 d1 (drain_in_buf_pos d2 d3 _ hdr) h
    | finished d2 b =>
      rw [hloop] at h
      simp only at h
      exact drain_in_buf_pos d2 d1 _ h
  | BUFFER_CHARACTER =>
    rw [hpol] at h
    simp only at h
    by_cases hlen : buf.data.len ≥ d.nchars
    · rw [if_pos hlen] at h
      cases hcb : cbs.read_callback with
      | none =>
        rw [hcb] at h
        simp only [Option.some.injEq] at h
        subst h
        exact hd
      | some f =>
        rw [hcb] at h
        simp only at h
        have hres := call_read_callback_pos cbs hr f hcb (mem_slice buf.data.mem 0 d.nchars) d hd
        generalize call_read_callback f (mem_slice buf.data.mem 0 d.nchars) d = res at h hres
        by_cases h1 : (!res.1) = true
        · rw [if_pos h1] at h
          simp only [Option.some.injEq] at h
          subst h
          exact hres
        · rw [if_neg h1] at h
          have hdrained : ∀ d3, (if buf.data.len > d.nchars
              then drain_in_buf res.2 (mem_slice buf.data.mem d.nchars (buf.data.len - d.nchars))
              else reset_in_buf res.2) = some d3 → pos_at_len d3 := by
            intro d3 h3
            by_cases hgt : buf.data.len > d.nchars
            · rw [if_pos hgt] at h3
              exact drain_in_buf_pos _ _ _ h3
            · rw [if_neg hgt] at h3
              exact reset_in_buf_pos _ _ h3
          generalize (if buf.data.len > d.nchars
              then drain_in_buf res.2 (mem_slice buf.data.mem d.nchars (buf.data.len - d.nchars))
              else reset_in_buf res.2) = dr at h hdrained
          cases dr with
          | none => simp at h
          | some d3 =>
            simp only at h
            have h3 := hdrained d3 rfl
            split at h <;> (try split at h) <;>
              first
              | exact hrec d3 d1 h3 h
              | (simp only [Option.some.injEq] at h
                 subst h
                 exact h3)
    · rw [if_neg hlen] at h
      simp only [Option.some.injEq] at h
      subst h
      exact hd
  | BUFFER_ANY =>
    rw [hpol] at h
    simp only at h
    cases hcb : cbs.read_callback with
    | none =>
      rw [hcb] at h
      exact reset_in_buf_pos d d1 h
    | some f =>
      rw [hcb] at h
      simp only at h
      have hres := call_read_callback_pos cbs hr f hcb (mem_slice buf.data.mem 0 buf.data.len) d hd
      generalize call_read_callback f (mem_slice buf.data.mem 0 buf.data.len) d = res at h hres
      by_cases h1 : (!res.1) = true
      · rw [if_pos h1] at h
        simp only [Option.some.injEq] at h
        subst h
        exact hres
      · rw [if_neg h1] at h
        split at h
        · exact hrec res.2 d1 hres h
        · exact reset_in_buf_pos res.2 d1 h

theorem read_buffers_pos (bufsiz : Nat) (cbs : dispatcher_callbacks)
    (hr : ∀ f, cbs.read_callback = some f → ∀ fr x, pos_at_len x → pos_at_len (f fr x).2)
    (he : ∀ f, cbs.err_callback = some f → ∀ e x, pos_at_len x → pos_at_len (f e x)) :
    ∀ (fuel : Nat) (d : rspamd_io_dispatcher_t) (skip_read : Bool) (rd : io_result)
      (d1 : rspamd_io_dispatcher_t), pos_at_len d →
      read_buffers bufsiz cbs fuel d skip_read rd = some d1 → pos_at_len d1 := by
  intro fuel
  induction fuel with
  | zero => intro d skip_read rd d1 _ h; simp [read_buffers] at h
  | succ fuel ih =>
    intro d skip_read rd d1 hd h
    rw [read_buffers_unfold] at h
    by_cases hdie : d.wanna_die = true
    · rw [if_pos hdie] at h
      simp only [Option.some.injEq] at h
      subst h
      exact pos_at_len_of_in_buf d _ rfl hd
    · rw [if_neg hdie] at h
      -- the buffer after the lazy allocation
      generalize hbuf0 : (match d.in_buf with
        | some b => b
        | none =>
          if d.policy = io_policy.BUFFER_LINE ∨ d.policy = io_policy.BUFFER_ANY then
            ({ data := fstralloc bufsiz, pos := 0 } : rspamd_buffer_t)
          else { data := fstralloc ((d.nchars + 1) % SIZE_T_MOD), pos := 0 }) = buf0 at h
      have hb0 : buf0.pos = buf0.data.len := by
        cases hib : d.in_buf with
        | some b =>
          rw [hib] at hbuf0
          simp only at hbuf0
          subst hbuf0
          exact hd b hib
        | none =>
          rw [hib] at hbuf0
          simp only at hbuf0
          subst hbuf0
          split <;> rfl
      have hd1 : pos_at_len { d with in_buf := some buf0 } := by
        intro b hb
        simp only [Option.some.injEq] at hb
        subst hb
        exact hb0
      have hscan : ∀ x buf d2, pos_at_len x →
          read_buffers_scan cbs (fun y => read_buffers bufsiz cbs fuel y true rd) x buf = some d2 →
          pos_at_len d2 := by
        intro x buf d2 hx hs
        exact read_buffers_scan_pos cbs hr _ (fun y d3 hy h3 => ih y true rd d3 hy h3) x buf d2 hx hs
      simp only at h
      by_cases hrem : BUFREMAIN buf0 = 0
      · rw [if_pos hrem] at h
        cases herr : cbs.err_callback with
        | some f =>
          rw [herr] at h
          simp only [Option.some.injEq] at h
          subst h
          exact call_err_callback_pos cbs he f herr _ _ hd1
        | none =>
          rw [herr] at h
          exact hscan _ _ _ hd1 h
      · rw [if_neg hrem] at h
        cases skip_read with
        | true =>
          simp only [Bool.not_true, Bool.false_eq_true, if_false] at h
          exact hscan _ _ _ hd1 h
        | false =>
          simp only [Bool.not_false, if_true] at h
          cases rd with
          | error e =>
            simp only at h
            cases herr : cbs.err_callback with
            | some f =>
              rw [herr] at h
              simp only [Option.some.injEq] at h
              subst h
              exact call_err_callback_pos cbs he f herr _ _ hd1
            | none =>
              rw [herr] at h
              exact hscan _ _ _ hd1 h
          | zero =>
            simp only at h
            cases herr : cbs.err_callback with
            | some f =>
              rw [herr] at h
              simp only [Option.some.injEq] at h
              subst h
              exact call_err_callback_pos cbs he f herr _ _ hd1
            | none =>
              rw [herr] at h
              exact hscan _ _ _ hd1 h
          | again =>
            simp only [Option.some.injEq] at h
            subst h
            exact hd1
          | data bytes =>
            simp only at h
            by_cases hgot : bytes.take (BUFREMAIN buf0) = []
            · rw [if_pos hgot] at h
              cases herr : cbs.err_callback with
              | some f =>
                rw [herr] at h
                simp only [Option.some.injEq] at h
                subst h
                exact call_err_callback_pos cbs he f herr _ _ hd1
              | none =>
                rw [herr] at h
                exact hscan _ _ _ hd1 h
            · rw [if_neg hgot] at h
              refine hscan _ _ _ ?_ h
              intro b hb
              simp only [Option.some.injEq] at hb
              subst hb
              simp only [hb0]

theorem gint_offset_of_lt (x : Nat) (h : x < 2147483648) : gint_offset x = x := by
  unfold gint_offset
  have h1 : x % 4294967296 = x := Nat.mod_eq_of_lt (by omega)
  rw [h1, if_pos h]

theorem set_policy_in_buf (bufsiz : Nat) (d : rspamd_io_dispatcher_t) (policy : io_policy)
    (nchars : Nat) :
    (rspamd_set_dispatcher_policy bufsiz d policy nchars).in_buf = d.in_buf ∨
    ∃ b size, d.in_buf = some b ∧
      (size = ((if nchars ≠ 0 then nchars else bufsiz) + 1) % SIZE_T_MOD ∧
          b.data.size < nchars ∨
        size = bufsiz ∧ nchars ≠ 0 ∧ nchars < bufsiz) ∧
      (rspamd_set_dispatcher_policy bufsiz d policy nchars).in_buf =
        some { data := { mem := mem_blit (fstralloc size).mem 0 (mem_slice b.data.mem 0 b.data.len),
                         len := b.data.len, size := size },
               pos := gint_offset b.pos } := by
  unfold rspamd_set_dispatcher_policy
  by_cases hp : d.policy = policy
  · left; simp [hp]
  · simp only [ne_eq, hp, not_false_eq_true, if_true]
    cases hb : d.in_buf with
    | none =>
      left
      (repeat' split) <;> simp_all
    | some b =>
      by_cases hc : policy = io_policy.BUFFER_CHARACTER ∧ ¬ nchars = 0
      · rw [if_pos hc]
        simp only [hb]
        by_cases hsz : b.data.size < nchars
        · right
          refine ⟨b, ((if ¬ nchars = 0 then nchars else bufsiz) + 1) % SIZE_T_MOD, rfl, Or.inl ⟨rfl, hsz⟩, ?_⟩
          rw [if_pos hsz]
          rfl
        · left
          rw [if_neg hsz]
      · rw [if_neg hc]
        by_cases hl : policy = io_policy.BUFFER_LINE ∨ policy = io_policy.BUFFER_ANY
        · rw [if_pos hl]
          simp only [hb]
          by_cases hn : (if ¬ nchars = 0 then nchars else bufsiz) < bufsiz
          · right
            have hn0 : ¬ nchars = 0 := by
              intro h0
              rw [h0] at hn
              simp at hn
            have hn1 : nchars < bufsiz := by
              rw [if_pos hn0] at hn
              exact hn
            refine ⟨b, bufsiz, rfl, Or.inr ⟨rfl, hn0, hn1⟩, ?_⟩
            rw [if_pos hn]
            rfl
          · left
            rw [if_neg hn]
        · left
          rw [if_neg hl]

theorem set_policy_pos (bufsiz : Nat) (d : rspamd_io_dispatcher_t) (policy : io_policy)
    (nchars : Nat) (hd : pos_at_len d) (hsmall : ∀ b, d.in_buf = some b → b.pos < 2147483648) :
    pos_at_len (rspamd_set_dispatcher_policy bufsiz d policy nchars) := by
  rcases set_policy_in_buf bufsiz d policy nchars with h | ⟨b, size, hb, _, h⟩
  · exact pos_at_len_of_in_buf d _ h hd
  · intro b1 hb1
    rw [h] at hb1
    simp only [Option.some.injEq] at hb1
    subst hb1
    simp only
    rw [gint_offset_of_lt _ (hsmall b hb)]
    exact hd b hb

/-! ## The header bytes of a query -/

theorem list_split12 (l : List Nat) (h : 12 ≤ l.length) :
    ∃ a0 a1 a2 a3 a4 a5 a6 a7 a8 a9 a10 a11 rest,
      l = a0 :: a1 :: a2 :: a3 :: a4 :: a5 :: a6 :: a7 :: a8 :: a9 :: a10 :: a11 :: rest := by
  rcases l with _ | ⟨a0, l⟩
  · simp at h
  rcases l with _ | ⟨a1, l⟩
  · simp at h
  rcases l with _ | ⟨a2, l⟩
  · simp at h
  rcases l with _ | ⟨a3, l⟩
  · simp at h
  rcases l with _ | ⟨a4, l⟩
  · simp at h
  rcases l with _ | ⟨a5, l⟩
  · simp at h
  rcases l with _ | ⟨a6, l⟩
  · simp at h
  rcases l with _ | ⟨a7, l⟩
  · simp at h
  rcases l with _ | ⟨a8, l⟩
  · simp at h
  rcases l with _ | ⟨a9, l⟩
  · simp at h
  rcases l with _ | ⟨a10, l⟩
  · simp at h
  rcases l with _ | ⟨a11, l⟩
  · simp at h
  exact ⟨a0, a1, a2, a3, a4, a5, a6, a7, a8, a9, a10, a11, l, rfl⟩


/-! ## Query construction -/

set_option maxRecDepth 100000 in
/-- C4 (evaluation of the code): for `example.com`, written at cursor 12 into a
packet whose fresh memory holds `0xAA`, `format_dns_name` stores the two labels,
leaves the next byte as it was, stores the zero octet one byte further and
advances the cursor by 14 bytes (name length + 3), not by 13. -/
theorem format_dns_name_example :
    (format_dns_name 0 (request_after_header (fun _ => 0xAA)) example_com 0).map
      (fun r => (r.pos, (r.packet.drop 12).take 14)) =
    some (12 + (example_com.length + 3),
      [7, 101, 120, 97, 109, 112, 108, 101, 3, 99, 111, 109, 0xAA, 0]) := by
  decide

set_option maxRecDepth 100000 in
/-- C5 (evaluation of the code): `make_a_req` for `example.com` ends with the
cursor at 30; the four bytes before the cursor (offsets 26..29) are still the
fresh memory `0xAA`, class and type were stored at byte offsets 52..55 (class
first), and for a 69-character name the stores fall outside the packet. -/
theorem make_a_req_example :
    ∀ be : Bool,
    (make_a_req be 4 resolver_permutor (fun _ => 0xAA) 0 {} example_com).map
      (fun r => (r.1.pos, r.1.packet_len, (r.1.packet.drop 12).take 18,
        (r.1.packet.drop 52).take 4)) =
    some (30, 113,
      [7, 101, 120, 97, 109, 112, 108, 101, 3, 99, 111, 109, 0xAA, 0, 0xAA, 0xAA, 0xAA, 0xAA],
      [0, 1, 0, 1]) ∧
    make_a_req be 4 resolver_permutor (fun _ => 0xAA) 0 {} long_name = none := by
  intro be
  cases be <;> decide

set_option maxRecDepth 100000 in
/-- C6 (evaluation of the code): for `example.com` the MX and the TXT request
built by `make_dns_request` both store the type `DNS_T_A = 1` (bytes `00 01` at
offset 54), exactly as the A request does. -/
theorem make_dns_request_mx_txt_type :
    ∀ be : Bool,
    (make_dns_request_packet be 4 resolver_permutor (fun _ => 0xAA) 0
        rspamd_request_type.DNS_REQUEST_MX example_com 0).map
      (fun r => (r.1.type, (r.1.packet.drop 54).take 2)) =
      some (some rspamd_request_type.DNS_REQUEST_MX, htons_bytes 1) ∧
    (make_dns_request_packet be 4 resolver_permutor (fun _ => 0xAA) 0
        rspamd_request_type.DNS_REQUEST_TXT example_com 0).map
      (fun r => (r.1.type, (r.1.packet.drop 54).take 2)) =
      some (some rspamd_request_type.DNS_REQUEST_TXT, htons_bytes 1) ∧
    (make_dns_request_packet be 4 resolver_permutor (fun _ => 0xAA) 0
        rspamd_request_type.DNS_REQUEST_A example_com 0).map
      (fun r => (r.1.type, (r.1.packet.drop 54).take 2)) =
      some (some rspamd_request_type.DNS_REQUEST_A, htons_bytes 1) := by
  intro be
  cases be <;> decide

set_option maxRecDepth 100000 in
/-- C19 (evaluation of the code): `make_ptr_req` for 8.8.4.4.  On a
little-endian host (`s_addr` read as `0x04040808`) the labels come out as
`8`, `8`, `4`, `4`, `in-addr`, `arpa`, not reversed; on a big-endian host
(`0x08080404`) they are `4`, `4`, `8`, `8`, `in-addr`, `arpa`.  In both cases
the byte after the labels is left as it was, the cursor ends at 39 with four
untouched bytes before it, and class and type (`00 01 00 0C`) are at byte
offsets 70..73. -/
theorem make_ptr_req_example :
    (make_ptr_req false 4 resolver_permutor (fun _ => 0xAA) 0 {} 0x04040808).map
      (fun r => (r.1.pos, (r.1.packet.drop 12).take 27, (r.1.packet.drop 70).take 4)) =
    some (39,
      [1, 56, 1, 56, 1, 52, 1, 52, 7, 105, 110, 45, 97, 100, 100, 114, 4, 97, 114, 112, 97,
        0xAA, 0, 0xAA, 0xAA, 0xAA, 0xAA],
      [0, 1, 0, 12]) ∧
    (make_ptr_req true 4 resolver_permutor (fun _ => 0xAA) 0 {} 0x08080404).map
      (fun r => (r.1.pos, (r.1.packet.drop 12).take 27, (r.1.packet.drop 70).take 4)) =
    some (39,
      [1, 52, 1, 52, 1, 56, 1, 56, 7, 105, 110, 45, 97, 100, 100, 114, 4, 97, 114, 112, 97,
        0xAA, 0, 0xAA, 0xAA, 0xAA, 0xAA],
      [0, 1, 0, 12]) := by
  decide

/-- C20 (what the code does): on a packet of at least 12 bytes, when
`dns_k_permutor_step` returns `v`, `make_dns_header` returns.  The 12 header
bytes are then: the id `v mod 2^16` in the byte order of the host, `01 00`
(only `rd` set), the count 1 in the byte order of the host, six zero bytes;
the rest of the packet is unchanged, `req->id` is the id and the cursor has
advanced by 12.  Read back through the struct overlay on the same host the
header has `qid` equal to the id, `rd = 1`, `qdcount = 1` and every other
field zero.  Read in network byte order, the order in which a DNS header is
sent, the QDCOUNT at offset 4 is 1 on a big-endian host and 256 on a
little-endian host, and the ID at offset 0 is the id on a big-endian host and
the id with its two bytes exchanged on a little-endian host. -/
theorem make_dns_header_bytes (be : Bool) (fuel : Nat) (p p1 : dns_k_permutor)
    (req : rspamd_dns_request) (v : Nat)
    (hstep : dns_k_permutor_step fuel p = some (v, p1))
    (hlen : dns_header_size ≤ req.packet.length) :
    ∃ req1, make_dns_header be fuel p req = some (req1, p1) ∧
      req1.packet = host16_bytes be (v % 65536) ++ [1, 0] ++ host16_bytes be 1 ++
        [0, 0, 0, 0, 0, 0] ++ req.packet.drop dns_header_size ∧
      req1.id = v % 65536 ∧ req1.pos = req.pos + dns_header_size ∧
      req1.packet_len = req.packet_len ∧
      dns_header_view be req1.packet = some { qid := v % 65536, rd := 1, qdcount := 1 } ∧
      peek16 true req1.packet 4 = some (if be then 1 else 256) ∧
      peek16 true req1.packet 0 =
        some (if be then v % 65536 else v % 256 * 256 + v / 256 % 256) := by
  obtain ⟨a0, a1, a2, a3, a4, a5, a6, a7, a8, a9, a10, a11, rest, hp⟩ :=
    list_split12 req.packet hlen
  unfold make_dns_header
  rw [hstep, hp]
  cases be
  · simp [poke_bytes, poke, dns_header_size, host16_bytes, dns_header_view, peek_bytes, peek16,
      peek, host16]
    omega
  · simp [poke_bytes, poke, dns_header_size, host16_bytes, dns_header_view, peek_bytes, peek16,
      peek, host16]
    omega

set_option maxRecDepth 100000 in
/-- C20, instance: on a little-endian host, for the packet that
`allocate_packet` gives for an 11-character name (113 bytes, fresh memory
`0xAA`) and the first id 2616 = `0x0A38` drawn from the resolver's permutor
with the all-zero key, the header bytes are `38 0A 01 00 01 00` and six zero
bytes: in network byte order the QDCOUNT reads 256 and the ID reads
`0x380A` = 14346. -/
theorem make_dns_header_bytes_witness :
    ∃ req1, make_dns_header false 4 resolver_permutor (allocate_packet (fun _ => 0xAA) {} 11) =
        some (req1, { resolver_permutor with stepi := 1 }) ∧
      req1.packet = [0x38, 0x0A] ++ [1, 0] ++ [1, 0] ++ [0, 0, 0, 0, 0, 0] ++
        List.replicate 101 0xAA ∧
      req1.id = 2616 ∧ req1.pos = 0 + dns_header_size ∧
      req1.packet_len = 113 ∧
      dns_header_view false req1.packet = some { qid := 2616, rd := 1, qdcount := 1 } ∧
      peek16 true req1.packet 4 = some 256 ∧
      peek16 true req1.packet 0 = some 14346 :=
  make_dns_header_bytes false 4 resolver_permutor { resolver_permutor with stepi := 1 }
    (allocate_packet (fun _ => 0xAA) {} 11) 2616 (by decide) (by decide)

/-! ## Reply handling -/

set_option maxRecDepth 100000 in
/-- C7 (what the code does): `dns_read_cb` never changes the resolver: after
it, the table of in-flight requests, the armed timers and the log of user
callbacks are what they were.  This includes the 104-byte reply
`matching_reply` to the request in flight under `0xABCD`, which
`dns_parse_reply` accepts. -/
theorem dns_read_cb_no_effect :
    (∀ (be undef : Bool) (stale : Nat → Nat) (resolver : rspamd_dns_resolver)
        (header : dns_header) (dgram : List Nat),
        dns_read_cb be undef stale resolver header dgram = resolver) ∧
    (dns_parse_reply true true matching_reply (reply_header 0xABCD) 104 inflight_resolver).map
        (fun o => o.map (fun x => x.1)) =
      some (some { request := 0xABCD, type := some rspamd_request_type.DNS_REQUEST_A,
                   elements := [] }) ∧
    (dns_read_cb true true (fun _ => 0) inflight_resolver (reply_header 0xABCD)
        matching_reply).callbacks = [] ∧
    requests_lookup (dns_read_cb true true (fun _ => 0) inflight_resolver (reply_header 0xABCD)
        matching_reply) 0xABCD = some inflight_request := by
  refine ⟨?_, by decide, by decide, by decide⟩
  intro be undef stale resolver header dgram
  unfold dns_read_cb
  simp only
  split
  · split <;> rfl
  · rfl

/-- C9 (evaluation of the code): for a well-formed A record with RDLENGTH 4
and its 4 RDATA bytes present, `dns_parse_rr` stores no address.  On a
big-endian host the type is read as 1 and the record is rejected (`datalen &
0x3` is zero for 4); on a little-endian host the type is read as 256, no case
of the switch applies and the function ends without returning a value. -/
theorem dns_parse_rr_a_record (be : Bool) :
    (dns_parse_rr be a_record_literal {} 0 19).map (fun r => (r.ret, r.elt.a_addr, r.type)) =
      some (if be then (some false, none, some 1) else (none, none, some 256)) := by
  cases be <;> decide

/-- C10: whatever the datagram, a reply returned by `dns_parse_reply` carries
the type of the request found under the reply's id and an empty element list,
however many answer records `dns_parse_rr` went through. -/
theorem dns_parse_reply_elements (be undef : Bool) (mem : List Nat) (header : dns_header)
    (r : Int) (resolver : rspamd_dns_resolver) (rep : rspamd_dns_reply)
    (results : List parse_rr_result)
    (h : dns_parse_reply be undef mem header r resolver = some (some (rep, results))) :
    rep.elements = [] ∧
    ∃ req, requests_lookup resolver header.qid = some req ∧ rep.type = req.type := by
  unfold dns_parse_reply at h
  split at h
  · simp at h
  · split at h
    · simp at h
    · rename_i req hreq
      split at h
      · simp at h
      · simp at h
      · simp only at h
        split at h
        · simp at h
        · simp only [Option.some.injEq, Prod.mk.injEq] at h
          obtain ⟨h1, _⟩ := h
          subst h1
          exact ⟨rfl, req, hreq, rfl⟩

set_option maxRecDepth 100000 in
/-- C10, instance: the reply `matching_reply` with one answer record. -/
theorem dns_parse_reply_elements_witness :
    ({ request := 0xABCD, type := some rspamd_request_type.DNS_REQUEST_A,
       elements := [] } : rspamd_dns_reply).elements = [] ∧
    ∃ req, requests_lookup inflight_resolver (reply_header 0xABCD).qid = some req ∧
      ({ request := 0xABCD, type := some rspamd_request_type.DNS_REQUEST_A,
         elements := [] } : rspamd_dns_reply).type = req.type :=
  dns_parse_reply_elements true true matching_reply (reply_header 0xABCD) 104 inflight_resolver
    { request := 0xABCD, type := some rspamd_request_type.DNS_REQUEST_A, elements := [] }
    [{ ret := some false, pos := 85, remain := 4, elt := {}, type_at := some 90, type := some 1 }]
    (by decide)

/-- C11 (evaluation of the code): for the record `C0 0C 00 01 00 01 ...` the
name-skipping loop steps over `C0` only, then takes `0C` for a label length.
With 16 bytes remaining the record is rejected without its type being read;
with 100 bytes remaining (zero bytes after the record) the type is read from
offset 51 instead of offset 2. -/
theorem dns_parse_rr_pointer_owner (be : Bool) :
    (dns_parse_rr be a_record_pointer {} 0 16).map (fun r => (r.ret, r.type_at)) =
      some (some false, none) ∧
    (dns_parse_rr be (a_record_pointer ++ List.replicate 84 0) {} 0 100).map
        (fun r => r.type_at) = some (some 51) := by
  cases be <;> decide

set_option maxRecDepth 100000 in
/-- C12 (evaluation of the code): with 5 bytes remaining (a root owner name and
4 more bytes) `dns_parse_rr` reports no failure: `*remain - 10` wraps in
`size_t`, the length field is loaded from offsets 9 and 10 of the buffer, past
the received bytes, and the function ends without a `return`.  The outcome
depends on what the buffer held there before (`remain` becomes -1805 for stale
bytes 7 and -6 for stale bytes 0). -/
theorem dns_parse_rr_short_record :
    (dns_parse_rr true (short_record 7) {} 0 5).map (fun r => (r.ret, r.pos, r.remain)) =
      some (none, 11, -1805) ∧
    (dns_parse_rr true (short_record 0) {} 0 5).map (fun r => (r.ret, r.pos, r.remain)) =
      some (none, 11, -6) := by
  decide

/-- C13: when the header has `qr = 0`, or no request is in flight under the
reply's id, `dns_parse_reply` returns `NULL`, and after `dns_read_cb` the
resolver (its table of in-flight requests in particular) is unchanged. -/
theorem dns_parse_reply_rejects (be undef : Bool) (stale : Nat → Nat) (mem dgram : List Nat)
    (header : dns_header) (r : Int) (resolver : rspamd_dns_resolver)
    (h : header.qr = 0 ∨ requests_lookup resolver header.qid = none) :
    dns_parse_reply be undef mem header r resolver = some none ∧
    (dns_read_cb be undef stale resolver header dgram).requests = resolver.requests := by
  constructor
  · unfold dns_parse_reply
    rcases h with h | h
    · simp [h]
    · by_cases hq : header.qr = 0
      · simp [hq]
      · simp [hq, h]
  · unfold dns_read_cb
    simp only
    split
    · split <;> rfl
    · rfl

set_option maxRecDepth 100000 in
/-- C13, instance: a reply carrying `0xABCE` while the request in flight has
the id `0xABCD`. -/
theorem dns_parse_reply_rejects_witness :
    dns_parse_reply true true matching_reply (reply_header 0xABCE) 104 inflight_resolver =
      some none ∧
    (dns_read_cb true true (fun _ => 0) inflight_resolver (reply_header 0xABCE)
        matching_reply).requests = inflight_resolver.requests :=
  dns_parse_reply_rejects true true (fun _ => 0) matching_reply matching_reply
    (reply_header 0xABCE) 104 inflight_resolver (Or.inr (by decide))

/-! ## Range of the values returned by the permutor -/

set_option maxRecDepth 100000 in
/-- C14 (counterexample): for the full 32-bit range `low = 0`, `high = 2^32 - 1`
the length `(high - low) + 1` wraps to zero; `dns_k_permutor_init` returns, and
from the state it produces `dns_k_permutor_step` never returns, whatever the
number of loop iterations allowed. -/
theorem permutor_full_range_never_returns :
    ∃ p, dns_k_permutor_init 0 0 0 0 0 4294967295 = some p ∧
      ∀ fuel, dns_k_permutor_step fuel p = none :=
  ⟨{ stepi := 0, length := 0, limit := 4294967295, shift := 0, mask := 0,
     rounds := DNS_K_PERMUTOR_ROUNDS, tea := dns_k_tea_init 0 0 0 0 0 },
   by decide, fun fuel => step_none_of_length_zero fuel _ rfl⟩

/-- C14 (amended): for every key and every range `low ≤ high < 2^32` with
`high - low + 1 ≤ 2^31` (the single-element range included), from the state
produced by `dns_k_permutor_init` with its step counter set to any 32-bit
value, `dns_k_permutor_step` returns (within `2^32` loop iterations) a value
`v` with `low ≤ v ≤ high`. -/
theorem permutor_step_in_range (k0 k1 k2 k3 low high s fuel : Nat) (hlh : low ≤ high)
    (hh : high < 4294967296) (hL : high - low + 1 ≤ 2147483648) (hs : s < 4294967296)
    (hf : 4294967296 ≤ fuel) :
    ∃ p, dns_k_permutor_init k0 k1 k2 k3 low high = some p ∧
      ∃ v p1, dns_k_permutor_step fuel { p with stepi := s } = some (v, p1) ∧
        low ≤ v ∧ v ≤ high := by
  obtain ⟨p, hp, hi⟩ := init_spec k0 k1 k2 k3 low high hlh hh hL
  refine ⟨p, hp, ?_⟩
  have hW : 2 ^ p.shift * 2 ^ p.shift ≤ 4294967296 := by
    have h1 : (2:Nat) ^ p.shift ≤ 2 ^ 16 := Nat.pow_le_pow_right (by norm_num) hi.shift
    have h2 : (2:Nat) ^ 16 = 65536 := by norm_num
    calc 2 ^ p.shift * 2 ^ p.shift ≤ 65536 * 65536 := Nat.mul_le_mul (by omega) (by omega)
      _ = 4294967296 := by norm_num
  have hlen := hi.length
  obtain ⟨k, hk, hE⟩ := exists_hit p hi.mask hi.shift (by omega) s
  have hE' : dns_k_permutor_E { p with stepi := s }
      (w32 (({ p with stepi := s } : dns_k_permutor).stepi + k)) <
      ({ p with stepi := s } : dns_k_permutor).length := by
    rw [E_stepi p hi.mask hi.shift]; exact hE
  obtain ⟨n, p1, hstep, hn⟩ := step_hit k fuel { p with stepi := s } (by omega) hi.mask hi.shift
    hs hE'
  refine ⟨_, p1, hstep, ?_⟩
  have hn' : n < high - low + 1 := by rw [← hlen]; exact hn
  show low ≤ w32 (n + sub32 (w32 (p.limit + 1)) p.length) ∧
    w32 (n + sub32 (w32 (p.limit + 1)) p.length) ≤ high
  rw [hi.limit, hlen, offset_eq low high hlh hh, w32_of_lt (by omega)]
  omega

/-- C14 (amended), instance: the single-element range `(5, 5)` with the step
counter at 7. -/
theorem permutor_step_in_range_witness :
    ∃ p, dns_k_permutor_init 1 2 3 4 5 5 = some p ∧
      ∃ v p1, dns_k_permutor_step 4294967296 { p with stepi := 7 } = some (v, p1) ∧
        5 ≤ v ∧ v ≤ 5 :=
  permutor_step_in_range 1 2 3 4 5 5 7 4294967296 (by decide) (by decide) (by decide)
    (by decide) (by decide)

/-! ## Comparison of the question sections -/

/-- C8: let the request packet hold, after its 12 header bytes, a well-formed
uncompressed question (labels of 1..63 bytes, the zero octet, 4 bytes of type
and class), and let the reply hold such a question at `in`, all of it inside
`len`.  Then `dns_request_reply_cmp` returns the position just past the reply's
question when the two question sections are byte-for-byte identical, and
`NULL` otherwise. -/
theorem dns_request_reply_cmp_wellformed (req : rspamd_dns_request)
    (hdr rest1 rest2 tc1 tc2 : List Nat) (ls1 ls2 : List (List Nat)) (len : Int)
    (hpk : req.packet = hdr ++ (question_section ls1 tc1 ++ rest1))
    (hhdr : hdr.length = dns_header_size)
    (h1 : ∀ l ∈ ls1, wf_label l) (h2 : ∀ l ∈ ls2, wf_label l)
    (ht1 : tc1.length = 4) (ht2 : tc2.length = 4)
    (hlen : ((question_section ls2 tc2).length : Int) ≤ len) :
    dns_request_reply_cmp req (question_section ls2 tc2 ++ rest2) len =
      some (if question_section ls1 tc1 = question_section ls2 tc2
            then some (question_section ls2 tc2).length else none) := by
  unfold dns_request_reply_cmp
  have hloop := cmp_loop_spec ls2 ls1 hdr [] (tc1 ++ rest1) (tc2 ++ rest2)
    ((question_section ls2 tc2 ++ rest2).length + 1) len h1 h2
    (by simp only [question_section, List.length_append]; omega)
    (by
      simp only [question_section, List.length_append, List.length_nil, Nat.zero_add] at hlen ⊢
      omega)
  simp only [List.nil_append, List.length_nil, Nat.zero_add] at hloop
  have epk : req.packet = hdr ++ (encode_labels ls1 ++ (tc1 ++ rest1)) := by
    rw [hpk]; simp [question_section]
  have ein : question_section ls2 tc2 ++ rest2 = encode_labels ls2 ++ (tc2 ++ rest2) := by
    simp [question_section]
  rw [epk, ← hhdr]
  rw [ein] at hloop ⊢
  rw [hloop]
  by_cases hls : ls1 = ls2
  · subst hls
    simp only [if_true]
    have hb2 : peek_bytes (encode_labels ls1 ++ (tc2 ++ rest2)) (encode_labels ls1).length (2 * 2)
        = some tc2 := by
      have := peek_bytes_append (encode_labels ls1) tc2 rest2
      rw [ht2] at this
      exact this
    have hb1 : peek_bytes (hdr ++ (encode_labels ls1 ++ (tc1 ++ rest1)))
        (hdr.length + (encode_labels ls1).length) (2 * 2) = some tc1 := by
      have := peek_bytes_append (hdr ++ encode_labels ls1) tc1 rest1
      rw [ht1] at this
      simpa using this
    rw [hb2, hb1]
    simp only
    by_cases htc : tc1 = tc2
    · subst htc
      simp [question_section, ht1]
    · have hne : ¬ (question_section ls1 tc1 = question_section ls1 tc2) := by
        intro h
        exact htc (question_section_inj ls1 ls1 tc1 tc2 h1 h1 h).2
      have htc' : ¬ (tc2 = tc1) := fun h => htc h.symm
      simp [htc', hne]
  · have hne : ¬ (question_section ls1 tc1 = question_section ls2 tc2) := by
      intro h
      exact hls (question_section_inj ls1 ls2 tc1 tc2 h1 h2 h).1
    simp [hls, hne]

/-- C8, instance: the request for `aaa...a.com` compared with the question of
`matching_reply`. -/
theorem dns_request_reply_cmp_wellformed_witness :
    dns_request_reply_cmp inflight_request
        (question_section [List.replicate 63 97, [99, 111, 109]] [0, 1, 0, 1] ++ a_record_literal)
        92 =
      some (if question_section [List.replicate 63 97, [99, 111, 109]] [0, 1, 0, 1] =
                question_section [List.replicate 63 97, [99, 111, 109]] [0, 1, 0, 1]
            then some (question_section [List.replicate 63 97, [99, 111, 109]] [0, 1, 0, 1]).length
            else none) :=
  dns_request_reply_cmp_wellformed inflight_request (List.replicate 12 0) [] a_record_literal
    [0, 1, 0, 1] [0, 1, 0, 1] [List.replicate 63 97, [99, 111, 109]]
    [List.replicate 63 97, [99, 111, 109]] 92 (by decide) (by decide)
    (by intro l hl; simp at hl; rcases hl with rfl | rfl <;> exact ⟨by decide, by decide⟩)
    (by intro l hl; simp at hl; rcases hl with rfl | rfl <;> exact ⟨by decide, by decide⟩)
    (by decide) (by decide) (by decide)

/-! ## Line framing -/

/-- C3: a dispatcher in LINE policy whose input buffer is not yet allocated
handles a sequence of readable events in which `read` returns the given
non-empty chunks, each fitting into the free part of the `BUFSIZ` buffer; the
read callback accepts every frame and leaves the dispatcher alone.  Then every
call of `read_buffers` returns, the frames delivered are exactly the frames of
the concatenated input (`split_lines`: with `strip_eol` each line without its
newline and one preceding carriage return, otherwise each line with its
newline), in order, and the bytes after the last newline are what the input
buffer holds afterwards. -/
theorem line_frames_delivered (bufsiz : Nat) (cbs : dispatcher_callbacks)
    (f : List Nat → rspamd_io_dispatcher_t → Bool × rspamd_io_dispatcher_t)
    (hcb : cbs.read_callback = some f) (hf : ∀ fr d, f fr d = (true, d))
    (chunks : List (List Nat)) (d : rspamd_io_dispatcher_t)
    (hpol : d.policy = io_policy.BUFFER_LINE) (hdie : d.wanna_die = false)
    (hnone : d.in_buf = none) (hne : chunks ≠ [])
    (hfit : chunks_fit d.strip_eol bufsiz chunks []) :
    ∃ d1 buf1, feed_chunks bufsiz cbs chunks d = some d1 ∧
      d1.log = d.log ++ List.map dispatcher_event.read_cb
        (split_lines d.strip_eol chunks.flatten []).1 ∧
      d1.in_buf = some buf1 ∧ buffer_holds buf1 (split_lines d.strip_eol chunks.flatten []).2 := by
  cases chunks with
  | nil => exact absurd rfl hne
  | cons c cs =>
    have hfresh : buffer_holds ({ data := fstralloc bufsiz, pos := 0 } : rspamd_buffer_t) [] :=
      ⟨rfl, rfl, by simp⟩
    obtain ⟨d1, buf1, hfeed, hlog, hb, hh⟩ := feed_chunks_line bufsiz cbs f hcb hf bufsiz (c :: cs)
      { d with in_buf := (some { data := fstralloc bufsiz, pos := 0 }) }
      { data := fstralloc bufsiz, pos := 0 } [] hpol hdie rfl hfresh (by simp) rfl hfit
    refine ⟨d1, buf1, ?_, hlog, hb, hh⟩
    unfold feed_chunks at hfeed ⊢
    rw [read_buffers_alloc_line bufsiz cbs 0 d false (io_result.data c) hpol hdie hnone]
    exact hfeed

/-- C3, instance: the reads `hello\r` and `\nworld\n` with `strip_eol` set and
a 16-byte buffer; the frames of the specification are `hello` and `world` and
nothing stays buffered. -/
theorem line_frames_delivered_witness :
    (∃ d1 buf1, feed_chunks 16 accepting_callbacks
        [bytes_of "hello\r", bytes_of "\nworld\n"] {} = some d1 ∧
      d1.log = ({} : rspamd_io_dispatcher_t).log ++ List.map dispatcher_event.read_cb
        (split_lines ({} : rspamd_io_dispatcher_t).strip_eol
          [bytes_of "hello\r", bytes_of "\nworld\n"].flatten []).1 ∧
      d1.in_buf = some buf1 ∧
      buffer_holds buf1 (split_lines ({} : rspamd_io_dispatcher_t).strip_eol
        [bytes_of "hello\r", bytes_of "\nworld\n"].flatten []).2) ∧
    split_lines true [bytes_of "hello\r", bytes_of "\nworld\n"].flatten [] =
      ([bytes_of "hello", bytes_of "world"], []) :=
  ⟨line_frames_delivered 16 accepting_callbacks (fun _ d => (true, d)) rfl (fun _ _ => rfl)
    [bytes_of "hello\r", bytes_of "\nworld\n"] {} rfl rfl rfl (by decide)
    ⟨by decide, by decide, by decide, by decide, trivial⟩, by decide⟩

/-! ## Character framing -/

/-- C18: a dispatcher in CHARACTER(`n`) policy (any `n`) whose input buffer
holds the bytes `R`, handles a readable event in which `read` returns the
non-empty chunk `c` (fitting into the buffer); the read callback accepts every
frame and leaves the dispatcher alone.  If at least `n` bytes are then
buffered, `read_buffers` delivers exactly one frame, the first `n` bytes, and
the buffer holds the remaining bytes in order; otherwise no frame is delivered
and the buffer holds all the bytes. -/
theorem character_frame_delivered (bufsiz : Nat) (cbs : dispatcher_callbacks)
    (f : List Nat → rspamd_io_dispatcher_t → Bool × rspamd_io_dispatcher_t)
    (hcb : cbs.read_callback = some f) (hf : ∀ fr d, f fr d = (true, d))
    (fuel : Nat) (d : rspamd_io_dispatcher_t) (buf : rspamd_buffer_t) (R c : List Nat)
    (hpol : d.policy = io_policy.BUFFER_CHARACTER)
    (hdie : d.wanna_die = false) (hbuf : d.in_buf = some buf) (hR : buffer_holds buf R)
    (hc : c ≠ []) (hfit : R.length + c.length ≤ buf.data.size) :
    ∃ buf1, buffer_holds buf1 (if d.nchars ≤ (R ++ c).length then (R ++ c).drop d.nchars
                               else R ++ c) ∧
      read_buffers bufsiz cbs (fuel + 1) d false (io_result.data c) =
        some { d with in_buf := some buf1,
                      log := (if d.nchars ≤ (R ++ c).length
                              then d.log ++ [dispatcher_event.read_cb ((R ++ c).take d.nchars)]
                              else d.log) } := by
  obtain ⟨hpos, hlen, hmem⟩ := hR
  have hclen : 0 < c.length := List.length_pos.mpr hc
  have hrem : BUFREMAIN buf ≠ 0 := by rw [BUFREMAIN_of_le buf (by omega)]; omega
  have hgot : c.take (BUFREMAIN buf) = c := by
    apply List.take_of_length_le
    rw [BUFREMAIN_of_le buf (by omega)]; omega
  have hB : (mem_blit buf.data.mem buf.pos c).take (R ++ c).length = R ++ c := by
    rw [hpos]; exact take_mem_blit buf.data.mem R c hmem
  have hlen' : buf.data.len + c.length = (R ++ c).length := by
    rw [hlen, List.length_append]
  have hframe : mem_slice (mem_blit buf.data.mem buf.pos c) 0 d.nchars =
      (mem_blit buf.data.mem buf.pos c).take d.nchars := by
    unfold mem_slice; simp
  by_cases hge : d.nchars ≤ (R ++ c).length
  · have htake : (mem_blit buf.data.mem buf.pos c).take d.nchars = (R ++ c).take d.nchars := by
      conv_rhs => rw [← hB]
      rw [List.take_take, Nat.min_eq_left hge]
    have hrest : mem_slice (mem_blit buf.data.mem buf.pos c) d.nchars
        ((R ++ c).length - d.nchars) = (R ++ c).drop d.nchars := by
      rw [mem_slice_of_take _ (R ++ c) hB _ _ (by omega)]
      unfold mem_slice
      apply List.take_of_length_le
      rw [List.length_drop]
    simp only [hge, if_true]
    by_cases hgt : d.nchars < (R ++ c).length
    · refine ⟨{ data := { buf.data with
                  mem := (mem_blit (mem_blit buf.data.mem buf.pos c) 0 ((R ++ c).drop d.nchars)),
                  len := ((R ++ c).drop d.nchars).length },
                pos := ((R ++ c).drop d.nchars).length }, ⟨rfl, rfl, take_mem_blit_zero _ _⟩, ?_⟩
      unfold read_buffers
      simp only [hdie, Bool.false_eq_true, if_false, hbuf, hrem, Bool.not_false, if_true, hgot,
        hc, hpol, hlen', ge_iff_le, hge, hcb, call_read_callback, hf, Bool.not_true, gt_iff_lt,
        hgt, hframe, htake, hrest, drain_in_buf, update_in_buf, ne_eq, not_true_eq_false,
        false_and]
    · have heq : d.nchars = (R ++ c).length := by omega
      have hnil : (R ++ c).drop d.nchars = [] := by rw [heq]; simp
      refine ⟨{ data := { buf.data with mem := (mem_blit buf.data.mem buf.pos c), len := 0 },
                pos := 0 }, ?_, ?_⟩
      · rw [hnil]; exact ⟨rfl, rfl, by simp⟩
      · unfold read_buffers
        simp only [hdie, Bool.false_eq_true, if_false, hbuf, hrem, Bool.not_false, if_true, hgot,
          hc, hpol, hlen', ge_iff_le, hge, hcb, call_read_callback, hf, Bool.not_true,
          gt_iff_lt, hgt, hframe, htake, reset_in_buf, update_in_buf, ne_eq,
          not_true_eq_false, false_and]
  · simp only [hge, if_false]
    refine ⟨{ data := { buf.data with mem := (mem_blit buf.data.mem buf.pos c),
                                      len := buf.data.len + c.length },
              pos := buf.pos + c.length }, ?_, ?_⟩
    · refine ⟨?_, hlen', hB⟩
      show buf.pos + c.length = (R ++ c).length
      rw [hpos, List.length_append]
    · unfold read_buffers
      simp only [hdie, Bool.false_eq_true, if_false, hbuf, hrem, Bool.not_false, if_true, hgot,
        hc, hpol, hlen', ge_iff_le, hge]

/-- C18, instance: CHARACTER(4) with `01` buffered and `23xyz` read: the frame
is `0123`, the buffer keeps `xyz`. -/
theorem character_frame_delivered_witness :
    ∃ buf1, buffer_holds buf1
        (if 4 ≤ (bytes_of "01" ++ bytes_of "23xyz").length
         then (bytes_of "01" ++ bytes_of "23xyz").drop 4 else bytes_of "01" ++ bytes_of "23xyz") ∧
      read_buffers 16 accepting_callbacks (0 + 1)
          { policy := io_policy.BUFFER_CHARACTER, nchars := 4,
            in_buf := some { data := { mem := bytes_of "01" ++ List.replicate 14 0, len := 2,
                                       size := 16 }, pos := 2 } }
          false (io_result.data (bytes_of "23xyz")) =
        some { ({ policy := io_policy.BUFFER_CHARACTER, nchars := 4,
                  in_buf := some { data := { mem := bytes_of "01" ++ List.replicate 14 0, len := 2,
                                             size := 16 }, pos := 2 } } :
                  rspamd_io_dispatcher_t) with
               in_buf := some buf1,
               log := (if 4 ≤ (bytes_of "01" ++ bytes_of "23xyz").length
                       then [] ++ [dispatcher_event.read_cb
                          ((bytes_of "01" ++ bytes_of "23xyz").take 4)]
                       else []) } :=
  character_frame_delivered 16 accepting_callbacks (fun _ d => (true, d)) rfl (fun _ _ => rfl) 0
    { policy := io_policy.BUFFER_CHARACTER, nchars := 4,
      in_buf := some { data := { mem := bytes_of "01" ++ List.replicate 14 0, len := 2,
                                 size := 16 }, pos := 2 } }
    { data := { mem := bytes_of "01" ++ List.replicate 14 0, len := 2, size := 16 }, pos := 2 }
    (bytes_of "01") (bytes_of "23xyz") rfl rfl rfl
    ⟨by decide, by decide, by decide⟩ (by decide) (by decide)

/-! ## Change of policy inside a callback -/

/-- C15: a dispatcher in LINE policy reads the chunk `c`; the buffered bytes
are then `line ++ '\n' :: rest` with no newline in `line`.  The read callback,
called with the frame of `line`, returns true and leaves a dispatcher `d2`
with another policy whose input buffer still holds the same bytes.  Then what
`read_buffers` does is: move `rest` to the head of the input buffer (in
order) and run `read_buffers (fd, d, TRUE)` on the result, that is, scan
`rest` under the new policy within the same invocation. -/
theorem line_policy_change (bufsiz : Nat) (cbs : dispatcher_callbacks)
    (f : List Nat → rspamd_io_dispatcher_t → Bool × rspamd_io_dispatcher_t)
    (hcb : cbs.read_callback = some f) (fuel : Nat) (d d2 : rspamd_io_dispatcher_t)
    (buf buf2 : rspamd_buffer_t) (R c line rest : List Nat)
    (hpol : d.policy = io_policy.BUFFER_LINE) (hdie : d.wanna_die = false)
    (hbuf : d.in_buf = some buf) (hR : buffer_holds buf R)
    (hc : c ≠ []) (hfit : R.length + c.length ≤ buf.data.size)
    (hsplit : R ++ c = line ++ 10 :: rest) (hline : 10 ∉ line)
    (hcall : f (line_frame d.strip_eol line)
        { d with in_buf := (some (buffer_after_read buf c)),
                 log := (d.log ++ [dispatcher_event.read_cb (line_frame d.strip_eol line)]) } =
      (true, d2))
    (hchg : d2.policy ≠ io_policy.BUFFER_LINE) (hbuf2 : d2.in_buf = some buf2)
    (hkeep : buf2.data.len = (R ++ c).length ∧ buf2.data.mem.take (R ++ c).length = R ++ c) :
    buffer_holds (buffer_drained buf2 rest) rest ∧
    read_buffers bufsiz cbs (fuel + 1) d false (io_result.data c) =
      read_buffers bufsiz cbs fuel { d2 with in_buf := (some (buffer_drained buf2 rest)) } true
        (io_result.data c) := by
  refine ⟨⟨rfl, rfl, take_mem_blit_zero _ _⟩, ?_⟩
  obtain ⟨hpos, hlen, hmem⟩ := hR
  obtain ⟨hk1, hk2⟩ := hkeep
  have hclen : 0 < c.length := List.length_pos.mpr hc
  have hrem : BUFREMAIN buf ≠ 0 := by rw [BUFREMAIN_of_le buf (by omega)]; omega
  have hgot : c.take (BUFREMAIN buf) = c := by
    apply List.take_of_length_le
    rw [BUFREMAIN_of_le buf (by omega)]; omega
  have hB : (mem_blit buf.data.mem buf.pos c).take (line ++ 10 :: rest).length =
      line ++ 10 :: rest := by
    rw [← hsplit, hpos]; exact take_mem_blit buf.data.mem R c hmem
  have hlen' : buf.data.len + c.length = (line ++ 10 :: rest).length := by
    rw [← hsplit, hlen, List.length_append]
  have hloop := line_loop_first cbs f hcb (mem_blit buf.data.mem buf.pos c) line rest hB hline
    io_policy.BUFFER_LINE
    { d with in_buf := (some (buffer_after_read buf c)) }
  have hcall' : call_read_callback f (line_frame d.strip_eol line)
      { d with in_buf := (some (buffer_after_read buf c)) } = (true, d2) := hcall
  simp only [hcall'] at hloop
  simp only [Bool.not_true, Bool.false_eq_true, if_false, ne_eq, hchg, not_false_eq_true,
    if_true] at hloop
  have hend : ¬ (buf.pos + c.length = line.length) := by
    have : (line ++ 10 :: rest).length = line.length + (rest.length + 1) := by
      simp only [List.length_append, List.length_cons]
    omega
  have hsrc : mem_slice buf2.data.mem (line.length + 1) (buf2.data.len - line.length - 1) = rest := by
    rw [hsplit] at hk1 hk2
    rw [mem_slice_of_take buf2.data.mem (line ++ 10 :: rest) hk2 _ _ (by
      rw [hk1]; simp only [List.length_append, List.length_cons]; omega)]
    rw [hk1]
    unfold mem_slice
    have e : line.length + 1 = (line ++ [10]).length := by simp
    have e2 : line ++ 10 :: rest = (line ++ [10]) ++ rest := by simp
    rw [e2, e, List.drop_left]
    apply List.take_of_length_le
    simp only [List.length_append, List.length_cons, List.length_nil]
    omega
  conv_lhs => unfold read_buffers
  simp only [hdie, Bool.false_eq_true, if_false, hbuf, hrem, Bool.not_false, if_true, hgot, hc,
    hpol, hlen']
  simp only [buffer_after_read, hdie, hpol, hlen'] at hloop
  rw [hloop]
  simp only [hend, if_false, hbuf2, hsrc, drain_in_buf, update_in_buf, buffer_drained]

set_option maxRecDepth 100000 in
/-- C15, instance: LINE input `GET\n0123xyz` with a switch to CHARACTER(4) in
the callback: `0123xyz` is moved to the head and scanned as CHARACTER(4); the
whole invocation delivers `GET`, then `0123`, and leaves `xyz` buffered. -/
theorem line_policy_change_witness :
    (buffer_holds (buffer_drained (buffer_after_read line_dispatcher_buf
        (bytes_of "GET\n0123xyz")) (bytes_of "0123xyz")) (bytes_of "0123xyz") ∧
     read_buffers 16 (switching_callbacks io_policy.BUFFER_CHARACTER 4) (1 + 1) line_dispatcher
        false (io_result.data (bytes_of "GET\n0123xyz")) =
      read_buffers 16 (switching_callbacks io_policy.BUFFER_CHARACTER 4) 1
        { line_dispatcher_switched with
            in_buf := (some (buffer_drained (buffer_after_read line_dispatcher_buf
              (bytes_of "GET\n0123xyz")) (bytes_of "0123xyz"))) }
        true (io_result.data (bytes_of "GET\n0123xyz"))) ∧
    (read_buffers 16 (switching_callbacks io_policy.BUFFER_CHARACTER 4) 2 line_dispatcher false
        (io_result.data (bytes_of "GET\n0123xyz"))).map
      (fun d => (d.log, d.policy, d.in_buf.map (fun b => (b.data.mem.take b.data.len, b.pos)))) =
      some ([dispatcher_event.read_cb (bytes_of "GET"), dispatcher_event.read_cb (bytes_of "0123")],
            io_policy.BUFFER_CHARACTER, some (bytes_of "xyz", 3)) :=
  ⟨line_policy_change 16 (switching_callbacks io_policy.BUFFER_CHARACTER 4)
      (fun _ d => (true, rspamd_set_dispatcher_policy 16 d io_policy.BUFFER_CHARACTER 4)) rfl 1
      line_dispatcher line_dispatcher_switched line_dispatcher_buf
      (buffer_after_read line_dispatcher_buf (bytes_of "GET\n0123xyz"))
      [] (bytes_of "GET\n0123xyz") (bytes_of "GET") (bytes_of "0123xyz")
      rfl rfl rfl ⟨rfl, rfl, rfl⟩ (by decide) (by decide) (by decide) (by decide) (by decide)
      (by decide) (by decide) ⟨by decide, by decide⟩,
   by decide⟩

set_option maxRecDepth 100000 in
/-- C16 (evaluation of the code): a dispatcher in CHARACTER(4) policy whose
callback switches to LINE.  With `0123a\nb\n` read (4 bytes remain after the
frame) only `0123` is delivered and `a\nb\n` stays buffered, unscanned; with
`0123a\nb\nc` read (5 bytes remain) the remainder is rescanned at once and
`a` and `b` are delivered too. -/
theorem character_policy_change_example :
    (read_buffers 16 (switching_callbacks io_policy.BUFFER_LINE 0) 3
        (dispatcher_holding io_policy.BUFFER_CHARACTER 4 []) false
        (io_result.data (bytes_of "0123a\nb\n"))).map
      (fun d => (d.log, d.policy, d.in_buf.map (fun b => (b.data.mem.take b.data.len, b.pos)))) =
      some ([dispatcher_event.read_cb (bytes_of "0123")],
            io_policy.BUFFER_LINE, some (bytes_of "a\nb\n", 4)) ∧
    (read_buffers 16 (switching_callbacks io_policy.BUFFER_LINE 0) 3
        (dispatcher_holding io_policy.BUFFER_CHARACTER 4 []) false
        (io_result.data (bytes_of "0123a\nb\nc"))).map
      (fun d => (d.log, d.policy, d.in_buf.map (fun b => (b.data.mem.take b.data.len, b.pos)))) =
      some ([dispatcher_event.read_cb (bytes_of "0123"), dispatcher_event.read_cb (bytes_of "a"),
             dispatcher_event.read_cb (bytes_of "b")],
            io_policy.BUFFER_LINE, some (bytes_of "c", 1)) := by
  exact ⟨by decide, by decide⟩

set_option maxRecDepth 100000 in
/-- C17 (evaluation of the code): a dispatcher in ANY policy reads `ab\n`; its
callback switches to LINE.  The frame `ab\n` is delivered, the buffer is not
emptied before `read_buffers (fd, d, TRUE)` runs, and the same bytes are
delivered again as the LINE frame `ab`. -/
theorem any_policy_change_delivers_twice :
    (read_buffers 16 (switching_callbacks io_policy.BUFFER_LINE 0) 3
        (dispatcher_holding io_policy.BUFFER_ANY 0 []) false
        (io_result.data (bytes_of "ab\n"))).map (fun d => d.log) =
      some [dispatcher_event.read_cb (bytes_of "ab\n"), dispatcher_event.read_cb (bytes_of "ab")] := by
  decide

/-- C17 (what the code does): a dispatcher in ANY policy whose input buffer
holds `R` reads the chunk `c`.  The read callback is called once with all buffered bytes
`R ++ c` as the frame.  If it returns true and leaves the policy ANY, the
input buffer is then emptied (`len = 0`, `pos = begin`); if it returns true
and changes the policy, the buffer is kept as the callback left it and
`read_buffers (fd, d, TRUE)` scans it under the new policy. -/
theorem any_frame_delivered (bufsiz : Nat) (cbs : dispatcher_callbacks)
    (f : List Nat → rspamd_io_dispatcher_t → Bool × rspamd_io_dispatcher_t)
    (hcb : cbs.read_callback = some f) (fuel : Nat) (d d2 : rspamd_io_dispatcher_t)
    (buf : rspamd_buffer_t) (R c : List Nat)
    (hpol : d.policy = io_policy.BUFFER_ANY) (hdie : d.wanna_die = false)
    (hbuf : d.in_buf = some buf) (hR : buffer_holds buf R)
    (hc : c ≠ []) (hfit : R.length + c.length ≤ buf.data.size)
    (hcall : f (R ++ c)
        { d with in_buf := (some (buffer_after_read buf c)),
                 log := (d.log ++ [dispatcher_event.read_cb (R ++ c)]) } = (true, d2)) :
    read_buffers bufsiz cbs (fuel + 1) d false (io_result.data c) =
      if d2.policy = io_policy.BUFFER_ANY then
        update_in_buf d2 (fun b => { data := { b.data with len := 0 }, pos := 0 })
      else read_buffers bufsiz cbs fuel d2 true (io_result.data c) := by
  obtain ⟨hpos, hlen, hmem⟩ := hR
  have hclen : 0 < c.length := List.length_pos.mpr hc
  have hrem : BUFREMAIN buf ≠ 0 := by rw [BUFREMAIN_of_le buf (by omega)]; omega
  have hgot : c.take (BUFREMAIN buf) = c := by
    apply List.take_of_length_le
    rw [BUFREMAIN_of_le buf (by omega)]; omega
  have hB : (mem_blit buf.data.mem buf.pos c).take (R ++ c).length = R ++ c := by
    rw [hpos]; exact take_mem_blit buf.data.mem R c hmem
  have hlen' : buf.data.len + c.length = (R ++ c).length := by
    rw [hlen, List.length_append]
  have hframe : mem_slice (mem_blit buf.data.mem buf.pos c) 0 (R ++ c).length = R ++ c := by
    unfold mem_slice; simpa using hB
  have hcall' : call_read_callback f (R ++ c)
      { d with in_buf := (some (buffer_after_read buf c)) } = (true, d2) := hcall
  simp only [buffer_after_read, hdie, hpol, hlen'] at hcall'
  conv_lhs => unfold read_buffers
  simp only [hdie, Bool.false_eq_true, if_false, hbuf, hrem, Bool.not_false, if_true, hgot, hc,
    hpol, hlen', hcb, hframe, hcall', Bool.not_true, ne_eq, reset_in_buf]
  by_cases h2 : d2.policy = io_policy.BUFFER_ANY
  · simp [h2]
  · simp [h2]

set_option maxRecDepth 100000 in
/-- C17 (what the code does), instance: ANY policy, `abc` read, the callback leaves the
dispatcher alone: one frame `abc`, then the buffer is empty. -/
theorem any_frame_delivered_witness :
    read_buffers 16 accepting_callbacks (0 + 1) (dispatcher_holding io_policy.BUFFER_ANY 0 [])
        false (io_result.data (bytes_of "abc")) =
      if ({ dispatcher_holding io_policy.BUFFER_ANY 0 [] with
              in_buf := (some (buffer_after_read line_dispatcher_buf (bytes_of "abc"))),
              log := [dispatcher_event.read_cb (bytes_of "abc")] } :
            rspamd_io_dispatcher_t).policy = io_policy.BUFFER_ANY then
        update_in_buf
          { dispatcher_holding io_policy.BUFFER_ANY 0 [] with
              in_buf := (some (buffer_after_read line_dispatcher_buf (bytes_of "abc"))),
              log := [dispatcher_event.read_cb (bytes_of "abc")] }
          (fun b => { data := { b.data with len := 0 }, pos := 0 })
      else read_buffers 16 accepting_callbacks 0
          { dispatcher_holding io_policy.BUFFER_ANY 0 [] with
              in_buf := (some (buffer_after_read line_dispatcher_buf (bytes_of "abc"))),
              log := [dispatcher_event.read_cb (bytes_of "abc")] }
          true (io_result.data (bytes_of "abc")) :=
  any_frame_delivered 16 accepting_callbacks (fun _ d => (true, d)) rfl 0
    (dispatcher_holding io_policy.BUFFER_ANY 0 [])
    { dispatcher_holding io_policy.BUFFER_ANY 0 [] with
        in_buf := (some (buffer_after_read line_dispatcher_buf (bytes_of "abc"))),
        log := [dispatcher_event.read_cb (bytes_of "abc")] }
    line_dispatcher_buf [] (bytes_of "abc") rfl rfl rfl ⟨rfl, rfl, rfl⟩ (by decide) (by decide)
    (by decide)

/-! ## Order of the bytes written -/

set_option maxRecDepth 100000 in
/-- C1 (evaluation of the code): after the delayed writes `A`, `BC`, `DEF`, a
socket that accepts 2 bytes per readiness has received `ABDECF` when the queue
has drained (the queue is empty and read interest is registered), because
`write_buffers` reverses the queue again at every call; a socket that takes
everything at once receives `ABCDEF`. -/
theorem write_order_example :
    (writable_events accepting_callbacks two_bytes_per_readiness
        (three_writes accepting_callbacks)).sent = bytes_of "ABDECF" ∧
    (writable_events accepting_callbacks two_bytes_per_readiness
        (three_writes accepting_callbacks)).out_buffers = [] ∧
    (writable_events accepting_callbacks two_bytes_per_readiness
        (three_writes accepting_callbacks)).ev = ev_interest.ev_read ∧
    (writable_events accepting_callbacks
        [[write_result.wrote 3, write_result.wrote 3, write_result.wrote 3]]
        (three_writes accepting_callbacks)).sent = bytes_of "ABCDEF" := by
  exact ⟨by decide, by decide, by decide, by decide⟩

/-! ## Long labels -/

set_option maxRecDepth 100000 in
/-- C21 (evaluation of the code): for the name `aaa...a.com` whose first label
has 64 characters `format_dns_name` stores the length octet 64 followed by all
64 characters, whatever the uninitialised `label_len` held (0 or 1000): a
label that is not the last one is not cut.  For `com.aaa...a`, whose last
label has 64 characters, the octet stored is 63 and 63 characters follow. -/
theorem format_dns_name_long_label :
    (format_dns_name 0 (request_for_name (fun _ => 0xAA) 68) long_first_label 0).map
      (fun r => (r.pos, (r.packet.drop 12).take 71)) =
      some (83, [64] ++ List.replicate 64 97 ++ [3, 99, 111, 109, 0xAA, 0]) ∧
    (format_dns_name 1000 (request_for_name (fun _ => 0xAA) 68) long_first_label 0).map
      (fun r => (r.packet.drop 12).take 66) =
      some ([64] ++ List.replicate 64 97 ++ [3]) ∧
    (format_dns_name 0 (request_for_name (fun _ => 0xAA) 68) long_last_label 0).map
      (fun r => (r.pos, (r.packet.drop 12).take 70)) =
      some (82, [3, 99, 111, 109, 63] ++ List.replicate 63 97 ++ [0xAA, 0]) := by
  decide

/-! ## Retransmission -/

/-- C22: let a request have its timer armed and its retransmit count at 0 (the
state after a successful first send), let server selection always return a
server and `make_udp_socket` never fail.  At every expiry `dns_timer_cb`
increments the count and leaves the timer armed exactly when the new count is
below `max_retransmits`; the timer expires `max_retransmits` times in all (once
if `max_retransmits` is 0) and is not armed afterwards. -/
theorem dns_timer_cb_rearms (picks : Nat → Option Nat) (mksocks : Nat → Int)
    (resolver : rspamd_dns_resolver) (req : rspamd_dns_request) (fuel : Nat)
    (hmax : resolver.max_retransmits < 4294967296)
    (hpick : ∀ n, ∃ i, picks n = some i ∧ i < resolver.servers.length)
    (hsock : ∀ n, mksocks n ≠ -1)
    (h0 : req.retransmits = 0) (harmed : req.id ∈ resolver.timers)
    (hfuel : max 1 resolver.max_retransmits ≤ fuel) :
    (∀ (n c : Nat) (r : rspamd_dns_resolver), c < 4294967295 →
      r.max_retransmits = resolver.max_retransmits →
      r.servers.length = resolver.servers.length →
      (dns_timer_cb (picks n) (mksocks n) r { req with retransmits := c }).2.retransmits = c + 1 ∧
      (req.id ∈ (dns_timer_cb (picks n) (mksocks n) r { req with retransmits := c }).1.timers ↔
        c + 1 < resolver.max_retransmits)) ∧
    (timer_expiries picks mksocks fuel 0 resolver req).1 = max 1 resolver.max_retransmits ∧
    req.id ∉ (timer_expiries picks mksocks fuel 0 resolver req).2.1.timers := by
  constructor
  · intro n c r hc hm hl
    obtain ⟨i, hp, hi⟩ := hpick n
    have h := dns_timer_cb_step (picks n) (mksocks n) r { req with retransmits := c } i hp
      (by rw [hl]; exact hi) (hsock n) (by simpa using Nat.add_lt_add_right hc 1)
    rw [hm] at h
    exact ⟨h.1, h.2.2.2.2⟩
  · have h := timer_expiries_count picks mksocks resolver.max_retransmits resolver.servers.length
      hmax hpick hsock fuel 0 resolver req rfl rfl (by rw [h0]; omega) harmed (by omega)
    rw [h0] at h
    exact h

/-- C22, instance: `max_retransmits = 3`, two servers chosen in turn; the
timer of the request in flight under `0xABCD` expires exactly three times. -/
theorem dns_timer_cb_rearms_witness :
    (∀ (n c : Nat) (r : rspamd_dns_resolver), c < 4294967295 →
      r.max_retransmits = retry_resolver.max_retransmits →
      r.servers.length = retry_resolver.servers.length →
      (dns_timer_cb (some (n % 2)) 7 r { inflight_request with retransmits := c }).2.retransmits
        = c + 1 ∧
      (inflight_request.id ∈
          (dns_timer_cb (some (n % 2)) 7 r { inflight_request with retransmits := c }).1.timers ↔
        c + 1 < retry_resolver.max_retransmits)) ∧
    (timer_expiries (fun n => some (n % 2)) (fun _ => 7) 3 0 retry_resolver inflight_request).1 =
      max 1 retry_resolver.max_retransmits ∧
    inflight_request.id ∉
      (timer_expiries (fun n => some (n % 2)) (fun _ => 7) 3 0 retry_resolver
        inflight_request).2.1.timers :=
  dns_timer_cb_rearms (fun n => some (n % 2)) (fun _ => 7) retry_resolver inflight_request 3
    (by decide) (fun n => ⟨n % 2, rfl, Nat.mod_lt n (by decide)⟩) (fun _ => (by decide : (7 : Int) ≠ -1)) rfl
    (by decide) (by decide)

/-- C23 (what the code does): `dns_timer_cb` never invokes a user callback and
never changes the table of in-flight requests.  In particular, when the count
of the request in flight under `0xABCD` reaches `max_retransmits = 3`, the
timer is dropped, no callback has run and the request is still in the table. -/
theorem dns_timer_cb_exhausted :
    (∀ (pick : Option Nat) (mksock : Int) (resolver : rspamd_dns_resolver)
        (req : rspamd_dns_request),
      (dns_timer_cb pick mksock resolver req).1.callbacks = resolver.callbacks ∧
      (dns_timer_cb pick mksock resolver req).1.requests = resolver.requests) ∧
    (dns_timer_cb (some 0) 7 (evtimer_del retry_resolver 0xABCD)
        { inflight_request with retransmits := 2 }).2.retransmits = 3 ∧
    (dns_timer_cb (some 0) 7 (evtimer_del retry_resolver 0xABCD)
        { inflight_request with retransmits := 2 }).1.timers = [] ∧
    (dns_timer_cb (some 0) 7 (evtimer_del retry_resolver 0xABCD)
        { inflight_request with retransmits := 2 }).1.callbacks = [] ∧
    requests_lookup (dns_timer_cb (some 0) 7 (evtimer_del retry_resolver 0xABCD)
        { inflight_request with retransmits := 2 }).1 0xABCD = some inflight_request := by
  refine ⟨?_, by decide, by decide, by decide, by decide⟩
  intro pick mksock resolver req
  unfold dns_timer_cb
  simp only
  split
  · exact ⟨rfl, rfl⟩
  · split
    · exact ⟨rfl, rfl⟩
    · split <;> exact ⟨rfl, rfl⟩

/-- C24 (what the code does): `dns_timer_cb` never sends anything: the
datagrams handed to `send` and the write events registered are what they were
before.  In particular, at the first expiry for the request in flight under
`0xABCD` (`max_retransmits = 3`) the count becomes 1 and the timer is armed
again without the query having been sent. -/
theorem dns_timer_cb_sends_nothing :
    (∀ (pick : Option Nat) (mksock : Int) (resolver : rspamd_dns_resolver)
        (req : rspamd_dns_request),
      (dns_timer_cb pick mksock resolver req).1.sent = resolver.sent ∧
      (dns_timer_cb pick mksock resolver req).1.io_events = resolver.io_events) ∧
    (dns_timer_cb (some 1) 7 (evtimer_del retry_resolver 0xABCD) inflight_request).2.retransmits
      = 1 ∧
    (dns_timer_cb (some 1) 7 (evtimer_del retry_resolver 0xABCD) inflight_request).2.sock = 6 ∧
    (dns_timer_cb (some 1) 7 (evtimer_del retry_resolver 0xABCD) inflight_request).1.timers
      = [0xABCD] ∧
    (dns_timer_cb (some 1) 7 (evtimer_del retry_resolver 0xABCD) inflight_request).1.sent
      = [] := by
  refine ⟨?_, by decide, by decide, by decide, by decide⟩
  intro pick mksock resolver req
  unfold dns_timer_cb
  simp only
  split
  · exact ⟨rfl, rfl⟩
  · split
    · exact ⟨rfl, rfl⟩
    · split <;> exact ⟨rfl, rfl⟩

/-- C25: let the packet be built, a server be chosen whose socket exists or
can be created, and `send` take the whole packet (`req->pos` bytes).  Then
`make_dns_request` returns `TRUE`; the request is stored in
`resolver->requests` under its own id, its timer is armed, its `tv` holds the
resolver's request timeout split into seconds and microseconds, its retransmit
count is 0, and the packet was handed to `send` once. -/
theorem make_dns_request_full_send (be : Bool) (fuel : Nat) (p p1 : dns_k_permutor) (junk : Nat → Nat)
    (label_len0 : Nat) (mksock : Int) (k : Nat) (resolver : rspamd_dns_resolver)
    (type : rspamd_request_type) (name : List Nat) (a : Nat) (req : rspamd_dns_request) (i : Nat)
    (hpkt : make_dns_request_packet be fuel p junk label_len0 type name a = some (req, p1))
    (hi : i < resolver.servers.length)
    (hsock : (resolver.servers.get ⟨i, hi⟩).sock ≠ -1 ∨ mksock ≠ -1)
    (hk : req.pos ≤ k) :
    ∃ resolver1 req1,
      make_dns_request be fuel p junk label_len0 (some i) mksock (write_result.wrote k) resolver
        type name a = some (true, resolver1, p1) ∧
      requests_lookup resolver1 req1.id = some req1 ∧
      req1.id = req.id ∧ req1.packet = req.packet ∧ req1.pos = req.pos ∧
      req1.id ∈ resolver1.timers ∧
      req1.tv_sec = resolver.request_timeout / 1000 ∧
      req1.tv_usec = (resolver.request_timeout - resolver.request_timeout / 1000 * 1000) * 1000 ∧
      req1.retransmits = 0 ∧ req1.sock ≠ -1 ∧
      resolver1.sent = resolver.sent ++ [(req1.sock, req.packet.take req.pos)] := by
  have hs : (if (resolver.servers.get ⟨i, hi⟩).sock = -1
      then ({ resolver.servers.get ⟨i, hi⟩ with sock := mksock } : rspamd_dns_server)
      else resolver.servers.get ⟨i, hi⟩).sock ≠ -1 := by
    split
    · rename_i h
      rcases hsock with h1 | h1
      · exact absurd h h1
      · exact h1
    · assumption
  have hmin : min k req.pos = req.pos := Nat.min_eq_right hk
  unfold make_dns_request
  rw [hpkt]
  simp only [get_upstream_round_robin_some resolver i hi, select_socket, hs, if_false,
    send_dns_request, hmin, Nat.lt_irrefl, if_true]
  refine ⟨_, { req with
      retransmits := 0, server := some i,
      sock := (if (resolver.servers.get ⟨i, hi⟩).sock = -1
        then ({ resolver.servers.get ⟨i, hi⟩ with sock := mksock } : rspamd_dns_server)
        else resolver.servers.get ⟨i, hi⟩).sock,
      tv_sec := resolver.request_timeout / 1000,
      tv_usec := (resolver.request_timeout - resolver.request_timeout / 1000 * 1000) * 1000 },
    rfl, ?_, ?_, ?_, ?_, ?_, ?_, ?_, ?_, ?_, ?_⟩
  · exact requests_lookup_insert _ _ _
  · rfl
  · rfl
  · rfl
  · simp only [requests_insert]
    exact mem_evtimer_add _ _
  · rfl
  · rfl
  · rfl
  · exact hs
  · rfl

set_option maxRecDepth 100000 in
/-- C25, instance: the A query for `example.com` (30 bytes, id 2616) sent in
full to the second server of `retry_resolver`, whose timeout is 1500 ms. -/
theorem make_dns_request_full_send_witness :
    ∃ resolver1 req1,
      make_dns_request false 4 resolver_permutor (fun _ => 0xAA) 0 (some 1) 7 (write_result.wrote 30)
        retry_resolver rspamd_request_type.DNS_REQUEST_A example_com 0 =
        some (true, resolver1, example_query.2) ∧
      requests_lookup resolver1 req1.id = some req1 ∧
      req1.id = example_query.1.id ∧ req1.packet = example_query.1.packet ∧
      req1.pos = example_query.1.pos ∧
      req1.id ∈ resolver1.timers ∧
      req1.tv_sec = retry_resolver.request_timeout / 1000 ∧
      req1.tv_usec =
        (retry_resolver.request_timeout - retry_resolver.request_timeout / 1000 * 1000) * 1000 ∧
      req1.retransmits = 0 ∧ req1.sock ≠ -1 ∧
      resolver1.sent = retry_resolver.sent ++
        [(req1.sock, example_query.1.packet.take example_query.1.pos)] :=
  make_dns_request_full_send false 4 resolver_permutor example_query.2 (fun _ => 0xAA) 0 7 30
    retry_resolver rspamd_request_type.DNS_REQUEST_A example_com 0 example_query.1 1
    (by decide) (by decide) (Or.inl (by decide)) (by decide)

/-! ## The end of a flush -/

set_option maxRecDepth 100000 in
/-- C26 (counterexample): one byte is queued and a writable event lets
`write_buffers` write it, so the queue drains; the write callback returns
`FALSE`.  Then `write_buffers` returns `FALSE` with the callback invoked once
and the queue empty, but the read event is not registered: the registration is
still the one for `EV_WRITE`. -/
theorem write_buffers_callback_false :
    (write_buffers (write_callbacks false)
        (rspamd_dispatcher_write (write_callbacks false) {} (bytes_of "A") 1 true false []).2.1
        true [write_result.wrote 1]).1 = false ∧
    (write_buffers (write_callbacks false)
        (rspamd_dispatcher_write (write_callbacks false) {} (bytes_of "A") 1 true false []).2.1
        true [write_result.wrote 1]).2.1.log = [dispatcher_event.write_cb] ∧
    (write_buffers (write_callbacks false)
        (rspamd_dispatcher_write (write_callbacks false) {} (bytes_of "A") 1 true false []).2.1
        true [write_result.wrote 1]).2.1.out_buffers = [] ∧
    (write_buffers (write_callbacks false)
        (rspamd_dispatcher_write (write_callbacks false) {} (bytes_of "A") 1 true false []).2.1
        true [write_result.wrote 1]).2.1.sent = bytes_of "A" ∧
    (write_buffers (write_callbacks false)
        (rspamd_dispatcher_write (write_callbacks false) {} (bytes_of "A") 1 true false []).2.1
        true [write_result.wrote 1]).2.1.ev = ev_interest.ev_write := by
  decide

/-- C26 (amended): let the loop of `write_buffers` end with `cur == NULL`, and
let the write callback, if one is set, return `TRUE` and leave the queue and
the other callbacks alone.  Then `write_buffers` returns `TRUE`, the queue is
empty and the read event is registered; the write callback was invoked exactly
once if `is_delayed` holds and a write callback is set, and no callback was
invoked otherwise. -/
theorem write_buffers_drained (cbs : dispatcher_callbacks) (d d1 : rspamd_io_dispatcher_t)
    (is_delayed : Bool) (script script1 : List write_result)
    (hloop : write_buffers_loop cbs (script.length + d.out_buffers.reverse.length + 1) []
      d.out_buffers.reverse script d = flush_result.drained d1 script1)
    (hcb : ∀ f, cbs.write_callback = some f →
      ∀ x, (f x).1 = true ∧ (f x).2.out_buffers = x.out_buffers ∧ (f x).2.log = x.log) :
    (write_buffers cbs d is_delayed script).1 = true ∧
    (write_buffers cbs d is_delayed script).2.1.out_buffers = [] ∧
    (write_buffers cbs d is_delayed script).2.1.ev = ev_interest.ev_read ∧
    (write_buffers cbs d is_delayed script).2.1.log =
      d.log ++ (if is_delayed = true ∧ cbs.write_callback.isSome = true
                then [dispatcher_event.write_cb] else []) := by
  have hinv := write_buffers_loop_inv cbs (script.length + d.out_buffers.reverse.length + 1) []
    d.out_buffers.reverse script d (by omega)
  rw [hloop] at hinv
  simp only at hinv
  unfold write_buffers
  simp only [write_buffers_queue, hloop]
  cases is_delayed with
  | false =>
    simp only [Bool.false_eq_true, if_false, false_and, List.append_nil]
    exact ⟨trivial, trivial, trivial, hinv.1⟩
  | true =>
    cases hw : cbs.write_callback with
    | none =>
      simp only [if_true, Option.isSome_none, Bool.false_eq_true, and_false, if_false,
        List.append_nil]
      exact ⟨trivial, trivial, trivial, hinv.1⟩
    | some f =>
      obtain ⟨h1, h2, h3⟩ := hcb f hw
        { d1 with out_buffers := [], log := d1.log ++ [dispatcher_event.write_cb] }
      simp only [if_true, call_write_callback, h1, Bool.not_true, Bool.false_eq_true, if_false,
        Option.isSome_some, and_self]
      refine ⟨trivial, ?_, trivial, ?_⟩
      · exact h2
      · rw [h3, ← hinv.1]

set_option maxRecDepth 100000 in
/-- C26 (amended), instance: the queued byte `A` is written at a writable
event; the write callback returns `TRUE`. -/
theorem write_buffers_drained_witness :
    (write_buffers (write_callbacks true) one_queued true [write_result.wrote 1]).1 = true ∧
    (write_buffers (write_callbacks true) one_queued true [write_result.wrote 1]).2.1.out_buffers
      = [] ∧
    (write_buffers (write_callbacks true) one_queued true [write_result.wrote 1]).2.1.ev
      = ev_interest.ev_read ∧
    (write_buffers (write_callbacks true) one_queued true [write_result.wrote 1]).2.1.log =
      one_queued.log ++ (if true = true ∧ (write_callbacks true).write_callback.isSome = true
                then [dispatcher_event.write_cb] else []) :=
  write_buffers_drained (write_callbacks true) one_queued one_written true
    [write_result.wrote 1] [] (by rfl)
    (fun f hf x => by rw [write_callbacks_apply true f hf x]; exact ⟨rfl, rfl, rfl⟩)

/-! ## The registered interest -/

set_option maxRecDepth 100000 in
/-- C27 (counterexample): right after `rspamd_create_dispatcher` the queue is
empty and the dispatcher is not in sendfile mode, yet the registered interest
is write, so (I3) fails.  After the first writable event the interest is read;
a delayed write of one byte then leaves a non-empty queue with the interest
still read, so (I3) fails again. -/
theorem interest_I3_fails :
    (∃ d, rspamd_create_dispatcher 3 io_policy.BUFFER_LINE = some d ∧
      d.out_buffers = [] ∧ d.in_sendfile = false ∧ d.ev = ev_interest.ev_write ∧
      ¬ interest_I3 d) ∧
    (∃ d, ((rspamd_create_dispatcher 3 io_policy.BUFFER_LINE).bind
        (fun d0 => dispatcher_cb true 16 (write_callbacks true) 1 d0
          (reactor_event.EV_WRITE []))).map
      (fun d1 => (rspamd_dispatcher_write (write_callbacks true) d1 (bytes_of "A") 1 true false
        []).2.1) = some d ∧
      d.out_buffers.length = 1 ∧ d.in_sendfile = false ∧ d.ev = ev_interest.ev_read ∧
      ¬ interest_I3 d) := by
  constructor
  · refine ⟨{}, by decide, rfl, rfl, rfl, ?_⟩
    simp [interest_I3]
  · refine ⟨{ one_queued with ev := ev_interest.ev_read }, by decide, rfl, rfl, rfl, ?_⟩
    simp [interest_I3, one_queued, rspamd_dispatcher_write]

/-- C27 (amended): for a dispatcher that is not in sendfile mode and whose
write callback leaves the queue alone, the invariant (I3) holds after
`rspamd_dispatcher_write` with `delayed = FALSE` when it returns `TRUE`, and
after a writable event when `write_buffers`, if it is called, returns `TRUE`:
the interest is write if the queue is not empty and read otherwise. -/
theorem interest_after_flush (have_sendfile : Bool) (bufsiz fuel : Nat)
    (cbs : dispatcher_callbacks) (d : rspamd_io_dispatcher_t) (hsf : d.in_sendfile = false)
    (hcb : ∀ f, cbs.write_callback = some f → ∀ x, (f x).2.out_buffers = x.out_buffers) :
    (∀ (data : List Nat) (len : Nat) (allocated : Bool) (script : List write_result),
      (rspamd_dispatcher_write cbs d data len false allocated script).1 = true →
      interest_I3 (rspamd_dispatcher_write cbs d data len false allocated script).2.1) ∧
    (∀ script : List write_result,
      (d.out_buffers ≠ [] → (write_buffers cbs d true script).1 = true) →
      ∃ d1, dispatcher_cb have_sendfile bufsiz cbs fuel d (reactor_event.EV_WRITE script) =
          some d1 ∧ interest_I3 d1) := by
  constructor
  · intro data len allocated script hret
    unfold rspamd_dispatcher_write at hret ⊢
    simp only [Bool.not_false, if_true] at hret ⊢
    exact write_buffers_interest cbs _ false script hsf hcb hret
  · intro script hret
    unfold dispatcher_cb
    simp only [hsf, Bool.false_eq_true, if_false]
    by_cases hq : d.out_buffers = []
    · simp only [hq, if_true]
      refine ⟨_, rfl, ?_⟩
      simp [interest_I3, hq]
    · simp only [hq, if_false]
      exact ⟨_, rfl, write_buffers_interest cbs d true script hsf hcb (hret hq)⟩

/-- C27 (amended), instance: the dispatcher `one_queued` with a write callback
that returns `TRUE`. -/
theorem interest_after_flush_witness :
    (∀ (data : List Nat) (len : Nat) (allocated : Bool) (script : List write_result),
      (rspamd_dispatcher_write (write_callbacks true) one_queued data len false allocated
        script).1 = true →
      interest_I3 (rspamd_dispatcher_write (write_callbacks true) one_queued data len false
        allocated script).2.1) ∧
    (∀ script : List write_result,
      (one_queued.out_buffers ≠ [] →
        (write_buffers (write_callbacks true) one_queued true script).1 = true) →
      ∃ d1, dispatcher_cb true 16 (write_callbacks true) 1 one_queued
          (reactor_event.EV_WRITE script) = some d1 ∧ interest_I3 d1) :=
  interest_after_flush true 16 1 (write_callbacks true) one_queued (by decide)
    (fun f hf x => by rw [write_callbacks_apply true f hf x])

/-! ## The flag `wanna_die` -/

set_option maxRecDepth 100000 in
/-- C28 (what the code does): with `wanna_die` set, a readable event removes
the dispatcher without invoking a callback.  A timeout event still invokes the
error callback with `ETIMEDOUT` and does not remove the dispatcher; a writable
event still writes the queued byte, invokes the write callback and registers
the read event, and does not remove the dispatcher. -/
theorem wanna_die_checked_on_read_only :
    (∀ (have_sendfile : Bool) (bufsiz fuel : Nat) (cbs : dispatcher_callbacks)
        (d : rspamd_io_dispatcher_t) (rd : io_result),
      dispatcher_cb have_sendfile bufsiz cbs (fuel + 1) { d with wanna_die := true }
        (reactor_event.EV_READ rd) =
        some (rspamd_remove_dispatcher { d with wanna_die := true }) ∧
      (rspamd_remove_dispatcher { d with wanna_die := true }).log =
        d.log ++ [dispatcher_event.removed]) ∧
    (∀ (have_sendfile : Bool) (bufsiz fuel : Nat) (d : rspamd_io_dispatcher_t),
      dispatcher_cb have_sendfile bufsiz (write_callbacks true) fuel { d with wanna_die := true }
        reactor_event.EV_TIMEOUT =
        some { d with wanna_die := true,
                      log := d.log ++ [dispatcher_event.err_cb dispatcher_error.ETIMEDOUT] }) ∧
    (dispatcher_cb true 16 (write_callbacks true) 1 { one_queued with wanna_die := true }
        (reactor_event.EV_WRITE [write_result.wrote 1])).map
      (fun d => (d.wanna_die, d.log, d.sent, d.ev)) =
      some (true, [dispatcher_event.write_cb], bytes_of "A", ev_interest.ev_read) := by
  refine ⟨?_, ?_, by decide⟩
  · intro have_sendfile bufsiz fuel cbs d rd
    constructor
    · simp only [dispatcher_cb]
      unfold read_buffers
      simp
    · rfl
  · intro have_sendfile bufsiz fuel d
    rfl

/-! ## Sendfile -/

set_option maxRecDepth 100000 in
/-- C29 (evaluation of the code): the form of `sendfile_callback` without
`HAVE_SENDFILE`, for the file `ABCDEF`.  The first `write` accepts 2 bytes:
`AB` is sent, the offset becomes 2 and the write event is registered.  At the
next writable event `write (d->fd, d->map, 4)` accepts 4 bytes, which are
`ABCD`, the begin of the mapping; completion is signalled (write callback,
read event, `in_sendfile` cleared) and the socket has received `ABABCD`. -/
theorem sendfile_mmap_restarts :
    (rspamd_dispatcher_sendfile false (write_callbacks true) {} six_bytes 6 true true
        (write_result.wrote 2)).1 = true ∧
    (fun d : rspamd_io_dispatcher_t => (d.offset, d.sent, d.log, d.ev, d.in_sendfile))
      (rspamd_dispatcher_sendfile false (write_callbacks true) {} six_bytes 6 true true
        (write_result.wrote 2)).2 =
      (2, bytes_of "AB", [], ev_interest.ev_write, true) ∧
    (dispatcher_cb false 16 (write_callbacks true) 1
        (rspamd_dispatcher_sendfile false (write_callbacks true) {} six_bytes 6 true true
          (write_result.wrote 2)).2
        (reactor_event.EV_WRITE [write_result.wrote 4])).map
      (fun d => (d.offset, d.sent, d.log, d.ev, d.in_sendfile)) =
      some (2, bytes_of "ABABCD", [dispatcher_event.write_cb], ev_interest.ev_read, false) := by
  decide

set_option maxRecDepth 100000 in
/-- C30 (evaluation of the code): the Linux form of `sendfile_callback`, for
the file `ABCDEF` and `file_size = 6`.  When the first `sendfile` call
transfers 3 bytes the offset is 3, and since `r + d->offset` is 6 completion
is signalled at once (write callback, read event, `in_sendfile` cleared) with
only `ABC` sent.  When the calls transfer 2, 1, 1 and 1 bytes, the write event
is registered after the first three and completion is signalled after the
fourth, at offset 5. -/
theorem sendfile_linux_completes_early :
    (rspamd_dispatcher_sendfile true (write_callbacks true) {} six_bytes 6 true true
        (write_result.wrote 3)).1 = true ∧
    (fun d : rspamd_io_dispatcher_t =>
        (d.offset, d.file_size, d.sent, d.log, d.ev, d.in_sendfile))
      (rspamd_dispatcher_sendfile true (write_callbacks true) {} six_bytes 6 true true
        (write_result.wrote 3)).2 =
      (3, 6, bytes_of "ABC", [dispatcher_event.write_cb], ev_interest.ev_read, false) ∧
    (fun d : rspamd_io_dispatcher_t => (d.offset, d.sent, d.log, d.ev, d.in_sendfile))
      (sendfile_callback true (write_callbacks true)
        (sendfile_callback true (write_callbacks true)
          (rspamd_dispatcher_sendfile true (write_callbacks true) {} six_bytes 6 true true
            (write_result.wrote 2)).2
          (write_result.wrote 1)).2
        (write_result.wrote 1)).2 =
      (4, bytes_of "ABCD", [], ev_interest.ev_write, true) ∧
    (fun d : rspamd_io_dispatcher_t => (d.offset, d.sent, d.log, d.ev, d.in_sendfile))
      (sendfile_callback true (write_callbacks true)
        (sendfile_callback true (write_callbacks true)
          (sendfile_callback true (write_callbacks true)
            (rspamd_dispatcher_sendfile true (write_callbacks true) {} six_bytes 6 true true
              (write_result.wrote 2)).2
            (write_result.wrote 1)).2
          (write_result.wrote 1)).2
        (write_result.wrote 1)).2 =
      (5, bytes_of "ABCDE", [dispatcher_event.write_cb], ev_interest.ev_read, false) := by
  exact ⟨by decide, by decide, by decide, by decide⟩

/-! ## The rounds of the permutation -/

set_option maxRecDepth 100000 in
/-- C33 (what the code does): with `rounds = DNS_K_PERMUTOR_ROUNDS = 8` the
loop of `dns_k_permutor_E` ends with `i = 7`: it has made 7 iterations, each
with one evaluation of `F`, for the round indices 0..6, and the halves it
leaves are those of the 7-round Feistel network.  For the resolver's permutor
with the all-zero key, 7 and 8 rounds give different halves on the input 0. -/
theorem dns_k_permutor_E_seven_rounds :
    (∀ (p : dns_k_permutor) (l r : Nat × Nat),
      (dns_k_permutor_E_loop { p with rounds := DNS_K_PERMUTOR_ROUNDS }
          (sub32 DNS_K_PERMUTOR_ROUNDS 1) (sub32 DNS_K_PERMUTOR_ROUNDS 1 + 1) 0 l r).1 = 7 ∧
      (arr2_get (dns_k_permutor_E_loop { p with rounds := DNS_K_PERMUTOR_ROUNDS }
          (sub32 DNS_K_PERMUTOR_ROUNDS 1) (sub32 DNS_K_PERMUTOR_ROUNDS 1 + 1) 0 l r).2.1 (7 % 2),
       arr2_get (dns_k_permutor_E_loop { p with rounds := DNS_K_PERMUTOR_ROUNDS }
          (sub32 DNS_K_PERMUTOR_ROUNDS 1) (sub32 DNS_K_PERMUTOR_ROUNDS 1 + 1) 0 l r).2.2 (7 % 2)) =
        feistel_iter { p with rounds := DNS_K_PERMUTOR_ROUNDS } 0 7 (l.1, r.1)) ∧
    E_rounds resolver_permutor = 7 ∧
    feistel_iter resolver_permutor 0 7 (0, 0) ≠ feistel_iter resolver_permutor 0 8 (0, 0) := by
  refine ⟨?_, by decide, by decide⟩
  intro p l r
  have h7 : sub32 DNS_K_PERMUTOR_ROUNDS 1 = 7 := by decide
  rw [h7]
  have h := E_loop_spec { p with rounds := DNS_K_PERMUTOR_ROUNDS } 7 (7 + 1) 0 l r (by decide)
  exact h

/-! ## Repeated labels -/

set_option maxRecDepth 100000 in
/-- C34 (what the code does): `try_compress_label` called with an empty table
finds nothing and returns `FALSE` with the packet unchanged, and the table of
`format_dns_name` is empty at every call.  For `a.a.com` the second label `a`
is stored as a label again, no pointer is stored, and `com` and the zero octet
follow as for any other name. -/
theorem format_dns_name_no_compression :
    (∀ (name packet : List Nat) (target start len label : Nat),
      try_compress_label name packet target start len label [] = some (false, packet)) ∧
    (format_dns_name 0 (request_for_name (fun _ => 0xAA) 7) a_a_com 0).map
      (fun r => (r.pos, (r.packet.drop 12).take 10)) =
      some (22, [1, 97, 1, 97, 3, 99, 111, 109, 0xAA, 0]) := by
  refine ⟨?_, by decide⟩
  intro name packet target start len label
  rfl

/-! ## Short datagrams -/

/-- C37: a datagram of at most 96 bytes is not handed to `dns_parse_reply`, and
`dns_read_cb` leaves the resolver (the table of requests, the timers, the
record of callbacks) as it was; a datagram of more than 96 bytes is handed to
`dns_parse_reply` (its first 512 bytes, in the buffer `in`). -/
theorem dns_read_cb_short_datagram (be undef : Bool) (stale : Nat → Nat)
    (resolver : rspamd_dns_resolver) (header : dns_header) (dgram : List Nat)
    (h : dgram.length ≤ 96) :
    dns_read_cb_rep be undef stale resolver header dgram = none ∧
    dns_read_cb be undef stale resolver header dgram = resolver ∧
    (∀ long : List Nat, 96 < long.length →
      dns_read_cb_rep be undef stale resolver header long =
        some (dns_parse_reply be undef
          (long.take UDP_PACKET_SIZE ++ (List.range (UDP_PACKET_SIZE -
            (long.take UDP_PACKET_SIZE).length)).map
              (fun i => stale ((long.take UDP_PACKET_SIZE).length + i)))
          header ((long.take UDP_PACKET_SIZE).length : Int) resolver)) := by
  have hlen : (dgram.take UDP_PACKET_SIZE).length ≤ 96 := by
    rw [List.length_take]; omega
  refine ⟨?_, ?_, ?_⟩
  · unfold dns_read_cb_rep
    simp only
    rw [if_neg (by omega)]
  · unfold dns_read_cb
    simp only
    rw [if_neg (by omega)]
  · intro long hl
    have hl2 : (long.take UDP_PACKET_SIZE).length > 96 := by
      rw [List.length_take]
      have : UDP_PACKET_SIZE = 512 := rfl
      omega
    unfold dns_read_cb_rep
    simp only
    rw [if_pos hl2]

set_option maxRecDepth 100000 in
/-- C37, instance: the 41-byte reply `short_reply` (12-byte header, the
question for `a.io`, one A record) to the request in flight under `0xABCD`.
`dns_parse_reply` would accept it, but it is not called. -/
theorem dns_read_cb_short_datagram_witness :
    (dns_parse_reply true true (short_reply ++ List.replicate 471 0) (reply_header 0xABCD) 41
      short_resolver).map (fun x => x.isSome) = some true ∧
    (dns_read_cb_rep true true (fun _ => 0) short_resolver (reply_header 0xABCD) short_reply
        = none ∧
      dns_read_cb true true (fun _ => 0) short_resolver (reply_header 0xABCD) short_reply
        = short_resolver ∧
      (∀ long : List Nat, 96 < long.length →
        dns_read_cb_rep true true (fun _ => 0) short_resolver (reply_header 0xABCD) long =
          some (dns_parse_reply true true
            (long.take UDP_PACKET_SIZE ++ (List.range (UDP_PACKET_SIZE -
              (long.take UDP_PACKET_SIZE).length)).map
                (fun i => (fun _ => 0) ((long.take UDP_PACKET_SIZE).length + i)))
            (reply_header 0xABCD) ((long.take UDP_PACKET_SIZE).length : Int) short_resolver))) :=
  ⟨by decide, dns_read_cb_short_datagram true true (fun _ => 0) short_resolver
    (reply_header 0xABCD) short_reply (by decide)⟩

/-! ## Setting the policy -/

/-- C38: `rspamd_set_dispatcher_policy (d, p, n)` with `p` the current policy
returns the dispatcher unchanged, whatever `n` is.  In every case the policy
is `p` afterwards, and when `p` differs from the current policy `nchars` is
`n`, or `BUFSIZ` for `n = 0`. -/
theorem set_dispatcher_policy_frame (bufsiz : Nat) (d : rspamd_io_dispatcher_t)
    (p : io_policy) (n : Nat) :
    rspamd_set_dispatcher_policy bufsiz d d.policy n = d ∧
    (rspamd_set_dispatcher_policy bufsiz d p n).policy = p ∧
    (rspamd_set_dispatcher_policy bufsiz d p n).nchars =
      (if d.policy = p then d.nchars else if n = 0 then bufsiz else n) := by
  refine ⟨?_, ?_, ?_⟩
  · unfold rspamd_set_dispatcher_policy
    simp
  · unfold rspamd_set_dispatcher_policy
    by_cases hp : d.policy = p
    · simp [hp]
    · simp only [ne_eq, hp, not_false_eq_true, if_true]
      cases hb : d.in_buf <;> (repeat' split) <;> rfl
  · unfold rspamd_set_dispatcher_policy
    by_cases hp : d.policy = p
    · simp [hp]
    · simp only [ne_eq, hp, not_false_eq_true, if_true, if_false]
      by_cases hn : n = 0
      · simp only [hn, not_true_eq_false, if_false, and_false, if_true]
        cases hb : d.in_buf <;> (repeat' split) <;> rfl
      · simp only [hn, not_false_eq_true, if_true, and_true, if_false]
        cases hb : d.in_buf <;> (repeat' split) <;> rfl

/-! ## The timeout of a request -/

/-- C40: when `make_dns_request` has sent the packet in full, the request
stored under its id has `tv_sec = t / 1000` and `tv_usec = (t % 1000) * 1000`
for the resolver's timeout `t` in milliseconds; hence
`tv_sec * 10^6 + tv_usec = 1000 * t` and `tv_usec < 10^6`. -/
theorem make_dns_request_timeval (be : Bool) (fuel : Nat) (p p1 : dns_k_permutor) (junk : Nat → Nat)
    (label_len0 : Nat) (mksock : Int) (k : Nat) (resolver : rspamd_dns_resolver)
    (type : rspamd_request_type) (name : List Nat) (a : Nat) (req : rspamd_dns_request) (i : Nat)
    (hpkt : make_dns_request_packet be fuel p junk label_len0 type name a = some (req, p1))
    (hi : i < resolver.servers.length)
    (hsock : (resolver.servers.get ⟨i, hi⟩).sock ≠ -1 ∨ mksock ≠ -1)
    (hk : req.pos ≤ k) :
    ∃ resolver1 req1,
      make_dns_request be fuel p junk label_len0 (some i) mksock (write_result.wrote k) resolver
        type name a = some (true, resolver1, p1) ∧
      requests_lookup resolver1 req.id = some req1 ∧
      req1.tv_sec = resolver.request_timeout / 1000 ∧
      req1.tv_usec = (resolver.request_timeout % 1000) * 1000 ∧
      req1.tv_sec * 1000000 + req1.tv_usec = 1000 * resolver.request_timeout ∧
      req1.tv_usec < 1000000 := by
  obtain ⟨resolver1, req1, h1, h2, h3, h4⟩ := make_dns_request_stored be fuel p p1 junk label_len0
    mksock k resolver type name a req i hpkt hi hsock hk
  refine ⟨resolver1, req1, h1, h2, h3, ?_, ?_, ?_⟩
  · rw [h4]; omega
  · rw [h3, h4]; omega
  · rw [h4]; omega

set_option maxRecDepth 100000 in
/-- C40, instance: the A query for `example.com` sent in full to the first
server of `retry_resolver`, whose timeout is 1500 ms: one second and 500000
microseconds. -/
theorem make_dns_request_timeval_witness :
    ∃ resolver1 req1,
      make_dns_request false 4 resolver_permutor (fun _ => 0xAA) 0 (some 0) 7 (write_result.wrote 30)
        retry_resolver rspamd_request_type.DNS_REQUEST_A example_com 0 =
        some (true, resolver1, example_query.2) ∧
      requests_lookup resolver1 example_query.1.id = some req1 ∧
      req1.tv_sec = retry_resolver.request_timeout / 1000 ∧
      req1.tv_usec = (retry_resolver.request_timeout % 1000) * 1000 ∧
      req1.tv_sec * 1000000 + req1.tv_usec = 1000 * retry_resolver.request_timeout ∧
      req1.tv_usec < 1000000 :=
  make_dns_request_timeval false 4 resolver_permutor example_query.2 (fun _ => 0xAA) 0 7 30
    retry_resolver rspamd_request_type.DNS_REQUEST_A example_com 0 example_query.1 0
    (by decide) (by decide) (Or.inl (by decide)) (by decide)

/-! ## A full input buffer -/

/-- C32: let the dispatcher not be marked `wanna_die`, its input buffer exist
with the cursor at `begin + size` (no free space), and an error callback be
set.  Then `read_buffers` ends by the call of the error callback with `E2BIG`:
the dispatcher handed to it is the one on entry, with the same input buffer,
and this call is the only entry added to the record of callbacks; the result
does not depend on `skip_read` or on what `read` would return. -/
theorem read_buffers_full (bufsiz : Nat) (cbs : dispatcher_callbacks) (fuel : Nat)
    (d : rspamd_io_dispatcher_t) (b : rspamd_buffer_t)
    (f : dispatcher_error → rspamd_io_dispatcher_t → rspamd_io_dispatcher_t)
    (skip_read : Bool) (rd : io_result)
    (hdie : d.wanna_die = false) (hbuf : d.in_buf = some b) (hfull : b.pos = b.data.size)
    (herr : cbs.err_callback = some f) :
    BUFREMAIN b = 0 ∧
    read_buffers bufsiz cbs (fuel + 1) d skip_read rd =
      some (f dispatcher_error.E2BIG
        { d with log := d.log ++ [dispatcher_event.err_cb dispatcher_error.E2BIG] }) := by
  have hrem : BUFREMAIN b = 0 := by
    rw [BUFREMAIN_of_le b (by omega)]; omega
  refine ⟨hrem, ?_⟩
  have hd : { d with in_buf := some b } = d := by
    cases d
    simp only at hbuf
    simp [hbuf]
  unfold read_buffers
  simp only [hdie, Bool.false_eq_true, if_false, hbuf, hrem, if_true, herr, call_err_callback, hd]

set_option maxRecDepth 100000 in
/-- C32, instance: a 16-byte buffer filled by 16 characters without a newline;
the error callback leaves the dispatcher alone. -/
theorem read_buffers_full_witness :
    BUFREMAIN { data := { mem := bytes_of "0123456789abcdef", len := 16, size := 16 },
                pos := 16 } = 0 ∧
    read_buffers 16 read_err_callbacks (0 + 1) full_dispatcher false
        (io_result.data (bytes_of "x\n")) =
      some ((fun _ d => d) dispatcher_error.E2BIG
        { full_dispatcher with
            log := full_dispatcher.log ++ [dispatcher_event.err_cb dispatcher_error.E2BIG] }) :=
  read_buffers_full 16 read_err_callbacks 0 full_dispatcher
    { data := { mem := bytes_of "0123456789abcdef", len := 16, size := 16 }, pos := 16 }
    (fun _ d => d) false (io_result.data (bytes_of "x\n")) (by decide) (by decide) (by decide) rfl

/-! ## The inverse permutation -/

/-- C35: for a permutor with `mask = 2^shift - 1`, `shift ≤ 16` and at least two
rounds (as `dns_k_permutor_init` leaves it, whatever the key) and every
`n < 2^(2*shift)`: `dns_k_permutor_D` returns, `D (E (n)) = n` and
`E (D (n)) = n`; `E` maps `[0, 2^(2*shift))` into itself, takes the value
`E (n)` only at `n` there, and takes the value `n` somewhere there. -/
theorem permutor_D_inverts_E (p : dns_k_permutor) (fuel n : Nat)
    (hm : p.mask = 2 ^ p.shift - 1) (hs : p.shift ≤ 16)
    (hr : 2 ≤ p.rounds) (hr2 : p.rounds < 4294967296) (hf : p.rounds ≤ fuel + 1)
    (hn : n < 2 ^ (2 * p.shift)) :
    dns_k_permutor_D fuel p (dns_k_permutor_E p n) = some n ∧
    (∃ m, dns_k_permutor_D fuel p n = some m ∧ m < 2 ^ (2 * p.shift) ∧
      dns_k_permutor_E p m = n) ∧
    dns_k_permutor_E p n < 2 ^ (2 * p.shift) ∧
    (∀ m, m < 2 ^ (2 * p.shift) → dns_k_permutor_E p m = dns_k_permutor_E p n → m = n) ∧
    (∃ j, j < 2 ^ (2 * p.shift) ∧ dns_k_permutor_E p j = n) := by
  have hW : 2 ^ (2 * p.shift) = 2 ^ p.shift * 2 ^ p.shift := by
    rw [Nat.two_mul, Nat.pow_add]
  rw [hW] at hn ⊢
  refine ⟨D_E p hm hs hr hr2 fuel hf n hn, E_D p hm hs hr hr2 fuel hf n hn, E_lt p hm hs n, ?_,
    E_surj p hm hs n hn⟩
  intro m hmlt h
  exact E_inj p hm hs m n hmlt hn h

set_option maxRecDepth 100000 in
/-- C35, instance: the resolver's permutor (`shift = 8`, 8 rounds, all-zero
key) and `n = 1234`. -/
theorem permutor_D_inverts_E_witness :
    dns_k_permutor_D 7 resolver_permutor (dns_k_permutor_E resolver_permutor 1234) = some 1234 ∧
    (∃ m, dns_k_permutor_D 7 resolver_permutor 1234 = some m ∧
      m < 2 ^ (2 * resolver_permutor.shift) ∧ dns_k_permutor_E resolver_permutor m = 1234) ∧
    dns_k_permutor_E resolver_permutor 1234 < 2 ^ (2 * resolver_permutor.shift) ∧
    (∀ m, m < 2 ^ (2 * resolver_permutor.shift) →
      dns_k_permutor_E resolver_permutor m = dns_k_permutor_E resolver_permutor 1234 →
      m = 1234) ∧
    (∃ j, j < 2 ^ (2 * resolver_permutor.shift) ∧ dns_k_permutor_E resolver_permutor j = 1234) :=
  permutor_D_inverts_E resolver_permutor 7 1234 (by decide) (by decide) (by decide) (by decide)
    (by decide) (by decide)

/-! ## The length of the cycle walk -/

/-- C36: for every key and every range `low ≤ high < 2^32` with
`L = high - low + 1 ≤ 2^31`, from the state produced by `dns_k_permutor_init`
with its step counter at any 32-bit value `s`, `dns_k_permutor_step` returns
after some number `k` of evaluations of `E` with `1 ≤ k ≤ 2^(2*shift) - L + 1`:
the inputs `s, s+1, ..., s+k-2` (mod `2^32`) give outputs that are not below
`L`, the input `s+k-1` gives one below `L`, `k` loop iterations suffice, and
the step counter is `s + k` (mod `2^32`) afterwards. -/
theorem permutor_step_walk_bound (k0 k1 k2 k3 low high s : Nat) (hlh : low ≤ high)
    (hh : high < 4294967296) (hL : high - low + 1 ≤ 2147483648) (hs : s < 4294967296) :
    ∃ p, dns_k_permutor_init k0 k1 k2 k3 low high = some p ∧
      ∃ k v, 1 ≤ k ∧ k + (high - low + 1) ≤ 2 ^ (2 * p.shift) + 1 ∧
        (∀ j, j + 1 < k → dns_k_permutor_E p (w32 (s + j)) ≥ high - low + 1) ∧
        dns_k_permutor_E p (w32 (s + (k - 1))) < high - low + 1 ∧
        ∀ fuel, k ≤ fuel →
          dns_k_permutor_step fuel { p with stepi := s } =
            some (v, { p with stepi := w32 (s + k) }) := by
  obtain ⟨p, hp, hi⟩ := init_spec k0 k1 k2 k3 low high hlh hh hL
  refine ⟨p, hp, ?_⟩
  have hW : 2 ^ (2 * p.shift) = 2 ^ p.shift * 2 ^ p.shift := by
    rw [Nat.two_mul, Nat.pow_add]
  have hlen := hi.length
  obtain ⟨k, hk, hmiss, hhit⟩ := first_hit p hi.mask hi.shift (by omega) hi.fits s
  refine ⟨k + 1, w32 (dns_k_permutor_E p (w32 (s + k)) + sub32 (w32 (p.limit + 1)) p.length),
    by omega, by rw [hW]; omega, ?_, ?_, ?_⟩
  · intro j hj
    rw [← hlen]
    exact hmiss j (by omega)
  · rw [← hlen, Nat.add_sub_cancel]
    exact hhit
  · intro fuel hf
    have := step_first_hit k fuel { p with stepi := s } (by omega) hi.mask hi.shift hs
      (by
        intro j hj
        show dns_k_permutor_E { p with stepi := s } (w32 (s + j)) ≥ p.length
        rw [E_stepi p hi.mask hi.shift]
        exact hmiss j hj)
      (by
        show dns_k_permutor_E { p with stepi := s } (w32 (s + k)) < p.length
        rw [E_stepi p hi.mask hi.shift]
        exact hhit)
    rw [this]
    have hE := E_stepi p hi.mask hi.shift s (w32 (s + k))
    simp only [hE]
    rfl

/-- C36, instance: the range `(0, 999)` (`L = 1000`, `shift = 5`) with the key
`1, 2, 3, 4` and the step counter at `4294967290`, close to its wrap. -/
theorem permutor_step_walk_bound_witness :
    ∃ p, dns_k_permutor_init 1 2 3 4 0 999 = some p ∧
      ∃ k v, 1 ≤ k ∧ k + (999 - 0 + 1) ≤ 2 ^ (2 * p.shift) + 1 ∧
        (∀ j, j + 1 < k → dns_k_permutor_E p (w32 (4294967290 + j)) ≥ 999 - 0 + 1) ∧
        dns_k_permutor_E p (w32 (4294967290 + (k - 1))) < 999 - 0 + 1 ∧
        ∀ fuel, k ≤ fuel →
          dns_k_permutor_step fuel { p with stepi := 4294967290 } =
            some (v, { p with stepi := w32 (4294967290 + k) }) :=
  permutor_step_walk_bound 1 2 3 4 0 999 4294967290 (by decide) (by decide) (by decide)
    (by decide)

/-! ## The cursor of the input buffer -/

set_option maxRecDepth 100000 in
/-- C31 (what the code does): `read_buffers` leaves the cursor of the input
buffer at `begin + len` whenever it was there on entry (or the buffer did not
exist yet) and the callbacks leave it there, whatever `read` returns, whatever
the policy is and whatever the callbacks return.
`rspamd_set_dispatcher_policy` leaves it there when the offset of the cursor
is below `2^31`.  It keeps the offset in a `gint`: for a buffer that holds
`2^31` bytes the cursor is at `begin + len` before the call and
`2^31` bytes before `begin` (offset `2^64 - 2^31` modulo `2^64`) after it. -/
theorem cursor_at_end_of_data :
    (∀ (bufsiz : Nat) (cbs : dispatcher_callbacks),
      (∀ f, cbs.read_callback = some f → ∀ fr x, pos_at_len x → pos_at_len (f fr x).2) →
      (∀ f, cbs.err_callback = some f → ∀ e x, pos_at_len x → pos_at_len (f e x)) →
      ∀ (fuel : Nat) (d : rspamd_io_dispatcher_t) (skip_read : Bool) (rd : io_result)
        (d1 : rspamd_io_dispatcher_t), pos_at_len d →
        read_buffers bufsiz cbs fuel d skip_read rd = some d1 → pos_at_len d1) ∧
    (∀ (bufsiz : Nat) (d : rspamd_io_dispatcher_t) (policy : io_policy) (nchars : Nat),
      pos_at_len d → (∀ b, d.in_buf = some b → b.pos < 2147483648) →
      pos_at_len (rspamd_set_dispatcher_policy bufsiz d policy nchars)) ∧
    pos_at_len large_line_dispatcher ∧
    (rspamd_set_dispatcher_policy 8192 large_line_dispatcher io_policy.BUFFER_CHARACTER
        4294967296).in_buf.map (fun b => (b.pos, b.data.len, b.data.size)) =
      some (18446744073709551616 - 2147483648, 2147483648, 4294967297) ∧
    ¬ pos_at_len (rspamd_set_dispatcher_policy 8192 large_line_dispatcher
        io_policy.BUFFER_CHARACTER 4294967296) := by
  have hval : (rspamd_set_dispatcher_policy 8192 large_line_dispatcher io_policy.BUFFER_CHARACTER
        4294967296).in_buf.map (fun b => (b.pos, b.data.len, b.data.size)) =
      some (18446744073709551616 - 2147483648, 2147483648, 4294967297) := by decide
  refine ⟨?_, ?_, ?_, hval, ?_⟩
  · intro bufsiz cbs hr he
    exact read_buffers_pos bufsiz cbs hr he
  · intro bufsiz d policy nchars hd hsmall
    exact set_policy_pos bufsiz d policy nchars hd hsmall
  · intro b hb
    simp only [large_line_dispatcher, Option.some.injEq] at hb
    subst hb
    rfl
  · intro h
    cases hib : (rspamd_set_dispatcher_policy 8192 large_line_dispatcher
        io_policy.BUFFER_CHARACTER 4294967296).in_buf with
    | none => rw [hib] at hval; simp at hval
    | some b =>
      have hpos := h b hib
      rw [hib] at hval
      simp only [Option.map_some', Option.some.injEq, Prod.mk.injEq] at hval
      rw [hval.1, hval.2.1] at hpos
      exact absurd hpos (by decide)

/-! ## The replacement of the input buffer -/

set_option maxRecDepth 100000 in
/-- C39 (what the code does): when `rspamd_set_dispatcher_policy` replaces the
input buffer, the new block has `nchars + 1` bytes, a `size_t` sum (switch to
CHARACTER, made when the old block is smaller than `nchars`) or `BUFSIZ` bytes (switch to LINE
or ANY, made when `0 < nchars < BUFSIZ`); the `len` bytes of the old buffer
are copied to its begin, `len` is kept and the cursor is set from a `gint`
copy of its offset.  With `BUFSIZ = 8192`, a buffer of 10001 bytes that holds
9000 and a switch to LINE with `nchars = 100` give a block of 8192 bytes with
`len = 9000`; with `BUFSIZ = 16`, a buffer that holds 20 bytes and a switch to
LINE with `nchars = 5` give a block of 16 bytes with `len = 20`, the 20 bytes
having been copied. -/
theorem set_policy_replacement :
    (∀ (bufsiz : Nat) (d : rspamd_io_dispatcher_t) (policy : io_policy) (nchars : Nat),
      (rspamd_set_dispatcher_policy bufsiz d policy nchars).in_buf = d.in_buf ∨
      ∃ b size, d.in_buf = some b ∧
        (size = ((if nchars ≠ 0 then nchars else bufsiz) + 1) % SIZE_T_MOD ∧
            b.data.size < nchars ∨
          size = bufsiz ∧ nchars ≠ 0 ∧ nchars < bufsiz) ∧
        (rspamd_set_dispatcher_policy bufsiz d policy nchars).in_buf =
          some { data := { mem := mem_blit (fstralloc size).mem 0
                                    (mem_slice b.data.mem 0 b.data.len),
                           len := b.data.len, size := size },
                 pos := gint_offset b.pos }) ∧
    (rspamd_set_dispatcher_policy 8192 character10000_dispatcher io_policy.BUFFER_LINE
        100).in_buf.map (fun b => (b.data.size, b.data.len, b.pos)) = some (8192, 9000, 9000) ∧
    (rspamd_set_dispatcher_policy 16 character20_dispatcher io_policy.BUFFER_LINE 5).in_buf.map
      (fun b => (b.data.size, b.data.len, b.pos, b.data.mem)) =
      some (16, 20, 20, bytes_of "0123456789abcdefghij") := by
  refine ⟨?_, by decide, by decide⟩
  intro bufsiz d policy nchars
  exact set_policy_in_buf bufsiz d policy nchars

end Rspamd
